import Mathlib

/-!
# topicctl: the topic applier and its configuration checks

A shallow embedding of `pkg/config/load.go` and of the topic applier exercised by
`pkg/apply/apply_test.go`, with the properties the specification states about them.

Go values are embedded as follows.

* `string` is `String`; `map[string]string` is an association list `ConfigMap`,
  read with `mget`, written with `mset`, deleted from with `mdel`.
* `error` is `Option`: `none` is Go's `nil`.
* `int` and `int64` are `Int`; where a product can leave the range of an `int64` it is
  reduced by `wrapInt64`. `[][]int` replica assignments are `List (List Int)`, the index
  being the partition id.
* The applier (`pkg/apply/apply.go`) is not among the source files; its model follows the
  specification and the behaviour pinned down by `apply_test.go`, and every such
  definition says so in its doc comment.
* A `string` is a text, except for the topic name of `ProcessTopicConfigIntoMap`, where the
  encoding decides the control flow: there it is a `GoString`, a sequence of well-encoded
  characters and stray bytes.
* A JSON document is a `JSON` tree; a value held in an `interface{}` is a `GoValue`.
* Libraries (the table writer, the file system, the environment, the YAML decoder) are
  parameters of the functions that call them.
-/

namespace Topicctl

/-! ## String maps -/

/-- A Go `map[string]string`, kept as an association list. -/
abbrev ConfigMap := List (String × String)

/-- Map read `m[k]`, with the presence bit: `none` when `k` is not a key. -/
def mget : ConfigMap → String → Option String
  | [], _ => none
  | (k', v) :: rest, k => if k' = k then some v else mget rest k

/-- Map write `m[k] = v`: replaces the binding in place, or appends a new one. -/
def mset : ConfigMap → String → String → ConfigMap
  | [], k, v => [(k, v)]
  | (k', v') :: rest, k, v => if k' = k then (k, v) :: rest else (k', v') :: mset rest k v

/-- Map delete `delete(m, k)`: removes every binding of `k`. -/
def mdel : ConfigMap → String → ConfigMap
  | [], _ => []
  | (k', v') :: rest, k => if k' = k then mdel rest k else (k', v') :: mdel rest k

/-- A list of keys with repetitions removed, keeping first appearances. -/
def dedupKeys : List String → List String
  | [] => []
  | k :: ks => k :: (dedupKeys ks).filter (fun k' => decide (k' ≠ k))

/-- The keys of a map, each listed once, in order of first appearance. -/
def mkeys (m : ConfigMap) : List String := dedupKeys (m.map Prod.fst)

/-! ## Decimal integers (`strconv.ParseInt(s, 10, 64)` and `fmt.Sprintf("%d", n)`) -/

/-- The character of a decimal digit `d < 10`. -/
def digitChar (d : Nat) : Char := Char.ofNat (48 + d)

/-- The value of a decimal digit character, `none` for any other character. -/
def digitVal (c : Char) : Option Nat :=
  if 48 ≤ c.toNat ∧ c.toNat ≤ 57 then some (c.toNat - 48) else none

/-- Digits of `n`, most significant first, pushed in front of `acc`; `fuel` bounds the loop. -/
def digitsAux : Nat → Nat → List Char → List Char
  | 0, _, acc => acc
  | fuel + 1, n, acc =>
    if n < 10 then digitChar n :: acc
    else digitsAux fuel (n / 10) (digitChar (n % 10) :: acc)

/-- The decimal digits of a natural number. -/
def natDigits (n : Nat) : List Char := digitsAux (n + 1) n []

/-- The `%d` rendering of an integer. -/
def formatInt (i : Int) : String :=
  if i < 0 then String.mk ('-' :: natDigits i.natAbs) else String.mk (natDigits i.natAbs)

/-- Reads a run of decimal digits, continuing from the value `acc`. -/
def parseDigits : List Char → Nat → Option Nat
  | [], acc => some acc
  | c :: cs, acc =>
    match digitVal c with
    | none => none
    | some d => parseDigits cs (acc * 10 + d)

/-- A non-empty run of decimal digits read as a natural number. -/
def parseNat (cs : List Char) : Option Nat :=
  match cs with
  | [] => none
  | _ :: _ => parseDigits cs 0

/-- The function `strconv.ParseInt(s, 10, 64)`: an optional sign, then at least one decimal
digit and nothing else; `none` (an error) also when the value is outside the `int64` range. -/
def parseInt (s : String) : Option Int :=
  match s.data with
  | [] => none
  | c :: cs =>
    if c = '-' then
      (parseNat cs).bind (fun n => if n ≤ 9223372036854775808 then some (-(n : Int)) else none)
    else if c = '+' then
      (parseNat cs).bind (fun n => if n ≤ 9223372036854775807 then some (n : Int) else none)
    else
      (parseNat (c :: cs)).bind
        (fun n => if n ≤ 9223372036854775807 then some (n : Int) else none)

/-! ## pkg/config -/

/-- The type `config.ResourceMeta`: the metadata block of a topic config. -/
structure ResourceMeta where
  Name : String
  Cluster : String
  Region : String
  Environment : String
  deriving DecidableEq, Repr

/-- The type `config.ClusterMeta`: the metadata block of a cluster config. -/
structure ClusterMeta where
  Name : String
  Region : String
  Environment : String
  deriving DecidableEq, Repr

/-- The type `config.ClusterConfig`, reduced to the part `CheckConsistency` reads. -/
structure ClusterConfig where
  Meta : ClusterMeta
  deriving DecidableEq, Repr

/-- A Go `error` holding a `*multierror.Error`: `none` is `nil`, `some es` lists the
wrapped error messages. -/
abbrev MultiError := Option (List String)

/-- The function `multierror.Append(err, e)`: always a non-nil error. -/
def multierrorAppend (err : MultiError) (e : String) : MultiError :=
  match err with
  | none => some [e]
  | some es => some (es ++ [e])

/-- The function `config.CheckConsistency` of `load.go`. -/
def CheckConsistency (resourceMeta : ResourceMeta) (clusterConfig : ClusterConfig) :
    MultiError :=
  let err : MultiError := none
  let err :=
    if resourceMeta.Cluster ≠ clusterConfig.Meta.Name then
      multierrorAppend err "Topic cluster name does not match name in cluster config"
    else err
  let err :=
    if resourceMeta.Environment ≠ clusterConfig.Meta.Environment then
      multierrorAppend err "Topic environment does not match cluster environment"
    else err
  let err :=
    if resourceMeta.Region ≠ clusterConfig.Meta.Region then
      multierrorAppend err "Topic region does not match cluster region"
    else err
  err

/-- The type `config.PlacementStrategy`: the closed set of strategies of the planner. -/
inductive PlacementStrategy where
  | any
  | balancedLeaders
  | inRack
  | static
  | staticInRack
  deriving DecidableEq, Repr

/-- The type `config.PickerMethod`: the tie-break among eligible brokers. -/
inductive PickerMethod where
  | lowestIndex
  | randomized
  deriving DecidableEq, Repr

/-- The type `config.TopicPlacementConfig`. -/
structure TopicPlacementConfig where
  Strategy : PlacementStrategy
  Picker : PickerMethod
  StaticAssignments : List (List Int)
  StaticRackAssignments : List String
  deriving DecidableEq, Repr

/-- The type `config.TopicMigrationConfig`. The throttle is a rate in MB/s held in an `int64`
(the test compares the product with an `int64`); the batch size is a count. -/
structure TopicMigrationConfig where
  ThrottleMB : Int
  PartitionBatchSize : Nat
  deriving DecidableEq, Repr

/-- The type `config.TopicSpec`, with the string-to-string settings map of the data model. -/
structure TopicSpec where
  Partitions : Nat
  ReplicationFactor : Nat
  RetentionMinutes : Nat
  Settings : ConfigMap
  PlacementConfig : TopicPlacementConfig
  MigrationConfig : TopicMigrationConfig
  deriving DecidableEq, Repr

/-- The type `config.TopicConfig`. -/
structure TopicConfig where
  Meta : ResourceMeta
  Spec : TopicSpec
  deriving DecidableEq, Repr

/-! ## Cluster state seen through the admin client -/

/-- The live state of a topic (`admin.TopicInfo`): its config map and, for each partition id
in order, the ordered replica list whose position 0 is the preferred leader. -/
structure TopicInfo where
  Name : String
  Config : ConfigMap
  Partitions : List (List Int)
  deriving DecidableEq, Repr

/-- A broker (`admin.BrokerInfo`): id, rack label and current config map. -/
structure BrokerInfo where
  ID : Int
  Rack : String
  Config : ConfigMap
  deriving DecidableEq, Repr

/-- The capability bits of the admin client (`GetSupportedFeatures`). -/
structure SupportedFeatures where
  Locks : Bool
  DynamicBrokerConfigs : Bool
  deriving DecidableEq, Repr

/-- The cluster as the admin client observes it: the topics, the brokers, the capability
bits of the client, and whether another process holds the cluster lock (the lock that
`TestApplyExistingThrottles` takes with `acquireClusterLock` to stand for a migration in
progress elsewhere). -/
structure Cluster where
  topics : List TopicInfo
  brokers : List BrokerInfo
  features : SupportedFeatures
  lockHeld : Bool
  deriving DecidableEq, Repr

/-- The broker config key `admin.LeaderThrottledKey`. -/
def LeaderThrottledKey : String := "leader.replication.throttled.rate"

/-- The broker config key `admin.FollowerThrottledKey`. -/
def FollowerThrottledKey : String := "follower.replication.throttled.rate"

/-- The topic config key `admin.LeaderReplicasThrottledKey`. -/
def LeaderReplicasThrottledKey : String := "leader.replicas.throttled"

/-- The topic config key `admin.FollowerReplicasThrottledKey`. -/
def FollowerReplicasThrottledKey : String := "follower.replicas.throttled"

/-- Modelled from the spec: the call `GetTopic(name)` of the admin client, which is not among
the source files: the first topic of that name, `none` for NotFound. -/
def getTopic : List TopicInfo → String → Option TopicInfo
  | [], _ => none
  | t :: rest, name => if t.Name = name then some t else getTopic rest name

/-- Modelled from the spec: the effect of a mutating call of the admin client (not among the
source files) on one topic: the topic of the same name is replaced, or the topic is added. -/
def putTopic : List TopicInfo → TopicInfo → List TopicInfo
  | [], t => [t]
  | t' :: rest, t => if t'.Name = t.Name then t :: rest else t' :: putTopic rest t

/-- The cluster with the state of one topic stored. -/
def Cluster.withTopic (cl : Cluster) (t : TopicInfo) : Cluster :=
  { cl with topics := putTopic cl.topics t }

/-! ## Change records (`types.go` and the trackers built in `apply_test.go`) -/

/-- The type `IntValueChanges` of `types.go`. -/
structure IntValueChanges where
  Current : Int
  Updated : Int
  deriving DecidableEq, Repr

/-- The type `ConfigEntryChanges` of `types.go`. -/
structure ConfigEntryChanges where
  Name : String
  Current : String
  Updated : String
  deriving DecidableEq, Repr

/-- The type `ReplicaAssignmentChanges` of `types.go`; a `nil` slice is `none`. -/
structure ReplicaAssignmentChanges where
  Partition : Int
  CurrentReplicas : Option (List Int)
  UpdatedReplicas : Option (List Int)
  deriving DecidableEq, Repr

/-- The type `ActionEnum` of `types.go`, a string type. -/
abbrev ActionEnum := String

/-- The constant `ActionEnumCreate` of `types.go`. -/
def ActionEnumCreate : ActionEnum := "create"

/-- The constant `ActionEnumUpdate` of `types.go`. -/
def ActionEnumUpdate : ActionEnum := "update"

/-- The type `NewConfigEntry` used by the trackers of `apply_test.go`. -/
structure NewConfigEntry where
  Name : String
  Value : String
  deriving DecidableEq, Repr

/-- The type `NewChangesTracker` as `apply_test.go` builds it: the record of a creation. -/
structure NewChangesTracker where
  Topic : String
  DryRun : Bool
  NumPartitions : Int
  ReplicationFactor : Int
  ConfigEntries : Option (List NewConfigEntry)
  Action : ActionEnum
  deriving DecidableEq, Repr

/-- The type `UpdateChangesTracker` as `apply_test.go` builds it: the record of an update.
Pointer fields are `Option`s, `none` being `nil`. -/
structure UpdateChangesTracker where
  Action : ActionEnum
  DryRun : Bool
  Topic : String
  NewConfigEntries : Option (List NewConfigEntry)
  UpdatedConfigEntries : Option (List ConfigEntryChanges)
  MissingKeys : List String
  NumPartitions : Option IntValueChanges
  ReplicaAssignments : Option (List ReplicaAssignmentChanges)
  deriving DecidableEq, Repr

/-- What `Apply` hands back on success: a creation record, an update record, or nothing
(the nil `*UpdateChangesTracker` of a no-op). -/
inductive Changes where
  | created (c : NewChangesTracker)
  | updated (c : UpdateChangesTracker)
  deriving DecidableEq, Repr

/-- The error kinds of the applier that this model can raise. -/
inductive ApplyError where
  | validation (msgs : List String)
  | planning (msg : String)
  deriving DecidableEq, Repr

/-! ## The topic applier -/

/-- The type `TopicApplierConfig` as `apply_test.go` fills it in. `RetentionDropStepDuration`
is kept in milliseconds, the unit of `retention.ms`; an override equal to zero is unset. The
throttle override is a Go `int`, a 64-bit integer. -/
structure TopicApplierConfig where
  BrokerThrottleMBsOverride : Int
  ClusterConfig : ClusterConfig
  TopicConfig : TopicConfig
  DryRun : Bool
  Destructive : Bool
  Rebalance : Bool
  SkipConfirm : Bool
  PartitionBatchSizeOverride : Nat
  RetentionDropStepDuration : Nat
  deriving DecidableEq, Repr

/-- The type `TopicApplier`, with the fields `apply_test.go` reads and writes;
`throttleBytes` is an `int64` (the test compares it with `int64(2000000)`). -/
structure TopicApplier where
  config : TopicApplierConfig
  topicConfig : TopicConfig
  clusterConfig : ClusterConfig
  maxBatchSize : Nat
  throttleBytes : Int
  deriving DecidableEq, Repr

/-- The smallest value of the type `int64`. -/
def minInt64 : Int := -9223372036854775808

/-- The largest value of the type `int64`. -/
def maxInt64 : Int := 9223372036854775807

/-- The `int64` that a result of Go's `int64` arithmetic is: the integer reduced modulo 2^64
into the range from `minInt64` to `maxInt64`. -/
def wrapInt64 (i : Int) : Int :=
  (i + 9223372036854775808) % 18446744073709551616 - 9223372036854775808

/-- Modelled from the spec: the constructor `NewTopicApplier` of `apply.go`, which is not
among the source files. The throttle of the migration config, or the override when it is
set, is read as megabytes per second and multiplied by 1,000,000 into the `int64` field
`throttleBytes`, a multiplication of `int64`s that wraps around; the batch size is
overridden in the same way. -/
def NewTopicApplier (applierConfig : TopicApplierConfig) : TopicApplier :=
  { config := applierConfig
    topicConfig := applierConfig.TopicConfig
    clusterConfig := applierConfig.ClusterConfig
    maxBatchSize :=
      if applierConfig.PartitionBatchSizeOverride ≠ 0 then
        applierConfig.PartitionBatchSizeOverride
      else applierConfig.TopicConfig.Spec.MigrationConfig.PartitionBatchSize
    throttleBytes :=
      if applierConfig.BrokerThrottleMBsOverride ≠ 0 then
        wrapInt64 (applierConfig.BrokerThrottleMBsOverride * 1000000)
      else wrapInt64 (applierConfig.TopicConfig.Spec.MigrationConfig.ThrottleMB * 1000000) }

/-- Modelled from the spec: the arguments of the placement planner (section 4.1; the planner
is not among the source files): the brokers, the current assignments, the desired
partition count, the replication factor, the placement config, the topic name that seeds a
randomized picker, and whether the driver asked for a rebalance. -/
structure PlanRequest where
  brokers : List BrokerInfo
  current : List (List Int)
  desiredPartitions : Nat
  replicationFactor : Nat
  placement : TopicPlacementConfig
  topicName : String
  rebalance : Bool
  deriving DecidableEq, Repr

/-- Modelled from the spec: the placement planner, a pure function from a request to target
assignments or a planning error. The planner is not among the source files and the applier
takes it as a parameter. -/
abbrev Planner := PlanRequest → Except String (List (List Int))

/-- Modelled from the spec: the request that `apply.go` (not among the source files) sends to
the planner for the given current assignments. -/
def planRequest (a : TopicApplier) (brokers : List BrokerInfo) (current : List (List Int))
    (desiredPartitions : Nat) (rebalance : Bool) : PlanRequest :=
  { brokers := brokers
    current := current
    desiredPartitions := desiredPartitions
    replicationFactor := a.topicConfig.Spec.ReplicationFactor
    placement := a.topicConfig.Spec.PlacementConfig
    topicName := a.topicConfig.Meta.Name
    rebalance := rebalance }

/-- The config key `admin.RetentionKey`. -/
def RetentionKey : String := "retention.ms"

/-- Modelled from the spec: the desired settings the reconciler of `apply.go` (not among the
source files) compares against the live config, namely the settings of the spec together
with `retention.ms` derived from `RetentionMinutes` (minutes times 60,000). -/
def desiredSettings (spec : TopicSpec) : ConfigMap :=
  mset spec.Settings RetentionKey (formatInt ((spec.RetentionMinutes : Int) * 60000))

/-- Modelled from the spec: the new keys of the settings reconciler, present in the spec and
absent live. -/
def newKeys (desired live : ConfigMap) : List String :=
  (mkeys desired).filter (fun k => (mget live k).isNone)

/-- Modelled from the spec: the updated keys of the settings reconciler, present in both
maps with different values. -/
def updatedKeys (desired live : ConfigMap) : List String :=
  (mkeys desired).filter (fun k => (mget live k).isSome && decide (mget live k ≠ mget desired k))

/-- Modelled from the spec: the missing keys of the settings reconciler, present live and
absent in the spec. -/
def missingKeys (desired live : ConfigMap) : List String :=
  (mkeys live).filter (fun k => (mget desired k).isNone)

/-- Modelled from the spec: the retention reduction step of the settings reconciler. If the
desired retention is smaller than the current one by more than the step, the value written
is the larger of the desired retention and the current retention minus the step; otherwise
it is the desired retention. All three are in milliseconds. -/
def steppedRetention (current desired : Int) (step : Nat) : Int :=
  if current - desired > (step : Int) then max desired (current - (step : Int)) else desired

/-- Modelled from the spec: the value the settings reconciler writes for key `k`. It is the
desired value, except that a `retention.ms` whose live value reads as an integer goes
through the retention reduction step. -/
def valueToWrite (a : TopicApplier) (live : ConfigMap) (k : String) : String :=
  if k = RetentionKey then
    match (mget live RetentionKey).bind parseInt with
    | some current =>
      formatInt (steppedRetention current ((a.topicConfig.Spec.RetentionMinutes : Int) * 60000)
        a.config.RetentionDropStepDuration)
    | none => (mget (desiredSettings a.topicConfig.Spec) k).getD ""
  else (mget (desiredSettings a.topicConfig.Spec) k).getD ""

/-- Modelled from the spec: the call `UpdateTopicConfig` of the admin client (not among the
source files) for a list of entries: each entry is written in turn. -/
def writeEntries (m : ConfigMap) (entries : List (String × String)) : ConfigMap :=
  entries.foldl (fun acc e => mset acc e.1 e.2) m

/-- Modelled from the spec: the deletion of the missing keys by the settings reconciler of
`apply.go` (not among the source files): each listed key is removed from the config map. -/
def deleteKeys (m : ConfigMap) (keys : List String) : ConfigMap :=
  keys.foldl mdel m

/-- A list as a pointer field of a record: `nil` when there is nothing to list. -/
def populated {α : Type} (l : List α) : Option (List α) :=
  if l.isEmpty then none else some l

/-- What the settings reconciler found: new entries, updated entries and missing keys. -/
structure SettingsChanges where
  NewConfigEntries : List NewConfigEntry
  UpdatedConfigEntries : List ConfigEntryChanges
  MissingKeys : List String
  deriving DecidableEq, Repr

/-- Modelled from the spec: the diff of the settings reconciler of `apply.go` (not among the
source files) for a live config. -/
def settingsChanges (a : TopicApplier) (live : ConfigMap) : SettingsChanges :=
  let desired := desiredSettings a.topicConfig.Spec
  { NewConfigEntries :=
      (newKeys desired live).map (fun k => { Name := k, Value := valueToWrite a live k })
    UpdatedConfigEntries :=
      (updatedKeys desired live).map
        (fun k => { Name := k, Current := (mget live k).getD "", Updated := valueToWrite a live k })
    MissingKeys := missingKeys desired live }

/-- Modelled from the spec: the settings reconciler of `apply.go` (not among the source
files). New and updated keys are written, missing keys are deleted only if `Destructive` is
set, and nothing is written in a dry run. Returns the live topic after the phase. -/
def updateSettings (a : TopicApplier) (topicInfo : TopicInfo) : TopicInfo :=
  let desired := desiredSettings a.topicConfig.Spec
  let live := topicInfo.Config
  if a.config.DryRun then topicInfo
  else
    let written := writeEntries live
      ((newKeys desired live ++ updatedKeys desired live).map (fun k => (k, valueToWrite a live k)))
    let cleaned := if a.config.Destructive then deleteKeys written (missingKeys desired live) else written
    { topicInfo with Config := cleaned }

/-- Modelled from the spec: the replication factor of a live topic that `apply.go` (not among
the source files) compares with the spec: the largest replica-list length. -/
def liveReplication (topicInfo : TopicInfo) : Nat :=
  (topicInfo.Partitions.map List.length).foldr max 0

/-- Modelled from the spec: the partition extension phase of `apply.go` (not among the
source files). When the spec asks for more partitions than the topic has, the planner is
run in extension mode, the existing assignments are kept and only the new partitions are
added (not in a dry run); the partition delta is recorded. -/
def updatePartitions (plan : Planner) (a : TopicApplier) (brokers : List BrokerInfo)
    (topicInfo : TopicInfo) : Except ApplyError (TopicInfo × Option IntValueChanges) :=
  let currPartitions := topicInfo.Partitions.length
  if a.topicConfig.Spec.Partitions > currPartitions then
    match plan (planRequest a brokers topicInfo.Partitions a.topicConfig.Spec.Partitions false) with
    | .error e => .error (.planning e)
    | .ok desired =>
      let extended := topicInfo.Partitions ++ desired.drop currPartitions
      .ok (if a.config.DryRun then topicInfo else { topicInfo with Partitions := extended },
        some { Current := currPartitions, Updated := a.topicConfig.Spec.Partitions })
  else .ok (topicInfo, none)

/-- Modelled from the spec: the replica assignment deltas that `apply.go` (not among the
source files) records, in the shape `TestApplyPlacementUpdates` expects: one entry per
partition, whose updated replicas are `nil` when the partition keeps its replicas. -/
def assignmentChanges : Nat → List (List Int) → List (List Int) → List ReplicaAssignmentChanges
  | _, [], _ => []
  | i, c :: cs, [] =>
    { Partition := i, CurrentReplicas := some c, UpdatedReplicas := none } ::
      assignmentChanges (i + 1) cs []
  | i, c :: cs, d :: ds =>
    { Partition := i, CurrentReplicas := some c,
      UpdatedReplicas := if d = c then none else some d } :: assignmentChanges (i + 1) cs ds

/-- Modelled from the spec: the placement phase of `apply.go` (not among the source files).
The planner is run on all current partitions (in rebalance mode when `Rebalance` is set);
when its target differs from the current assignments the migration is run to its converged
result (not in a dry run) and the replica assignment deltas are recorded. -/
def updatePlacement (plan : Planner) (a : TopicApplier) (brokers : List BrokerInfo)
    (topicInfo : TopicInfo) :
    Except ApplyError (TopicInfo × Option (List ReplicaAssignmentChanges)) :=
  match plan (planRequest a brokers topicInfo.Partitions topicInfo.Partitions.length
      a.config.Rebalance) with
  | .error e => .error (.planning e)
  | .ok desired =>
    if desired = topicInfo.Partitions then .ok (topicInfo, none)
    else
      .ok (if a.config.DryRun then topicInfo else { topicInfo with Partitions := desired },
        some (assignmentChanges 0 topicInfo.Partitions desired))

/-- Modelled from the spec: the method `IsThrottled` of `admin.TopicInfo` (not among the
source files), as `TestApplyExistingThrottles` reads it: the topic carries a non-empty
throttled-replicas list. -/
def TopicInfo.IsThrottled (t : TopicInfo) : Bool :=
  decide ((mget t.Config LeaderReplicasThrottledKey).getD "" ≠ "") ||
    decide ((mget t.Config FollowerReplicasThrottledKey).getD "" ≠ "")

/-- Modelled from the spec: the function `admin.ThrottledBrokerIDs` (not among the source
files), as `TestApplyExistingThrottles` reads it: the ids of the brokers that carry a
non-empty throttle rate. -/
def ThrottledBrokerIDs (brokers : List BrokerInfo) : List Int :=
  (brokers.filter (fun b =>
    decide ((mget b.Config LeaderThrottledKey).getD "" ≠ "") ||
      decide ((mget b.Config FollowerThrottledKey).getD "" ≠ ""))).map (fun b => b.ID)

/-- Modelled from the spec: the removal of the two throttled-replicas lists of a topic by the
throttle cleanup of `apply.go` (not among the source files). -/
def clearTopicThrottles (t : TopicInfo) : TopicInfo :=
  { t with
    Config := mdel (mdel t.Config LeaderReplicasThrottledKey) FollowerReplicasThrottledKey }

/-- Modelled from the spec: the removal of the two throttle rates of a broker by the throttle
cleanup of `apply.go` (not among the source files). -/
def clearBrokerThrottles (b : BrokerInfo) : BrokerInfo :=
  { b with Config := mdel (mdel b.Config LeaderThrottledKey) FollowerThrottledKey }

/-- Modelled from the spec: the throttle cleanup that ends a successful run of `Apply`
(section 4.5 step 5 and section 4.2; `apply.go` is not among the source files), under the
conditions that `TestApplyExistingThrottles` pins. Nothing is cleaned in a dry run, nor
while another process holds the cluster lock ("Topic1 is still throttled because the lock
is in place"). Otherwise the throttled-replicas lists of the applier's topic are removed,
and then the throttle rates of all brokers are removed, unless a topic of the cluster
still carries a throttled-replicas list ("throttles are still on brokers because of the
throttle on topic2") or the client lacks dynamic broker configs. -/
def throttleCleanup (a : TopicApplier) (cl : Cluster) : Cluster :=
  if a.config.DryRun || (cl.features.Locks && cl.lockHeld) then cl
  else
    let topics :=
      match getTopic cl.topics a.topicConfig.Meta.Name with
      | some t => putTopic cl.topics (clearTopicThrottles t)
      | none => cl.topics
    let brokers :=
      if cl.features.DynamicBrokerConfigs && !(topics.any TopicInfo.IsThrottled) then
        cl.brokers.map clearBrokerThrottles
      else cl.brokers
    { cl with topics := topics, brokers := brokers }

/-- The outcome of one `Apply`: the returned record or error, and the cluster afterwards. -/
structure ApplyOutcome where
  result : Except ApplyError (Option Changes)
  cluster : Cluster

/-- Modelled from the spec: the update record of `apply.go` (not among the source files);
`nil` when no field is populated. -/
def updateRecord (a : TopicApplier) (s : SettingsChanges) (numPartitions : Option IntValueChanges)
    (replicaAssignments : Option (List ReplicaAssignmentChanges)) : Option Changes :=
  if s.NewConfigEntries.isEmpty && s.UpdatedConfigEntries.isEmpty && s.MissingKeys.isEmpty &&
      numPartitions.isNone && replicaAssignments.isNone then none
  else
    some (.updated
      { Action := ActionEnumUpdate
        DryRun := a.config.DryRun
        Topic := a.topicConfig.Meta.Name
        NewConfigEntries := populated s.NewConfigEntries
        UpdatedConfigEntries := populated s.UpdatedConfigEntries
        MissingKeys := s.MissingKeys
        NumPartitions := numPartitions
        ReplicaAssignments := replicaAssignments })

/-- Modelled from the spec: the update path of `Apply` in `apply.go` (not among the source
files). A replication factor that differs from the live one is rejected before any
mutation; then settings, partition extension and placement run in that order, and a failure
of a later phase does not roll back an earlier one. A run that succeeds ends with the
throttle cleanup; a run that fails leaves the throttles in place. -/
def applyExistingTopic (plan : Planner) (a : TopicApplier) (cl : Cluster)
    (topicInfo : TopicInfo) : ApplyOutcome :=
  if liveReplication topicInfo ≠ a.topicConfig.Spec.ReplicationFactor then
    { result := .error (.validation ["Replication factor cannot be changed"]), cluster := cl }
  else
    let settings := settingsChanges a topicInfo.Config
    let afterSettings := updateSettings a topicInfo
    match updatePartitions plan a cl.brokers afterSettings with
    | .error e => { result := .error e, cluster := cl.withTopic afterSettings }
    | .ok (afterPartitions, numPartitions) =>
      match updatePlacement plan a cl.brokers afterPartitions with
      | .error e => { result := .error e, cluster := cl.withTopic afterPartitions }
      | .ok (afterPlacement, replicaAssignments) =>
        { result := .ok (updateRecord a settings numPartitions replicaAssignments)
          cluster := throttleCleanup a (cl.withTopic afterPlacement) }

/-- Modelled from the spec: the create path of `Apply` in `apply.go` (not among the source
files). The planner gives the initial assignments; unless it is a dry run the topic is
created with them and with the desired settings, and the run ends with the throttle
cleanup; a creation record is emitted. -/
def applyNewTopic (plan : Planner) (a : TopicApplier) (cl : Cluster) : ApplyOutcome :=
  match plan (planRequest a cl.brokers [] a.topicConfig.Spec.Partitions false) with
  | .error e => { result := .error (.planning e), cluster := cl }
  | .ok assignments =>
    { result := .ok (some (.created
        { Topic := a.topicConfig.Meta.Name
          DryRun := a.config.DryRun
          NumPartitions := a.topicConfig.Spec.Partitions
          ReplicationFactor := a.topicConfig.Spec.ReplicationFactor
          ConfigEntries := some ((desiredSettings a.topicConfig.Spec).map
            (fun e => { Name := e.1, Value := e.2 }))
          Action := ActionEnumCreate }))
      cluster :=
        if a.config.DryRun then cl
        else throttleCleanup a (cl.withTopic
          { Name := a.topicConfig.Meta.Name
            Config := desiredSettings a.topicConfig.Spec
            Partitions := assignments }) }

/-- Modelled from the spec: the driver `Apply` of `apply.go` (not among the source files),
for an unattended run (`SkipConfirm`) whose remote calls succeed. The spec is checked
against the cluster config, the live topic is fetched, and the create or the update path
is taken, each of which ends a successful run with the throttle cleanup. -/
def Apply (plan : Planner) (a : TopicApplier) (cl : Cluster) : ApplyOutcome :=
  match CheckConsistency a.topicConfig.Meta a.clusterConfig with
  | some msgs => { result := .error (.validation msgs), cluster := cl }
  | none =>
    match getTopic cl.topics a.topicConfig.Meta.Name with
    | none => applyNewTopic plan a cl
    | some topicInfo => applyExistingTopic plan a cl topicInfo

/-- Modelled from the spec: the planner under the strategy `static` (section 4.1; the planner
is not among the source files). The static assignments of the placement config must be
provided and are used verbatim, as `TestApplyPlacementUpdates` checks for the initial
layout; a wrong row count, a wrong row width or a broker repeated within a row is an
error. -/
def staticPlanner : Planner := fun req =>
  if req.placement.StaticAssignments ≠ [] ∧
      req.placement.StaticAssignments.length = req.desiredPartitions ∧
      (∀ row ∈ req.placement.StaticAssignments,
        row.length = req.replicationFactor ∧ row.Nodup) then
    .ok req.placement.StaticAssignments
  else .error "static assignments do not fit the partition count and the replication factor"

/-- Modelled from the spec: the planner as far as section 4.1 determines its result. Under
the strategy `static` the plan is the one of `staticPlanner`; under every other strategy the
specification states constraints but no algorithm, and the plan is left to the parameter. -/
def specPlanner (other : Planner) : Planner := fun req =>
  match req.placement.Strategy with
  | .static => staticPlanner req
  | _ => other req

/-! ## Worked examples: the cluster and the topic of `apply_test.go` -/

/-- The cluster config of `testApplier`. -/
def testClusterConfig : ClusterConfig :=
  { Meta := { Name := "test-cluster", Region := "test-region", Environment := "test-environment" } }

/-- The topic config of `TestApplyBasicUpdates` and `TestApplyDryRun`; the partition count,
the replication factor, the retention, the strategy and the settings vary along the tests. -/
def testTopicConfig (partitions replicationFactor retentionMinutes : Nat)
    (strategy : PlacementStrategy) (settings : ConfigMap) : TopicConfig :=
  { Meta :=
      { Name := "apply-topic", Cluster := "test-cluster", Region := "test-region",
        Environment := "test-environment" }
    Spec :=
      { Partitions := partitions
        ReplicationFactor := replicationFactor
        RetentionMinutes := retentionMinutes
        Settings := settings
        PlacementConfig :=
          { Strategy := strategy, Picker := .lowestIndex, StaticAssignments := [],
            StaticRackAssignments := [] }
        MigrationConfig := { ThrottleMB := 2, PartitionBatchSize := 3 } } }

/-- The applier of `testApplier` with `RetentionDropStepDuration` set to 50 minutes. -/
def testApplier (dryRun destructive : Bool) (topicConfig : TopicConfig) : TopicApplier :=
  NewTopicApplier
    { BrokerThrottleMBsOverride := 0
      ClusterConfig := testClusterConfig
      TopicConfig := topicConfig
      DryRun := dryRun
      Destructive := destructive
      Rebalance := false
      SkipConfirm := true
      PartitionBatchSizeOverride := 0
      RetentionDropStepDuration := 3000000 }

/-- The six brokers of the worked examples, with the ids 1 to 6 of the test cluster. The
rack labels are those that `TestApplyExistingThrottles` uses (`zone1`, `zone2`, `zone3`);
which broker sits in which rack is not among the source files and no property below
depends on it. -/
def testBrokers : List BrokerInfo :=
  [ { ID := 1, Rack := "zone1", Config := [] }, { ID := 2, Rack := "zone1", Config := [] },
    { ID := 3, Rack := "zone2", Config := [] }, { ID := 4, Rack := "zone2", Config := [] },
    { ID := 5, Rack := "zone3", Config := [] }, { ID := 6, Rack := "zone3", Config := [] } ]

/-- A planner for the worked examples: it keeps the current assignments and gives each new
partition the replicas `[1, 2]`. -/
def keepPlanner : Planner := fun req =>
  .ok (req.current ++ List.replicate (req.desiredPartitions - req.current.length) [1, 2])

/-- A planner for the worked examples that the constraints of the strategy `any` admit (rows
of the asked width, no broker twice in a row) and that is a function of its request: it
swaps the order of the replicas of every current partition and gives each new partition the
replicas `[1, 2]`. -/
def swapPlanner : Planner := fun req =>
  .ok (req.current.map List.reverse ++
    List.replicate (req.desiredPartitions - req.current.length) [1, 2])

/-- The live topic of the worked examples: nine partitions with replicas `[1, 2]` and the
given config. -/
def liveTopic (config : ConfigMap) : TopicInfo :=
  { Name := "apply-topic", Config := config, Partitions := List.replicate 9 [1, 2] }

/-- The test cluster holding the given topics. -/
def testCluster (topics : List TopicInfo) : Cluster :=
  { topics := topics, brokers := testBrokers
    features := { Locks := true, DynamicBrokerConfigs := true }, lockHeld := false }

/-- A live topic of `TestApplyExistingThrottles`: three partitions of two replicas, the
retention of the spec and, as the test writes it by hand, the follower throttled-replicas
list `1:3,3:4`; the list is empty once the test has reset it. -/
def throttledTestTopic (name : String) (throttled : Bool) : TopicInfo :=
  { Name := name
    Config :=
      [("retention.ms", "30000000"),
        (FollowerReplicasThrottledKey, if throttled then "1:3,3:4" else "")]
    Partitions := [[1, 2], [2, 3], [3, 4]] }

/-- The cluster of `TestApplyExistingThrottles` once the throttles are added by hand: the
applier's topic and a second topic, each with a follower throttled-replicas list, broker 1
with a follower rate and broker 2 with a leader rate. The arguments say whether another
applier holds the cluster lock and whether the second topic still carries its list. -/
def existingThrottlesCluster (lockHeld secondTopicThrottled : Bool) : Cluster :=
  { topics :=
      [throttledTestTopic "apply-topic" true,
        throttledTestTopic "apply-topic-2" secondTopicThrottled]
    brokers :=
      [ { ID := 1, Rack := "zone1", Config := [(FollowerThrottledKey, "123456")] },
        { ID := 2, Rack := "zone1", Config := [(LeaderThrottledKey, "123456")] },
        { ID := 3, Rack := "zone2", Config := [] }, { ID := 4, Rack := "zone2", Config := [] },
        { ID := 5, Rack := "zone3", Config := [] }, { ID := 6, Rack := "zone3", Config := [] } ]
    features := { Locks := true, DynamicBrokerConfigs := true }
    lockHeld := lockHeld }

/-- The static topic config of `TestApplyPlacementUpdates`: six partitions of two replicas
with the static assignments `[[1,2],[2,3],[1,3],[1,2],[2,3],[1,3]]`; the retention varies. -/
def staticTopicConfig (retentionMinutes : Nat) : TopicConfig :=
  { testTopicConfig 6 2 retentionMinutes .static [] with
    Spec :=
      { (testTopicConfig 6 2 retentionMinutes .static []).Spec with
        PlacementConfig :=
          { Strategy := .static, Picker := .lowestIndex
            StaticAssignments := [[1, 2], [2, 3], [1, 3], [1, 2], [2, 3], [1, 3]]
            StaticRackAssignments := [] } } }

/-- The live topic of `TestApplyPlacementUpdates` under its static assignments, with the
given config. -/
def staticLiveTopic (config : ConfigMap) : TopicInfo :=
  { Name := "apply-topic", Config := config
    Partitions := [[1, 2], [2, 3], [1, 3], [1, 2], [2, 3], [1, 3]] }

/-! ## The throttle manager -/

/-- The type `admin.PartitionAssignment`: a partition id with its ordered replica list. -/
structure PartitionAssignment where
  ID : Int
  Replicas : List Int
  deriving DecidableEq, Repr

/-- Modelled from the spec: the per-partition lookup of the throttle manager of `apply.go`
(not among the source files): the current replicas of the partition with the given id,
empty when the partition is not among the current assignments. -/
def currentReplicas : List PartitionAssignment → Int → List Int
  | [], _ => []
  | p :: rest, id => if p.ID = id then p.Replicas else currentReplicas rest id

/-- Modelled from the spec: rule 3 of the throttle manager of `apply.go` (not among the
source files) for one partition: the multiset of replicas is unchanged, only the order
(the leader position) may differ. -/
def onlyReordered (current : List PartitionAssignment) (target : PartitionAssignment) : Bool :=
  (currentReplicas current target.ID).isPerm target.Replicas

/-- Modelled from the spec: the leader throttles of rule 4, the pairs of a changed partition
and each of its source brokers (current replicas). -/
def leaderThrottles (current target : List PartitionAssignment) : List (Int × Int) :=
  ((target.filter (fun t => !onlyReordered current t)).map
    (fun t => (currentReplicas current t.ID).map (fun b => (t.ID, b)))).flatten

/-- Modelled from the spec: the follower throttles of rule 4, the pairs of a changed
partition and each of its destination brokers (target replicas that are not current). -/
def followerThrottles (current target : List PartitionAssignment) : List (Int × Int) :=
  ((target.filter (fun t => !onlyReordered current t)).map
    (fun t => (t.Replicas.filter (fun b => decide (b ∉ currentReplicas current t.ID))).map
      (fun b => (t.ID, b)))).flatten

/-- A list of broker ids with repetitions removed, keeping first appearances. -/
def dedupIDs : List Int → List Int
  | [] => []
  | b :: bs => b :: (dedupIDs bs).filter (fun b' => decide (b' ≠ b))

/-- Modelled from the spec: which of the rules 1 to 3 of the throttle manager says that no
throttle is needed: the topic is being created (`current` is nil), only new partitions are
added, or every partition is only reordered. -/
def noThrottleNeeded (current : Option (List PartitionAssignment))
    (target : List PartitionAssignment) (newPartitions : Bool) : Bool :=
  match current with
  | none => true
  | some curr => newPartitions || target.all (onlyReordered curr)

/-- Modelled from the spec: the brokers involved in a throttled migration, the union of the
source and the destination brokers of rule 4; none when rules 1 to 3 apply. -/
def migrationBrokers (current : Option (List PartitionAssignment))
    (target : List PartitionAssignment) (newPartitions : Bool) : List Int :=
  match current with
  | none => []
  | some curr =>
    if noThrottleNeeded (some curr) target newPartitions then []
    else dedupIDs ((leaderThrottles curr target ++ followerThrottles curr target).map Prod.snd)

/-- Modelled from the spec: the value of a throttled-replicas list written by `apply.go` (not
among the source files): comma-separated `partition:broker` pairs. -/
def throttledReplicasValue (pairs : List (Int × Int)) : String :=
  String.intercalate "," (pairs.map (fun p => formatInt p.1 ++ ":" ++ formatInt p.2))

/-- Modelled from the spec: the write of one throttle-rate key on a broker, which keeps an
existing non-empty value and writes the rate otherwise. -/
def setThrottleRate (config : ConfigMap) (key rate : String) : ConfigMap :=
  if (mget config key).getD "" ≠ "" then config else mset config key rate

/-- Modelled from the spec: the throttle-rate writes on one broker, for the leader and the
follower key. -/
def throttleBroker (rate : String) (b : BrokerInfo) : BrokerInfo :=
  { b with
    Config := setThrottleRate (setThrottleRate b.Config LeaderThrottledKey rate)
      FollowerThrottledKey rate }

/-- Modelled from the spec: whether the throttle-rate write of `apply.go` (not among the
source files) changes the broker: one of the two keys is unset or empty. -/
def acceptsThrottle (b : BrokerInfo) : Bool :=
  decide ((mget b.Config LeaderThrottledKey).getD "" = "") ||
    decide ((mget b.Config FollowerThrottledKey).getD "" = "")

/-- Modelled from the spec: the call `GetBrokers([id])` of the admin client, which is not
among the source files: the first broker with that id. -/
def getBroker : List BrokerInfo → Int → Option BrokerInfo
  | [], _ => none
  | b :: rest, id => if b.ID = id then some b else getBroker rest id

/-- What `applyThrottles` returns, and the cluster afterwards. -/
structure ThrottleOutcome where
  throttledTopic : Bool
  throttledBrokers : List Int
  err : Option String
  cluster : Cluster
  deriving DecidableEq, Repr

/-- Modelled from the spec: the function `applyThrottles` of `apply.go` (not among the
source files), section 4.2. No throttle when the topic is being created, when only new
partitions are added, or when every partition is only reordered. Otherwise the involved
brokers get the rate `throttleBytes` on both rate keys, existing non-empty values being
kept, unless the client lacks dynamic broker configs, in which case the broker writes are
skipped; then the throttled-replica lists are written on the topic. The brokers reported
are those on which a key was written. -/
def applyThrottles (a : TopicApplier) (cl : Cluster)
    (currAssignments : Option (List PartitionAssignment))
    (desiredAssignments : List PartitionAssignment) (newPartitions : Bool) : ThrottleOutcome :=
  match currAssignments with
  | none => { throttledTopic := false, throttledBrokers := [], err := none, cluster := cl }
  | some curr =>
    if noThrottleNeeded (some curr) desiredAssignments newPartitions then
      { throttledTopic := false, throttledBrokers := [], err := none, cluster := cl }
    else
      let involved := migrationBrokers (some curr) desiredAssignments newPartitions
      let rate := formatInt a.throttleBytes
      let brokers :=
        if cl.features.DynamicBrokerConfigs then
          cl.brokers.map (fun b => if b.ID ∈ involved then throttleBroker rate b else b)
        else cl.brokers
      let throttledBrokers :=
        if cl.features.DynamicBrokerConfigs then
          involved.filter (fun id =>
            match getBroker cl.brokers id with
            | some b => acceptsThrottle b
            | none => false)
        else []
      match getTopic cl.topics a.topicConfig.Meta.Name with
      | none =>
        { throttledTopic := false, throttledBrokers := throttledBrokers,
          err := some "topic does not exist",
          cluster := { cl with brokers := brokers } }
      | some topicInfo =>
        let config := writeEntries topicInfo.Config
          [(LeaderReplicasThrottledKey,
              throttledReplicasValue (leaderThrottles curr desiredAssignments)),
            (FollowerReplicasThrottledKey,
              throttledReplicasValue (followerThrottles curr desiredAssignments))]
        { throttledTopic := true, throttledBrokers := throttledBrokers, err := none,
          cluster :=
            { cl with
              brokers := brokers
              topics := putTopic cl.topics { topicInfo with Config := config } } }

/-- The applier of `TestApplyThrottles`: `ThrottleMB` is 20. -/
def throttleTestApplier : TopicApplier :=
  testApplier false false
    { testTopicConfig 6 2 500 .static [] with
      Spec :=
        { (testTopicConfig 6 2 500 .static []).Spec with
          MigrationConfig := { ThrottleMB := 20, PartitionBatchSize := 3 } } }

/-- The cluster of `TestApplyThrottles` before the throttled migration: the topic with its
static assignments, and broker 5 already carrying both throttle rates. -/
def throttleTestCluster (dynamicBrokerConfigs : Bool) : Cluster :=
  { topics :=
      [ { Name := "apply-topic", Config := [("retention.ms", "30000000")],
          Partitions := [[1, 2], [2, 3], [1, 3], [1, 2], [2, 3], [1, 3]] } ]
    brokers :=
      [ { ID := 1, Rack := "zone1", Config := [] }, { ID := 2, Rack := "zone1", Config := [] },
        { ID := 3, Rack := "zone2", Config := [] }, { ID := 4, Rack := "zone2", Config := [] },
        { ID := 5, Rack := "zone3",
          Config := [(LeaderThrottledKey, "500000"), (FollowerThrottledKey, "500000")] },
        { ID := 6, Rack := "zone3", Config := [] } ]
    features := { Locks := true, DynamicBrokerConfigs := dynamicBrokerConfigs }
    lockHeld := false }

/-! ## Throttle rate of the applier -/

/-- Modelled from the spec: the effective throttle of the applier in MB/s, the spec's
`MigrationConfig.ThrottleMB`, or `BrokerThrottleMBsOverride` when that override is set. -/
def effectiveThrottleMB (applierConfig : TopicApplierConfig) : Int :=
  if applierConfig.BrokerThrottleMBsOverride ≠ 0 then applierConfig.BrokerThrottleMBsOverride
  else applierConfig.TopicConfig.Spec.MigrationConfig.ThrottleMB

/-- The applier config of `TestApplyOverrides`, with the given throttle override. -/
def overrideTestConfig (brokerThrottleMBsOverride : Int) : TopicApplierConfig :=
  { BrokerThrottleMBsOverride := brokerThrottleMBsOverride
    ClusterConfig := testClusterConfig
    TopicConfig := testTopicConfig 9 2 500 .any []
    DryRun := false
    Destructive := false
    Rebalance := false
    SkipConfirm := true
    PartitionBatchSizeOverride := 8
    RetentionDropStepDuration := 0 }

/-! ## pkg/apply/format.go -/

/-- The function `timeSuffix` of `format.go`. Go's `%` and `/` on `int64` truncate towards
zero, and `fmt.Sprintf(" (%d min)", n)` puts the decimal rendering of `n` between the two
literal parts. -/
def timeSuffix (msStr : String) : String :=
  match parseInt msStr with
  | none => ""
  | some msInt =>
    if msInt < 60000 then ""
    else if msInt.tmod 60000 ≠ 0 then ""
    else " (" ++ formatInt (msInt.tdiv 60000) ++ " min)"

/-- The call `strings.HasSuffix(s, ".ms")`. -/
def isTimeKey (s : String) : Bool :=
  List.isSuffixOf ['.', 'm', 's'] s.data

/-- The type `config.TopicSettings`, seen through the two methods `format.go` calls on it.
The methods are declared in a file that is not among the source files and are taken as
given: `HasKey` tells whether the key is set, `GetValueStr` gives its value as a string or
an error. -/
structure TopicSettings where
  HasKey : String → Bool
  GetValueStr : String → Except String String

/-- The value `valueStr` that the loops of `FormatSettingsDiff` and `FormatSettingsDiffMap`
compute for a key: the string value of the setting when the key is set, the empty string
(the zero value of `var valueStr string`) when it is not, or the error of `GetValueStr`. -/
def settingValueStr (topicSettings : TopicSettings) (diffKey : String) : Except String String :=
  if topicSettings.HasKey diffKey then topicSettings.GetValueStr diffKey else .ok ""

/-- The rows that the loop of `FormatSettingsDiff` appends to the table, or the error on
which the function returns. The map index `configMap[diffKey]` is the empty string for an
absent key. -/
def settingsDiffRows (topicSettings : TopicSettings) (configMap : ConfigMap) :
    List String → Except String (List (List String))
  | [] => .ok []
  | diffKey :: rest =>
    let configValueStr := (mget configMap diffKey).getD ""
    match settingValueStr topicSettings diffKey with
    | .error err => .error err
    | .ok valueStr =>
      let row :=
        if isTimeKey diffKey then
          [diffKey, configValueStr ++ timeSuffix configValueStr, valueStr ++ timeSuffix valueStr]
        else [diffKey, configValueStr, valueStr]
      match settingsDiffRows topicSettings configMap rest with
      | .error err => .error err
      | .ok rows => .ok (row :: rows)

/-- The rows that the loop of `FormatMissingKeys` appends to the table. -/
def missingKeysRows (configMap : ConfigMap) : List String → List (List String)
  | [] => []
  | missingKey :: rest =>
    let configValueStr := (mget configMap missingKey).getD ""
    let row :=
      if isTimeKey missingKey then [missingKey, configValueStr ++ timeSuffix configValueStr]
      else [missingKey, configValueStr]
    row :: missingKeysRows configMap rest

/-- The call `bytes.TrimRight(b, "\n")` on a list of characters. -/
def trimRightNewlines (cs : List Char) : List Char :=
  (cs.reverse.dropWhile (fun c => c = '\n')).reverse

/-- The function `FormatSettingsDiff` of `format.go`. The table writer is a library and is
taken as a parameter: `render headers rows` is the text it writes for the configured table. -/
def FormatSettingsDiff (render : List String → List (List String) → String)
    (topicSettings : TopicSettings) (configMap : ConfigMap) (diffKeys : List String) :
    Except String String :=
  match settingsDiffRows topicSettings configMap diffKeys with
  | .error err => .error err
  | .ok rows =>
    .ok (String.mk (trimRightNewlines
      (render ["Key", "Cluster Value (Curr)", "Config Value (New)"] rows).data))

/-- The function `FormatMissingKeys` of `format.go`, with the table writer as a parameter. -/
def FormatMissingKeys (render : List String → List (List String) → String)
    (configMap : ConfigMap) (missingKeys : List String) : String :=
  String.mk (trimRightNewlines
    (render ["Key", "Cluster Value"] (missingKeysRows configMap missingKeys)).data)

/-- Topic settings for the worked examples of `format.go`: `retention.ms` is set to
24000000 and `cleanup.policy` to `compact`. -/
def exampleTopicSettings : TopicSettings :=
  { HasKey := fun k => decide (k = "retention.ms") || decide (k = "cleanup.policy")
    GetValueStr := fun k =>
      if k = "retention.ms" then .ok "24000000"
      else if k = "cleanup.policy" then .ok "compact"
      else .error "key not found" }

/-- A Go value held in an `interface{}` of the maps that `format.go` builds: `nil`, a
boolean, a number, a string, a slice `[]interface{}` or a map `map[string]interface{}`,
the latter as an association list. -/
inductive GoValue where
  | null
  | bool (b : Bool)
  | number (n : Int)
  | str (s : String)
  | list (xs : List GoValue)
  | map (entries : List (String × GoValue))

/-- Map read on an association list, with the presence bit. -/
def aget {κ α : Type} [DecidableEq κ] : List (κ × α) → κ → Option α
  | [], _ => none
  | (k', v) :: rest, k => if k' = k then some v else aget rest k

/-- Map write on an association list: replaces the binding in place, or appends a new one. -/
def aset {κ α : Type} [DecidableEq κ] : List (κ × α) → κ → α → List (κ × α)
  | [], k, v => [(k, v)]
  | (k', v') :: rest, k, v => if k' = k then (k, v) :: rest else (k', v') :: aset rest k v

/-- The loop of `FormatSettingsDiffMap` on the inner map `diffsMap[topicName]`: each key
sets `"Action"` to `"update"` and then the key itself to the pair of values. -/
def settingsDiffMapLoop (topicSettings : TopicSettings) (configMap : ConfigMap) :
    List String → List (String × GoValue) → Except String (List (String × GoValue))
  | [], inner => .ok inner
  | diffKey :: rest, inner =>
    let configValueStr := (mget configMap diffKey).getD ""
    match settingValueStr topicSettings diffKey with
    | .error err => .error err
    | .ok valueStr =>
      let inner := aset inner "Action" (GoValue.str "update")
      let inner := aset inner diffKey
        (GoValue.map [("current", GoValue.str configValueStr), ("updated", GoValue.str valueStr)])
      settingsDiffMapLoop topicSettings configMap rest inner

/-- The function `FormatSettingsDiffMap` of `format.go`: the map with the single key
`topicName`, whose value is the inner map the loop fills, or the error of `GetValueStr`. -/
def FormatSettingsDiffMap (topicName : String) (topicSettings : TopicSettings)
    (configMap : ConfigMap) (diffKeys : List String) :
    Except String (List (String × GoValue)) :=
  match settingsDiffMapLoop topicSettings configMap diffKeys [] with
  | .error err => .error err
  | .ok inner => .ok (aset [] topicName (GoValue.map inner))

/-! ## pkg/config/load.go: documents of a topics file -/

/-- The function `unicode.IsSpace`: the white space of Unicode, that is U+0009 to U+000D,
U+0020, U+0085, U+00A0, U+1680, U+2000 to U+200A, U+2028, U+2029, U+202F, U+205F, U+3000. -/
def isSpace (c : Char) : Bool :=
  (9 ≤ c.toNat && c.toNat ≤ 13) || c.toNat == 32 || c.toNat == 133 || c.toNat == 160 ||
    c.toNat == 5760 || (8192 ≤ c.toNat && c.toNat ≤ 8202) || c.toNat == 8232 ||
    c.toNat == 8233 || c.toNat == 8239 || c.toNat == 8287 || c.toNat == 12288

/-- The function `strings.TrimSpace` on a list of characters: leading and trailing white
space removed. -/
def trimSpaceChars (cs : List Char) : List Char :=
  ((cs.dropWhile isSpace).reverse.dropWhile isSpace).reverse

/-- The function `strings.TrimSpace`. -/
def TrimSpace (s : String) : String := String.mk (trimSpaceChars s.data)

/-- The pieces of a list of characters between newlines; `cur` holds, reversed, the
characters of the piece being read. -/
def splitLinesAux : List Char → List Char → List (List Char)
  | [], cur => [cur.reverse]
  | c :: cs, cur =>
    if c = '\n' then cur.reverse :: splitLinesAux cs [] else splitLinesAux cs (c :: cur)

/-- The call `strings.Split(s, "\n")`: the pieces between newlines, one piece (the whole
string) when there is no newline. -/
def splitLines (s : String) : List String :=
  (splitLinesAux s.data []).map String.mk

/-- The loop of `isEmpty` over the lines: `false` at the first line that, trimmed, is not
empty and does not start with `#`. -/
def isEmptyLoop : List String → Bool
  | [] => true
  | line :: rest =>
    let trimmedLine := TrimSpace line
    if trimmedLine.data.length > 0 ∧ ¬ (List.isPrefixOf ['#'] trimmedLine.data = true) then false
    else isEmptyLoop rest

/-- The function `isEmpty` of `load.go`. -/
def isEmpty (contents : String) : Bool :=
  isEmptyLoop (splitLines contents)

/-! ## pkg/apply/types.go: the JSON form of a change record -/

/-- A JSON document, as `json.Marshal` writes it: an object keeps its keys in the order in
which they are written. -/
inductive JSON where
  | null
  | bool (b : Bool)
  | number (n : Int)
  | string (s : String)
  | array (items : List JSON)
  | object (fields : List (String × JSON))

/-- The keys of a JSON object, in order; no key for any other document. -/
def JSON.keys : JSON → List String
  | .object fields => fields.map Prod.fst
  | _ => []

/-- The value under a key of a JSON object. -/
def JSON.field (j : JSON) (key : String) : Option JSON :=
  match j with
  | .object fields => aget fields key
  | _ => none

/-- The pieces of a list of characters between commas; `cur` holds, reversed, the
characters of the piece being read. -/
def splitCommaAux : List Char → List Char → List (List Char)
  | [], cur => [cur.reverse]
  | c :: cs, cur =>
    if c = ',' then cur.reverse :: splitCommaAux cs [] else splitCommaAux cs (c :: cur)

/-- The name part of a `json:"..."` struct tag: the text before the first comma. -/
def tagName (tag : String) : String :=
  String.mk ((splitCommaAux tag.data []).headD [])

/-- Whether a `json:"..."` struct tag carries the option `omitempty` after its name. -/
def tagOmitEmpty (tag : String) : Bool :=
  (splitCommaAux tag.data []).tail.contains "omitempty".data

/-- A field of a Go struct as `json.Marshal` sees it: its `json` tag, the JSON form of its
value, and whether the value is empty in the sense of `omitempty` (false, 0, a nil pointer
or interface, an array, slice, map or string of length zero; a struct is never empty). -/
structure StructField where
  tag : String
  value : JSON
  empty : Bool

/-- The function `json.Marshal` on a struct: one key per field, named by the tag, in field
order; a field is left out only if its tag says `omitempty` and its value is empty. -/
def marshalStruct (fields : List StructField) : JSON :=
  .object ((fields.filter (fun f => !(tagOmitEmpty f.tag && f.empty))).map
    (fun f => (tagName f.tag, f.value)))

/-- The function `json.Marshal` on a `[]int`: `null` for a nil slice, else the array. -/
def marshalIntSlice : Option (List Int) → JSON
  | none => .null
  | some xs => .array (xs.map JSON.number)

/-- The function `json.Marshal` on a `[]string`: `null` for a nil slice, else the array. -/
def marshalStringSlice : Option (List String) → JSON
  | none => .null
  | some xs => .array (xs.map JSON.string)

/-- Whether a slice is empty in the sense of `omitempty`: nil or of length zero. -/
def sliceEmpty {α : Type} : Option (List α) → Bool
  | none => true
  | some xs => xs.isEmpty

/-- The function `json.Marshal` on an `IntValueChanges`, from the tags of `types.go`. -/
def marshalIntValueChanges (v : IntValueChanges) : JSON :=
  marshalStruct
    [ { tag := "current", value := .number v.Current, empty := decide (v.Current = 0) },
      { tag := "updated", value := .number v.Updated, empty := decide (v.Updated = 0) } ]

/-- The function `json.Marshal` on a `ConfigEntryChanges`, from the tags of `types.go`. -/
def marshalConfigEntryChanges (v : ConfigEntryChanges) : JSON :=
  marshalStruct
    [ { tag := "name", value := .string v.Name, empty := decide (v.Name = "") },
      { tag := "current", value := .string v.Current, empty := decide (v.Current = "") },
      { tag := "updated", value := .string v.Updated, empty := decide (v.Updated = "") } ]

/-- The function `json.Marshal` on a `ReplicaAssignmentChanges`, from the tags of
`types.go`. -/
def marshalReplicaAssignmentChanges (v : ReplicaAssignmentChanges) : JSON :=
  marshalStruct
    [ { tag := "partition", value := .number v.Partition, empty := decide (v.Partition = 0) },
      { tag := "currentReplicas", value := marshalIntSlice v.CurrentReplicas,
        empty := sliceEmpty v.CurrentReplicas },
      { tag := "updatedReplicas", value := marshalIntSlice v.UpdatedReplicas,
        empty := sliceEmpty v.UpdatedReplicas } ]

/-- The function `json.Marshal` on a slice of structs: `null` for a nil slice. -/
def marshalSlice {α : Type} (marshal : α → JSON) : Option (List α) → JSON
  | none => .null
  | some xs => .array (xs.map marshal)

/-- The type `ChangesTracker` of `types.go`; a `nil` slice is `none`. -/
structure ChangesTracker where
  Topic : String
  NumPartitions : IntValueChanges
  ReplicationFactor : IntValueChanges
  ReplicaAssignments : Option (List ReplicaAssignmentChanges)
  ConfigEntries : Option (List ConfigEntryChanges)
  MissingKeys : Option (List String)
  Action : ActionEnum

/-- The function `json.Marshal` on a `ChangesTracker`, from the tags of `types.go`, none of
which carries `omitempty`. -/
def marshalChangesTracker (c : ChangesTracker) : JSON :=
  marshalStruct
    [ { tag := "topic", value := .string c.Topic, empty := decide (c.Topic = "") },
      { tag := "numPartitions", value := marshalIntValueChanges c.NumPartitions,
        empty := false },
      { tag := "replicationFactor", value := marshalIntValueChanges c.ReplicationFactor,
        empty := false },
      { tag := "replicaAssignments",
        value := marshalSlice marshalReplicaAssignmentChanges c.ReplicaAssignments,
        empty := sliceEmpty c.ReplicaAssignments },
      { tag := "configEntries",
        value := marshalSlice marshalConfigEntryChanges c.ConfigEntries,
        empty := sliceEmpty c.ConfigEntries },
      { tag := "missingKeys", value := marshalStringSlice c.MissingKeys,
        empty := sliceEmpty c.MissingKeys },
      { tag := "action", value := .string c.Action, empty := decide (c.Action = "") } ]

/-- The stable field names of a change record that the specification lists. -/
def stableFieldNames : List String :=
  ["topic", "action", "dryRun", "numPartitions", "replicationFactor", "configEntries",
    "updatedConfigEntries", "replicaAssignments", "missingKeys"]

/-- The zero value `ChangesTracker{}`: every field unset. -/
def zeroChangesTracker : ChangesTracker :=
  { Topic := "", NumPartitions := { Current := 0, Updated := 0 },
    ReplicationFactor := { Current := 0, Updated := 0 }, ReplicaAssignments := none,
    ConfigEntries := none, MissingKeys := none, Action := "" }

/-! ## pkg/apply/format.go: `ProcessTopicConfigIntoMap` -/

/-- One step of the UTF-8 decoding of a Go string: a well-encoded character, or a byte that
belongs to no valid encoding. A Go string is any sequence of bytes, so both occur. -/
inductive GoRune where
  | char (c : Char)
  | badByte (b : Nat)
  deriving DecidableEq, Repr

/-- A Go `string` whose encoding matters: the sequence of its decoding steps. -/
abbrev GoString := List GoRune

/-- The Go string of a text. -/
def GoString.ofText (s : String) : GoString := s.data.map GoRune.char

/-- The text that `json.Marshal` writes for a Go string, as `json.Unmarshal` reads it back:
the string coerced to valid UTF-8, each invalid byte replaced by U+FFFD. -/
def jsonText (s : GoString) : String :=
  String.mk (s.map (fun r =>
    match r with
    | .char c => c
    | .badByte _ => Char.ofNat 65533))

/-- The type `kafka.ReplicaAssignment` of the kafka-go library. -/
structure KafkaReplicaAssignment where
  Partition : Int
  Replicas : Option (List Int)
  deriving DecidableEq, Repr

/-- The type `kafka.ConfigEntry` of the kafka-go library. -/
structure KafkaConfigEntry where
  ConfigName : String
  ConfigValue : String
  deriving DecidableEq, Repr

/-- The type `kafka.TopicConfig` of the kafka-go library; a `nil` slice is `none`. -/
structure KafkaTopicConfig where
  Topic : String
  NumPartitions : Int
  ReplicationFactor : Int
  ReplicaAssignments : Option (List KafkaReplicaAssignment)
  ConfigEntries : Option (List KafkaConfigEntry)
  deriving DecidableEq, Repr

/-- A slice written by `json.Marshal` and read back into an `interface{}`: `nil` for a nil
slice, else a `[]interface{}`. -/
def roundTripSlice {α : Type} (f : α → GoValue) : Option (List α) → GoValue
  | none => .null
  | some xs => .list (xs.map f)

/-- The number of low bits that a natural number `m` loses when it is kept to 53 significant
bits: the least `k`, counted up from the given `k`, with `m < 2 ^ (53 + k)`. -/
def droppedBits : Nat → Nat → Nat → Nat
  | 0, _, k => k
  | fuel + 1, m, k => if m < 2 ^ (53 + k) then k else droppedBits fuel m (k + 1)

/-- The integer that the `float64` nearest to an integer is (ties go to the even
significand). This is how `json.Unmarshal` reads an integer JSON number into an
`interface{}`: an integer of magnitude below 2^53 is exact, a larger one keeps 53
significant bits. -/
def float64OfInt (n : Int) : Int :=
  let m := n.natAbs
  let k := droppedBits m m 0
  let q := m / 2 ^ k
  let r := m % 2 ^ k
  let rounded := if 2 * r > 2 ^ k ∨ (2 * r = 2 ^ k ∧ q % 2 = 1) then q + 1 else q
  if n < 0 then -((rounded * 2 ^ k : Nat) : Int) else ((rounded * 2 ^ k : Nat) : Int)

/-- The fields of a `kafka.TopicConfig` written by `json.Marshal` and read back by
`json.Unmarshal` into an `interface{}`: the struct has no `json` tags, so the keys are the
field names, and a number comes back as the `float64` nearest to its value. -/
def topicConfigFields (c : KafkaTopicConfig) : List (String × GoValue) :=
  [ ("Topic", .str c.Topic),
    ("NumPartitions", .number (float64OfInt c.NumPartitions)),
    ("ReplicationFactor", .number (float64OfInt c.ReplicationFactor)),
    ("ReplicaAssignments", roundTripSlice (fun (r : KafkaReplicaAssignment) =>
      GoValue.map [("Partition", .number (float64OfInt r.Partition)),
        ("Replicas", roundTripSlice (fun (b : Int) => GoValue.number (float64OfInt b))
          r.Replicas)]) c.ReplicaAssignments),
    ("ConfigEntries", roundTripSlice (fun (e : KafkaConfigEntry) =>
      GoValue.map [("ConfigName", .str e.ConfigName), ("ConfigValue", .str e.ConfigValue)])
      c.ConfigEntries) ]

/-- A value of the map `changes` of `ProcessTopicConfigIntoMap`: the `kafka.TopicConfig`
stored first, or a value that `json.Unmarshal` stored. -/
inductive ChangesValue where
  | topicConfig (c : KafkaTopicConfig)
  | decoded (v : GoValue)

/-- How a call ends: with a panic, or by returning. -/
inductive Outcome (α : Type) where
  | panic (msg : String)
  | returns (r : α)

/-- The call `json.Marshal(changes)` on the map holding the topic config under
`topicName`: the pairs of the JSON object, the key coerced to valid UTF-8. It has no
failing case for these types. -/
def marshalChanges (topicName : GoString) (topicConfig : KafkaTopicConfig) :
    Except String (List (String × GoValue)) :=
  .ok [(jsonText topicName, GoValue.map (topicConfigFields topicConfig))]

/-- The call `json.Unmarshal(changesJson, &changes)` into the existing map: the entries of
the map are kept, and each pair of the JSON object is stored under its key. -/
def unmarshalInto (changes : List (GoString × ChangesValue)) :
    List (String × GoValue) → List (GoString × ChangesValue)
  | [] => changes
  | (key, value) :: rest =>
    unmarshalInto (aset changes (GoString.ofText key) (ChangesValue.decoded value)) rest

/-- The function `ProcessTopicConfigIntoMap` of `format.go`. The type assertion
`changes[topicName].(map[string]interface{})` panics unless the value under `topicName` is
a map read by `json.Unmarshal`. -/
def ProcessTopicConfigIntoMap (topicName : GoString) (topicConfig : KafkaTopicConfig) :
    Outcome (Except String (List (GoString × ChangesValue))) :=
  let changes : List (GoString × ChangesValue) :=
    aset [] topicName (ChangesValue.topicConfig topicConfig)
  match marshalChanges topicName topicConfig with
  | .error err => .returns (.error err)
  | .ok changesJson =>
    let changes := unmarshalInto changes changesJson
    match aget changes topicName with
    | some (.decoded (.map inner)) =>
      .returns (.ok (aset changes topicName
        (ChangesValue.decoded (GoValue.map (aset inner "Action" (GoValue.str "create"))))))
    | _ => .panic "interface conversion: interface {} is not map[string]interface {}"

/-- The `kafka.TopicConfig` of the worked examples: nine partitions, replication factor 2
and one config entry. -/
def exampleKafkaTopicConfig : KafkaTopicConfig :=
  { Topic := "apply-topic", NumPartitions := 9, ReplicationFactor := 2,
    ReplicaAssignments := none,
    ConfigEntries := some [{ ConfigName := "retention.ms", ConfigValue := "30000000" }] }

/-! ## pkg/config/load.go: `LoadTopicsFile` -/

/-- The function `isShellSpecialVar` of Go's `os` package. -/
def isShellSpecialVar (c : Char) : Bool :=
  c = '*' || c = '#' || c = '$' || c = '@' || c = '!' || c = '?' || c = '-' ||
    (48 ≤ c.toNat && c.toNat ≤ 57)

/-- The function `isAlphaNum` of Go's `os` package. -/
def isAlphaNum (c : Char) : Bool :=
  c = '_' || (48 ≤ c.toNat && c.toNat ≤ 57) || (97 ≤ c.toNat && c.toNat ≤ 122) ||
    (65 ≤ c.toNat && c.toNat ≤ 90)

/-- The function `getShellName` of Go's `os` package on the text after a `$`: the name of
the variable and the number of characters it takes up. -/
def getShellName (s : List Char) : List Char × Nat :=
  match s with
  | [] => ([], 0)
  | '{' :: rest =>
    if isShellSpecialVar (rest.headD ' ') ∧ rest.tail.head? = some '}' then
      ([rest.headD ' '], 3)
    else
      match rest.indexOf? '}' with
      | none => ([], 1)
      | some 0 => ([], 2)
      | some i => (rest.take i, i + 2)
  | c :: _ =>
    if isShellSpecialVar c then ([c], 1)
    else (s.takeWhile isAlphaNum, (s.takeWhile isAlphaNum).length)

/-- The function `os.Expand` on a list of characters, with `fuel` bounding the loop: each
`$name` and `${name}` is replaced by `mapping name`, a `$` followed by nothing that names a
variable is kept, and a malformed `${` is eaten. -/
def expandAux (mapping : String → String) : Nat → List Char → List Char
  | 0, s => s
  | _ + 1, [] => []
  | fuel + 1, c :: rest =>
    if c = '$' ∧ rest ≠ [] then
      let name := (getShellName rest).1
      let w := (getShellName rest).2
      let out :=
        if name = [] ∧ w > 0 then []
        else if name = [] then ['$']
        else (mapping (String.mk name)).data
      out ++ expandAux mapping fuel (rest.drop w)
    else c :: expandAux mapping fuel rest

/-- The function `os.ExpandEnv`, that is `os.Expand(s, os.Getenv)`; the environment is the
parameter `getenv`, which gives the empty string for an unset variable. -/
def ExpandEnv (getenv : String → String) (s : String) : String :=
  String.mk (expandAux getenv (s.data.length + 1) s.data)

/-- The class `\s` of Go regular expressions: tab, newline, form feed, carriage return and
space. -/
def isRegexpSpace (c : Char) : Bool :=
  c = '\t' || c = '\n' || c.toNat == 12 || c = '\r' || c = ' '

/-- A match of the pattern `sep` of `load.go`, `(?:^|\s*\n)---\s*`, starting at the head of
`cs`: the text after the match, if there is one. The first alternative needs the start of
the text; the second a run of white space that ends with a newline; both then need `---`,
and the match takes all white space that follows. -/
def sepMatch (atStart : Bool) (cs : List Char) : Option (List Char) :=
  match atStart, cs with
  | true, '-' :: '-' :: '-' :: rest => some (rest.dropWhile isRegexpSpace)
  | _, _ =>
    if (cs.takeWhile isRegexpSpace).getLast? = some '\n' then
      match cs.dropWhile isRegexpSpace with
      | '-' :: '-' :: '-' :: rest => some (rest.dropWhile isRegexpSpace)
      | _ => none
    else none

/-- The pieces between the successive leftmost matches of `sep`; `cur` holds, reversed, the
characters of the piece being read, and `fuel` bounds the scan. -/
def sepSplitAux : Nat → Bool → List Char → List Char → List (List Char)
  | 0, _, _, cur => [cur.reverse]
  | fuel + 1, atStart, cs, cur =>
    match sepMatch atStart cs with
    | some rest => cur.reverse :: sepSplitAux fuel false rest []
    | none =>
      match cs with
      | [] => [cur.reverse]
      | c :: cs' => sepSplitAux fuel false cs' (c :: cur)

/-- The call `sep.Split(s, -1)` of `load.go`: the pieces of `s` between the matches of the
separator pattern, the last piece included. -/
def sepSplit (s : String) : List String :=
  (sepSplitAux (s.data.length + 1) true s.data []).map String.mk

/-- The function `LoadTopicBytes` of `load.go`. The YAML and JSON decoders behind
`unmarshalYAMLStrict` are libraries and are taken as the parameter `unmarshal`, which gives
the config it filled in and the error, `none` for `nil`. -/
def LoadTopicBytes (unmarshal : String → TopicConfig × Option String) (contents : String) :
    TopicConfig × Option String :=
  unmarshal contents

/-- The loop of `LoadTopicsFile` over the pieces of the file: an empty piece is skipped, a
piece that fails to load ends the call with the error, and each loaded config is appended. -/
def loadTopicsLoop (unmarshal : String → TopicConfig × Option String) :
    List String → List TopicConfig → Except String (List TopicConfig)
  | [], topicConfigs => .ok topicConfigs
  | topicStr :: rest, topicConfigs =>
    let topicStr := TrimSpace topicStr
    if isEmpty topicStr then loadTopicsLoop unmarshal rest topicConfigs
    else
      match LoadTopicBytes unmarshal topicStr with
      | (_, some err) => .error err
      | (topicConfig, none) => loadTopicsLoop unmarshal rest (topicConfigs ++ [topicConfig])

/-- The function `LoadTopicsFile` of `load.go`. The file system is the parameter `readFile`
and the environment the parameter `getenv`; an error stands for the nil list returned
together with it. -/
def LoadTopicsFile (readFile : String → Except String String) (getenv : String → String)
    (unmarshal : String → TopicConfig × Option String) (path : String) :
    Except String (List TopicConfig) :=
  match readFile path with
  | .error err => .error err
  | .ok contents =>
    let contents := ExpandEnv getenv contents
    let trimmedFile := TrimSpace contents
    let topicStrs := sepSplit trimmedFile
    loadTopicsLoop unmarshal topicStrs []

/-- The non-empty documents of a text, in order: the pieces into which the separator
pattern splits the trimmed text, each trimmed, that are not blank and not made only of
comment lines. -/
def nonEmptyDocuments (text : String) : List String :=
  ((sepSplit (TrimSpace text)).map TrimSpace).filter (fun doc => !isEmpty doc)

/-- A decoder for the worked examples of `LoadTopicsFile`: it rejects the document `bad`
and gives for any other document the test topic config named after it. -/
def exampleUnmarshal (doc : String) : TopicConfig × Option String :=
  if doc = "bad" then (testTopicConfig 0 0 0 .any [], some "yaml: unmarshal error")
  else
    ({ testTopicConfig 9 2 500 .any [] with
        Meta := { (testTopicConfig 9 2 500 .any []).Meta with Name := doc } }, none)

/-! ## Theorems -/

/-- C1: `CheckConsistency` returns no error exactly when the cluster name, the environment
and the region of the resource all equal those of the cluster config; as soon as one of the
three differs the returned error is non-nil. -/
theorem CheckConsistency_nil_iff (resourceMeta : ResourceMeta) (clusterConfig : ClusterConfig) :
    (CheckConsistency resourceMeta clusterConfig = none ↔
      (resourceMeta.Cluster = clusterConfig.Meta.Name ∧
        resourceMeta.Environment = clusterConfig.Meta.Environment ∧
        resourceMeta.Region = clusterConfig.Meta.Region)) ∧
    (¬ (resourceMeta.Cluster = clusterConfig.Meta.Name ∧
        resourceMeta.Environment = clusterConfig.Meta.Environment ∧
        resourceMeta.Region = clusterConfig.Meta.Region) →
      (CheckConsistency resourceMeta clusterConfig).isSome = true) := by
  have key : CheckConsistency resourceMeta clusterConfig = none ↔
      (resourceMeta.Cluster = clusterConfig.Meta.Name ∧
        resourceMeta.Environment = clusterConfig.Meta.Environment ∧
        resourceMeta.Region = clusterConfig.Meta.Region) := by
    unfold CheckConsistency
    by_cases h1 : resourceMeta.Cluster = clusterConfig.Meta.Name <;>
    by_cases h2 : resourceMeta.Environment = clusterConfig.Meta.Environment <;>
    by_cases h3 : resourceMeta.Region = clusterConfig.Meta.Region <;>
    simp [h1, h2, h3, multierrorAppend]
  refine ⟨key, fun h => ?_⟩
  cases hc : CheckConsistency resourceMeta clusterConfig with
  | none => exact absurd (key.mp hc) h
  | some es => rfl

/-! ### String maps -/

theorem mget_mset_self (m : ConfigMap) (k v : String) : mget (mset m k v) k = some v := by
  induction m with
  | nil => simp [mset, mget]
  | cons e rest ih =>
    obtain ⟨k', v'⟩ := e
    by_cases h : k' = k
    · simp [mset, mget, h]
    · simp [mset, mget, h, ih]

theorem mget_mset_ne (m : ConfigMap) (k v k' : String) (h : k' ≠ k) :
    mget (mset m k v) k' = mget m k' := by
  induction m with
  | nil => simp [mset, mget, Ne.symm h]
  | cons e rest ih =>
    obtain ⟨k₀, v₀⟩ := e
    by_cases h0 : k₀ = k
    · subst h0
      simp [mset, mget, Ne.symm h]
    · by_cases h1 : k₀ = k'
      · subst h1
        simp [mset, mget, h0]
      · simp [mset, mget, h0, h1, ih]

theorem mget_mdel_self (m : ConfigMap) (k : String) : mget (mdel m k) k = none := by
  induction m with
  | nil => simp [mdel, mget]
  | cons e rest ih =>
    obtain ⟨k', v'⟩ := e
    by_cases h : k' = k
    · simp [mdel, h, ih]
    · simp [mdel, mget, h, ih]

theorem mget_mdel_ne (m : ConfigMap) (k k' : String) (h : k' ≠ k) :
    mget (mdel m k) k' = mget m k' := by
  induction m with
  | nil => simp [mdel, mget]
  | cons e rest ih =>
    obtain ⟨k₀, v₀⟩ := e
    by_cases h0 : k₀ = k
    · subst h0
      simp [mdel, mget, Ne.symm h, ih]
    · by_cases h1 : k₀ = k'
      · subst h1
        simp [mdel, mget, h0]
      · simp [mdel, mget, h0, h1, ih]

theorem mem_dedupKeys (ks : List String) (k : String) : k ∈ dedupKeys ks ↔ k ∈ ks := by
  induction ks with
  | nil => simp [dedupKeys]
  | cons k₀ rest ih =>
    by_cases h : k = k₀
    · simp [dedupKeys, h]
    · simp [dedupKeys, h, ih, List.mem_filter]

theorem mem_mkeys_iff (m : ConfigMap) (k : String) : k ∈ mkeys m ↔ (mget m k).isSome = true := by
  unfold mkeys
  rw [mem_dedupKeys]
  induction m with
  | nil => simp [mget]
  | cons e rest ih =>
    obtain ⟨k', v'⟩ := e
    by_cases h : k' = k
    · simp [mget, h]
    · simp [mget, h, ih, Ne.symm h]

theorem mget_writeEntries_not_mem (es : List (String × String)) (m : ConfigMap) (k : String)
    (h : k ∉ es.map Prod.fst) : mget (writeEntries m es) k = mget m k := by
  induction es generalizing m with
  | nil => rfl
  | cons e rest ih =>
    simp only [List.map_cons, List.mem_cons, not_or] at h
    show mget (writeEntries (mset m e.1 e.2) rest) k = mget m k
    rw [ih _ h.2, mget_mset_ne _ _ _ _ h.1]

theorem mget_writeEntries_mem (f : String → String) (ks : List String) (m : ConfigMap)
    (k : String) (h : k ∈ ks) :
    mget (writeEntries m (ks.map (fun k => (k, f k)))) k = some (f k) := by
  induction ks generalizing m with
  | nil => simp at h
  | cons k₀ rest ih =>
    show mget (writeEntries (mset m k₀ (f k₀)) (rest.map (fun k => (k, f k)))) k = some (f k)
    by_cases hr : k ∈ rest
    · exact ih _ hr
    · have hk : k = k₀ := by
        rcases List.mem_cons.mp h with h | h
        · exact h
        · exact absurd h hr
      subst hk
      rw [mget_writeEntries_not_mem]
      · exact mget_mset_self _ _ _
      · simpa [List.map_map, Function.comp] using hr

theorem mget_deleteKeys_not_mem (ks : List String) (m : ConfigMap) (k : String) (h : k ∉ ks) :
    mget (deleteKeys m ks) k = mget m k := by
  induction ks generalizing m with
  | nil => rfl
  | cons k₀ rest ih =>
    simp only [List.mem_cons, not_or] at h
    show mget (deleteKeys (mdel m k₀) rest) k = mget m k
    rw [ih _ h.2, mget_mdel_ne _ _ _ h.1]

theorem mget_deleteKeys_mem (ks : List String) (m : ConfigMap) (k : String) (h : k ∈ ks) :
    mget (deleteKeys m ks) k = none := by
  induction ks generalizing m with
  | nil => simp at h
  | cons k₀ rest ih =>
    show mget (deleteKeys (mdel m k₀) rest) k = none
    by_cases hr : k ∈ rest
    · exact ih _ hr
    · have hk : k = k₀ := by
        rcases List.mem_cons.mp h with h | h
        · exact h
        · exact absurd h hr
      subst hk
      rw [mget_deleteKeys_not_mem _ _ _ hr]
      exact mget_mdel_self _ _
/-! ### Decimal integers -/

theorem digitVal_digitChar (d : Nat) (h : d < 10) : digitVal (digitChar d) = some d := by
  interval_cases d <;> decide

theorem digitChar_ne_sign (d : Nat) (h : d < 10) : digitChar d ≠ '-' ∧ digitChar d ≠ '+' := by
  interval_cases d <;> decide

theorem parseDigits_append (xs ys : List Char) (acc : Nat) :
    parseDigits (xs ++ ys) acc = (parseDigits xs acc).bind (parseDigits ys) := by
  induction xs generalizing acc with
  | nil => simp [parseDigits]
  | cons c cs ih =>
    simp only [List.cons_append, parseDigits]
    cases digitVal c with
    | none => simp
    | some d => simp [ih]

theorem digitsAux_append (fuel n : Nat) (acc : List Char) :
    digitsAux fuel n acc = digitsAux fuel n [] ++ acc := by
  induction fuel generalizing n acc with
  | zero => simp [digitsAux]
  | succ fuel ih =>
    simp only [digitsAux]
    split
    · simp
    · rw [ih (n / 10) (digitChar (n % 10) :: acc), ih (n / 10) [digitChar (n % 10)]]
      simp

theorem parseDigits_digitsAux (fuel n : Nat) (h : n < fuel) :
    parseDigits (digitsAux fuel n []) 0 = some n := by
  induction fuel generalizing n with
  | zero => omega
  | succ fuel ih =>
    simp only [digitsAux]
    split
    · rename_i hlt
      simp [parseDigits, digitVal_digitChar n hlt]
    · rename_i hge
      rw [digitsAux_append, parseDigits_append, ih (n / 10) (by omega)]
      simp [parseDigits, digitVal_digitChar (n % 10) (Nat.mod_lt _ (by omega))]
      omega

/-- Every rendering starts with a digit. -/
theorem digitsAux_head (fuel n : Nat) (acc : List Char) :
    ∃ d cs, d < 10 ∧ digitsAux (fuel + 1) n acc = digitChar d :: cs := by
  induction fuel generalizing n acc with
  | zero =>
    simp only [digitsAux]
    split
    · rename_i hlt
      exact ⟨n, acc, hlt, rfl⟩
    · exact ⟨n % 10, acc, Nat.mod_lt _ (by omega), rfl⟩
  | succ fuel ih =>
    rw [digitsAux]
    split
    · rename_i hlt
      exact ⟨n, acc, hlt, rfl⟩
    · exact ih _ _

theorem parseNat_natDigits (n : Nat) : parseNat (natDigits n) = some n := by
  obtain ⟨d, cs, _, hcs⟩ := digitsAux_head n n []
  have h := parseDigits_digitsAux (n + 1) n (by omega)
  unfold natDigits
  rw [hcs] at h ⊢
  simpa [parseNat] using h

theorem parseInt_formatInt_nat (n : Nat) :
    parseInt (formatInt (n : Int)) = if n ≤ 9223372036854775807 then some (n : Int) else none := by
  obtain ⟨d, cs, hd, hcs⟩ := digitsAux_head n n []
  have hp := parseNat_natDigits n
  have hneg : ¬ ((n : Int) < 0) := by omega
  unfold parseInt formatInt
  simp only [hneg, if_false, Int.natAbs_ofNat]
  unfold natDigits at hp ⊢
  rw [hcs] at hp ⊢
  simp only [(digitChar_ne_sign d hd).1, (digitChar_ne_sign d hd).2, if_false, hp]
  rfl

theorem parseInt_formatInt_nat_eq (n : Nat) (c : Int)
    (h : parseInt (formatInt (n : Int)) = some c) : c = n := by
  rw [parseInt_formatInt_nat] at h
  split at h
  · exact (Option.some.inj h).symm
  · exact absurd h (by simp)
/-! ### Topic lookup -/

theorem getTopic_name (ts : List TopicInfo) (name : String) (t : TopicInfo)
    (h : getTopic ts name = some t) : t.Name = name := by
  induction ts with
  | nil => simp [getTopic] at h
  | cons t₀ rest ih =>
    simp only [getTopic] at h
    split at h
    · rename_i hn
      cases h
      exact hn
    · exact ih h

theorem getTopic_putTopic (ts : List TopicInfo) (t : TopicInfo) :
    getTopic (putTopic ts t) t.Name = some t := by
  induction ts with
  | nil => simp [putTopic, getTopic]
  | cons t₀ rest ih =>
    simp only [putTopic]
    split
    · simp [getTopic]
    · rename_i hn
      simp [getTopic, hn, ih]

theorem putTopic_of_getTopic (ts : List TopicInfo) (t : TopicInfo)
    (h : getTopic ts t.Name = some t) : putTopic ts t = ts := by
  induction ts with
  | nil => simp [getTopic] at h
  | cons t₀ rest ih =>
    simp only [getTopic] at h
    simp only [putTopic]
    split at h
    · rename_i hn
      cases h
      simp
    · rename_i hn
      simp [hn, ih h]

theorem withTopic_of_getTopic (cl : Cluster) (name : String) (t : TopicInfo)
    (h : getTopic cl.topics name = some t) : cl.withTopic t = cl := by
  have hn := getTopic_name _ _ _ h
  subst hn
  cases cl
  simp only [Cluster.withTopic] at *
  rw [putTopic_of_getTopic _ _ h]

/-! ### Phases of the update path -/

theorem updateSettings_frame (a : TopicApplier) (t : TopicInfo) :
    (updateSettings a t).Name = t.Name ∧ (updateSettings a t).Partitions = t.Partitions := by
  unfold updateSettings
  cases a.config.DryRun <;> simp

theorem updateSettings_dryRun (a : TopicApplier) (t : TopicInfo) (h : a.config.DryRun = true) :
    updateSettings a t = t := by
  simp [updateSettings, h]

theorem updatePartitions_frame (plan : Planner) (a : TopicApplier) (brokers : List BrokerInfo)
    (t t' : TopicInfo) (np : Option IntValueChanges)
    (h : updatePartitions plan a brokers t = .ok (t', np)) :
    t'.Name = t.Name ∧ t'.Config = t.Config := by
  unfold updatePartitions at h
  simp only at h
  split at h
  · split at h
    · cases h
    · cases hd : a.config.DryRun <;> simp [hd] at h <;> obtain ⟨h1, _⟩ := h <;> subst h1 <;> simp
  · cases h
    simp

theorem updatePartitions_dryRun (plan : Planner) (a : TopicApplier) (brokers : List BrokerInfo)
    (t t' : TopicInfo) (np : Option IntValueChanges) (hd : a.config.DryRun = true)
    (h : updatePartitions plan a brokers t = .ok (t', np)) : t' = t := by
  unfold updatePartitions at h
  simp only at h
  split at h
  · split at h
    · cases h
    · simp [hd] at h
      exact h.1.symm
  · cases h
    rfl

theorem updatePlacement_frame (plan : Planner) (a : TopicApplier) (brokers : List BrokerInfo)
    (t t' : TopicInfo) (ra : Option (List ReplicaAssignmentChanges))
    (h : updatePlacement plan a brokers t = .ok (t', ra)) :
    t'.Name = t.Name ∧ t'.Config = t.Config := by
  unfold updatePlacement at h
  split at h
  · cases h
  · split at h
    · cases h
      simp
    · cases hd : a.config.DryRun <;> simp [hd] at h <;> obtain ⟨h1, _⟩ := h <;> subst h1 <;> simp

theorem updatePlacement_dryRun (plan : Planner) (a : TopicApplier) (brokers : List BrokerInfo)
    (t t' : TopicInfo) (ra : Option (List ReplicaAssignmentChanges)) (hd : a.config.DryRun = true)
    (h : updatePlacement plan a brokers t = .ok (t', ra)) : t' = t := by
  unfold updatePlacement at h
  split at h
  · cases h
  · split at h
    · cases h
      rfl
    · simp [hd] at h
      exact h.1.symm

/-! ### Throttle cleanup -/

theorem throttleCleanup_dryRun (a : TopicApplier) (cl : Cluster) (h : a.config.DryRun = true) :
    throttleCleanup a cl = cl := by
  simp [throttleCleanup, h]

theorem mget_clearTopicThrottles (t : TopicInfo) (k : String)
    (h1 : k ≠ LeaderReplicasThrottledKey) (h2 : k ≠ FollowerReplicasThrottledKey) :
    mget (clearTopicThrottles t).Config k = mget t.Config k := by
  unfold clearTopicThrottles
  simp only []
  rw [mget_mdel_ne _ _ _ h2, mget_mdel_ne _ _ _ h1]

/-- The throttle cleanup keeps the applier's topic, up to its throttled-replicas lists. -/
theorem getTopic_throttleCleanup (a : TopicApplier) (cl : Cluster) (t : TopicInfo)
    (h : getTopic cl.topics a.topicConfig.Meta.Name = some t) :
    ∃ t', getTopic (throttleCleanup a cl).topics a.topicConfig.Meta.Name = some t' ∧
      (t' = t ∨ t' = clearTopicThrottles t) := by
  have hname := getTopic_name _ _ _ h
  unfold throttleCleanup
  split
  · exact ⟨t, h, Or.inl rfl⟩
  · simp only [h]
    refine ⟨clearTopicThrottles t, ?_, Or.inr rfl⟩
    have hn : (clearTopicThrottles t).Name = a.topicConfig.Meta.Name := hname
    rw [← hn]
    exact getTopic_putTopic _ _

/-- On the update path the applier's topic is in the cluster afterwards, and apart from the
throttled-replicas lists it carries the config the settings reconciler left. -/
theorem applyExistingTopic_cluster (plan : Planner) (a : TopicApplier) (cl : Cluster)
    (t : TopicInfo) (hname : t.Name = a.topicConfig.Meta.Name)
    (hrf : liveReplication t = a.topicConfig.Spec.ReplicationFactor) :
    ∃ t', getTopic (applyExistingTopic plan a cl t).cluster.topics a.topicConfig.Meta.Name =
        some t' ∧
      ∀ k, k ≠ LeaderReplicasThrottledKey → k ≠ FollowerReplicasThrottledKey →
        mget t'.Config k = mget (updateSettings a t).Config k := by
  have hstored : ∀ t₁ : TopicInfo, t₁.Name = t.Name →
      getTopic (cl.withTopic t₁).topics a.topicConfig.Meta.Name = some t₁ := by
    intro t₁ h₁
    rw [← hname, ← h₁]
    exact getTopic_putTopic _ _
  unfold applyExistingTopic
  simp only [hrf, ne_eq, not_true_eq_false, if_false]
  cases h1 : updatePartitions plan a cl.brokers (updateSettings a t) with
  | error e => exact ⟨updateSettings a t, hstored _ (updateSettings_frame a t).1, fun _ _ _ => rfl⟩
  | ok r1 =>
    obtain ⟨t1, np⟩ := r1
    have f1 := updatePartitions_frame _ _ _ _ _ _ h1
    simp only []
    cases h2 : updatePlacement plan a cl.brokers t1 with
    | error e =>
      exact ⟨t1, hstored _ (f1.1.trans (updateSettings_frame a t).1), fun _ _ _ => by rw [f1.2]⟩
    | ok r2 =>
      obtain ⟨t2, ra⟩ := r2
      have f2 := updatePlacement_frame _ _ _ _ _ _ h2
      simp only []
      obtain ⟨t', ht', hor⟩ := getTopic_throttleCleanup a (cl.withTopic t2) t2
        (hstored _ (f2.1.trans (f1.1.trans (updateSettings_frame a t).1)))
      refine ⟨t', ht', fun k hk1 hk2 => ?_⟩
      rcases hor with h | h
      · rw [h, f2.2, f1.2]
      · rw [h, mget_clearTopicThrottles _ _ hk1 hk2, f2.2, f1.2]

/-! ### The settings reconciler -/

theorem mget_desiredSettings_retention (spec : TopicSpec) :
    mget (desiredSettings spec) RetentionKey =
      some (formatInt ((spec.RetentionMinutes : Int) * 60000)) :=
  mget_mset_self _ _ _

theorem mem_newKeys_iff (desired live : ConfigMap) (k : String) :
    k ∈ newKeys desired live ↔ (mget desired k).isSome = true ∧ mget live k = none := by
  unfold newKeys
  rw [List.mem_filter, mem_mkeys_iff]
  cases mget live k <;> simp

theorem mem_updatedKeys_iff (desired live : ConfigMap) (k : String) :
    k ∈ updatedKeys desired live ↔
      (mget desired k).isSome = true ∧ (mget live k).isSome = true ∧ mget live k ≠ mget desired k := by
  unfold updatedKeys
  rw [List.mem_filter, mem_mkeys_iff]
  simp

theorem mem_missingKeys_iff (desired live : ConfigMap) (k : String) :
    k ∈ missingKeys desired live ↔ (mget live k).isSome = true ∧ mget desired k = none := by
  unfold missingKeys
  rw [List.mem_filter, mem_mkeys_iff]
  cases mget desired k <;> simp

/-- The config the settings reconciler leaves in a real run, key by key. -/
theorem mget_updateSettings (a : TopicApplier) (t : TopicInfo) (k : String)
    (hdry : a.config.DryRun = false) :
    mget (updateSettings a t).Config k =
      if k ∈ newKeys (desiredSettings a.topicConfig.Spec) t.Config ++
          updatedKeys (desiredSettings a.topicConfig.Spec) t.Config then
        some (valueToWrite a t.Config k)
      else if a.config.Destructive = true ∧
          k ∈ missingKeys (desiredSettings a.topicConfig.Spec) t.Config then none
      else mget t.Config k := by
  unfold updateSettings
  simp only [hdry, Bool.false_eq_true, if_false]
  by_cases hw : k ∈ newKeys (desiredSettings a.topicConfig.Spec) t.Config ++
      updatedKeys (desiredSettings a.topicConfig.Spec) t.Config
  · have hnm : k ∉ missingKeys (desiredSettings a.topicConfig.Spec) t.Config := by
      intro hm
      rw [mem_missingKeys_iff] at hm
      rcases List.mem_append.mp hw with h | h
      · rw [mem_newKeys_iff] at h
        rw [hm.2] at h
        simp at h
      · rw [mem_updatedKeys_iff] at h
        rw [hm.2] at h
        simp at h
    rw [if_pos hw]
    have hwr := mget_writeEntries_mem (valueToWrite a t.Config) _ t.Config k hw
    cases a.config.Destructive
    · simpa using hwr
    · simp only [if_true]
      rw [mget_deleteKeys_not_mem _ _ _ hnm]
      exact hwr
  · rw [if_neg hw]
    have hwr : mget (writeEntries t.Config
        ((newKeys (desiredSettings a.topicConfig.Spec) t.Config ++
          updatedKeys (desiredSettings a.topicConfig.Spec) t.Config).map
            (fun k => (k, valueToWrite a t.Config k)))) k = mget t.Config k := by
      apply mget_writeEntries_not_mem
      simpa [List.map_map, Function.comp] using hw
    cases hdes : a.config.Destructive
    · simpa using hwr
    · simp only [if_true, true_and]
      by_cases hm : k ∈ missingKeys (desiredSettings a.topicConfig.Spec) t.Config
      · rw [if_pos hm, mget_deleteKeys_mem _ _ _ hm]
      · rw [if_neg hm, mget_deleteKeys_not_mem _ _ _ hm]
        exact hwr

theorem steppedRetention_of_gap (c d : Int) (s : Nat) (h : c - d > (s : Int)) :
    steppedRetention c d s = c - s ∧ c - (s : Int) = max d (c - s) := by
  have hmax : max d (c - (s : Int)) = c - s := max_eq_right (by omega)
  unfold steppedRetention
  rw [if_pos h, hmax]
  exact ⟨rfl, rfl⟩

/-- On the update path a successful run returns the update record built from the diff of the
settings reconciler. -/
theorem applyExistingTopic_result (plan : Planner) (a : TopicApplier) (cl : Cluster)
    (t : TopicInfo) (r : Option Changes)
    (h : (applyExistingTopic plan a cl t).result = .ok r) :
    ∃ np ra, r = updateRecord a (settingsChanges a t.Config) np ra := by
  unfold applyExistingTopic at h
  split at h
  · cases h
  · simp only [] at h
    cases h1 : updatePartitions plan a cl.brokers (updateSettings a t) with
    | error e =>
      rw [h1] at h
      cases h
    | ok r1 =>
      obtain ⟨t1, np⟩ := r1
      rw [h1] at h
      simp only [] at h
      cases h2 : updatePlacement plan a cl.brokers t1 with
      | error e =>
        rw [h2] at h
        cases h
      | ok r2 =>
        obtain ⟨t2, ra⟩ := r2
        rw [h2] at h
        simp only [] at h
        cases h
        exact ⟨np, ra, rfl⟩

/-- C2: retention stepping. When the live retention `c` exceeds the desired retention `d` by
more than the step `s`, a real run of `Apply` on the existing topic leaves `retention.ms` at
`c - s`, records that value as the updated entry of `retention.ms`, and `c - s` is
`max d (c - s)`. -/
theorem Apply_retention_step (plan : Planner) (a : TopicApplier) (cl : Cluster)
    (topicInfo : TopicInfo) (v : String) (c : Int)
    (hcons : CheckConsistency a.topicConfig.Meta a.clusterConfig = none)
    (htopic : getTopic cl.topics a.topicConfig.Meta.Name = some topicInfo)
    (hrf : liveReplication topicInfo = a.topicConfig.Spec.ReplicationFactor)
    (hdry : a.config.DryRun = false)
    (hlive : mget topicInfo.Config RetentionKey = some v)
    (hcur : parseInt v = some c)
    (hgap : c - (a.topicConfig.Spec.RetentionMinutes : Int) * 60000 >
      (a.config.RetentionDropStepDuration : Int)) :
    (∃ t', getTopic (Apply plan a cl).cluster.topics a.topicConfig.Meta.Name = some t' ∧
      mget t'.Config RetentionKey =
        some (formatInt (c - (a.config.RetentionDropStepDuration : Int)))) ∧
    (∀ r, (Apply plan a cl).result = .ok r → ∃ u, r = some (.updated u) ∧
      ∃ es, u.UpdatedConfigEntries = some es ∧
        { Name := RetentionKey, Current := v,
          Updated := formatInt (c - (a.config.RetentionDropStepDuration : Int)) } ∈ es) ∧
    c - (a.config.RetentionDropStepDuration : Int) =
      max ((a.topicConfig.Spec.RetentionMinutes : Int) * 60000)
        (c - (a.config.RetentionDropStepDuration : Int)) := by
  have hstep := steppedRetention_of_gap c _ _ hgap
  have hname := getTopic_name _ _ _ htopic
  -- the retention key is an updated key
  have hne : mget topicInfo.Config RetentionKey ≠
      mget (desiredSettings a.topicConfig.Spec) RetentionKey := by
    rw [hlive, mget_desiredSettings_retention]
    intro heq
    have hv : v = formatInt ((a.topicConfig.Spec.RetentionMinutes : Int) * 60000) :=
      Option.some.inj heq
    rw [hv] at hcur
    have hcast : ((a.topicConfig.Spec.RetentionMinutes : Int) * 60000) =
        ((a.topicConfig.Spec.RetentionMinutes * 60000 : Nat) : Int) := by push_cast; rfl
    rw [hcast] at hcur
    have := parseInt_formatInt_nat_eq _ _ hcur
    omega
  have hupd : RetentionKey ∈ updatedKeys (desiredSettings a.topicConfig.Spec) topicInfo.Config := by
    rw [mem_updatedKeys_iff]
    refine ⟨?_, ?_, hne⟩
    · rw [mget_desiredSettings_retention]; rfl
    · rw [hlive]; rfl
  have hval : valueToWrite a topicInfo.Config RetentionKey =
      formatInt (c - (a.config.RetentionDropStepDuration : Int)) := by
    unfold valueToWrite
    simp only [if_true, hlive, Option.bind, hcur]
    rw [hstep.1]
  have hApply : Apply plan a cl = applyExistingTopic plan a cl topicInfo := by
    unfold Apply
    rw [hcons]
    simp only []
    rw [htopic]
  refine ⟨?_, ?_, hstep.2⟩
  · obtain ⟨t', ht', hcfg⟩ := applyExistingTopic_cluster plan a cl topicInfo hname hrf
    refine ⟨t', ?_, ?_⟩
    · rw [hApply]
      exact ht'
    · rw [hcfg RetentionKey (by decide) (by decide),
        mget_updateSettings a topicInfo RetentionKey hdry,
        if_pos (List.mem_append_right _ hupd), hval]
  · intro r hr
    rw [hApply] at hr
    obtain ⟨np, ra, hrec⟩ := applyExistingTopic_result plan a cl topicInfo r hr
    have hmem : ConfigEntryChanges.mk RetentionKey v
        (formatInt (c - (a.config.RetentionDropStepDuration : Int))) ∈
          (settingsChanges a topicInfo.Config).UpdatedConfigEntries := by
      unfold settingsChanges
      simp only [List.mem_map]
      exact ⟨RetentionKey, hupd, by rw [hval, hlive]; rfl⟩
    have hnonempty : (settingsChanges a topicInfo.Config).UpdatedConfigEntries.isEmpty = false := by
      cases hl : (settingsChanges a topicInfo.Config).UpdatedConfigEntries with
      | nil => rw [hl] at hmem; simp at hmem
      | cons x xs => rfl
    subst hrec
    unfold updateRecord
    simp only [hnonempty, Bool.and_false, Bool.false_and, Bool.false_eq_true, if_false]
    refine ⟨_, rfl, _, ?_, hmem⟩
    simp [populated, hnonempty]

/-- The test's retention update: 500 minutes live, 400 minutes desired and a step of 50
minutes write `retention.ms = 27000000`. -/
theorem Apply_retention_step_witness :
    (getTopic (testCluster [liveTopic [("retention.ms", "30000000")]]).topics "apply-topic" =
        some (liveTopic [("retention.ms", "30000000")]) ∧
      parseInt "30000000" = some 30000000 ∧
      (30000000 : Int) - ((400 : Nat) : Int) * 60000 > ((3000000 : Nat) : Int)) ∧
    (∃ t', getTopic (Apply keepPlanner (testApplier false false (testTopicConfig 9 2 400 .any []))
        (testCluster [liveTopic [("retention.ms", "30000000")]])).cluster.topics "apply-topic" =
          some t' ∧
      mget t'.Config RetentionKey = some "27000000") :=
  ⟨⟨by decide, by decide, by decide⟩,
    (Apply_retention_step keepPlanner (testApplier false false (testTopicConfig 9 2 400 .any []))
      (testCluster [liveTopic [("retention.ms", "30000000")]])
      (liveTopic [("retention.ms", "30000000")]) "30000000" 30000000
      (by decide) (by decide) (by decide) (by decide) (by decide) (by decide) (by decide)).1⟩

/-- C3: replication factor lock. When the topic exists and the replication factor of the
spec differs from the live one, `Apply` returns an error and the cluster afterwards is the
cluster before: topic configs, partition counts and replica assignments are untouched. -/
theorem Apply_replication_locked (plan : Planner) (a : TopicApplier) (cl : Cluster)
    (topicInfo : TopicInfo)
    (htopic : getTopic cl.topics a.topicConfig.Meta.Name = some topicInfo)
    (hrf : liveReplication topicInfo ≠ a.topicConfig.Spec.ReplicationFactor) :
    (∃ e, (Apply plan a cl).result = .error e) ∧ (Apply plan a cl).cluster = cl ∧
      getTopic (Apply plan a cl).cluster.topics a.topicConfig.Meta.Name = some topicInfo := by
  have key : (∃ e, (Apply plan a cl).result = .error e) ∧ (Apply plan a cl).cluster = cl := by
    unfold Apply
    cases hc : CheckConsistency a.topicConfig.Meta a.clusterConfig with
    | some msgs => exact ⟨⟨_, rfl⟩, rfl⟩
    | none =>
      simp only []
      rw [htopic]
      simp only []
      unfold applyExistingTopic
      rw [if_pos hrf]
      exact ⟨⟨_, rfl⟩, rfl⟩
  refine ⟨key.1, key.2, ?_⟩
  rw [key.2]
  exact htopic

/-- The test's attempt to raise the replication factor: live replicas of width 2, spec
replication factor 3. -/
theorem Apply_replication_locked_witness :
    (getTopic (testCluster [liveTopic [("retention.ms", "27000000")]]).topics "apply-topic" =
        some (liveTopic [("retention.ms", "27000000")]) ∧
      liveReplication (liveTopic [("retention.ms", "27000000")]) = 2) ∧
    (∃ e, (Apply keepPlanner (testApplier false false (testTopicConfig 9 3 400 .any []))
        (testCluster [liveTopic [("retention.ms", "27000000")]])).result = .error e) ∧
    (Apply keepPlanner (testApplier false false (testTopicConfig 9 3 400 .any []))
        (testCluster [liveTopic [("retention.ms", "27000000")]])).cluster =
      testCluster [liveTopic [("retention.ms", "27000000")]] :=
  ⟨⟨by decide, by decide⟩,
    (Apply_replication_locked keepPlanner (testApplier false false (testTopicConfig 9 3 400 .any []))
      (testCluster [liveTopic [("retention.ms", "27000000")]])
      (liveTopic [("retention.ms", "27000000")]) (by decide) (by decide)).1,
    (Apply_replication_locked keepPlanner (testApplier false false (testTopicConfig 9 3 400 .any []))
      (testCluster [liveTopic [("retention.ms", "27000000")]])
      (liveTopic [("retention.ms", "27000000")]) (by decide) (by decide)).2.1⟩

/-- C6: dry-run purity. With `DryRun` set, `Apply` leaves the cluster as it was, whatever the
spec, the planner and the cluster: a topic that did not exist still does not exist, and an
existing topic keeps its config (so its retention), its partitions and their replicas. -/
theorem Apply_dryRun_pure (plan : Planner) (a : TopicApplier) (cl : Cluster)
    (hdry : a.config.DryRun = true) :
    (Apply plan a cl).cluster = cl ∧
      (∀ name, getTopic cl.topics name = none →
        getTopic (Apply plan a cl).cluster.topics name = none) ∧
      (∀ name t, getTopic cl.topics name = some t →
        ∃ t', getTopic (Apply plan a cl).cluster.topics name = some t' ∧
          mget t'.Config RetentionKey = mget t.Config RetentionKey ∧
          t'.Partitions.length = t.Partitions.length ∧ t'.Partitions = t.Partitions) := by
  have key : (Apply plan a cl).cluster = cl := by
    unfold Apply
    cases hc : CheckConsistency a.topicConfig.Meta a.clusterConfig with
    | some msgs => rfl
    | none =>
      simp only []
      cases ht : getTopic cl.topics a.topicConfig.Meta.Name with
      | none =>
        simp only []
        unfold applyNewTopic
        split
        · rfl
        · simp [hdry]
      | some topicInfo =>
        simp only []
        have hback := withTopic_of_getTopic cl _ _ ht
        unfold applyExistingTopic
        split
        · rfl
        · simp only []
          rw [updateSettings_dryRun a topicInfo hdry]
          cases h1 : updatePartitions plan a cl.brokers topicInfo with
          | error e => exact hback
          | ok r1 =>
            obtain ⟨t1, np⟩ := r1
            have e1 := updatePartitions_dryRun _ _ _ _ _ _ hdry h1
            subst e1
            simp only []
            cases h2 : updatePlacement plan a cl.brokers t1 with
            | error e => exact hback
            | ok r2 =>
              obtain ⟨t2, ra⟩ := r2
              have e2 := updatePlacement_dryRun _ _ _ _ _ _ hdry h2
              subst e2
              simp only []
              rw [throttleCleanup_dryRun a _ hdry]
              exact hback
  refine ⟨key, ?_, ?_⟩
  · intro name h
    rw [key]
    exact h
  · intro name t h
    rw [key]
    exact ⟨t, h, rfl, rfl, rfl⟩

/-- The test's dry run: retention 600, 12 partitions and in-rack placement asked of a topic
with retention 500 and 9 partitions. -/
theorem Apply_dryRun_pure_witness :
    (testApplier true false (testTopicConfig 12 2 600 .inRack [])).config.DryRun = true ∧
    (Apply keepPlanner (testApplier true false (testTopicConfig 12 2 600 .inRack []))
        (testCluster [liveTopic [("retention.ms", "30000000")]])).cluster =
      testCluster [liveTopic [("retention.ms", "30000000")]] :=
  ⟨by decide,
    (Apply_dryRun_pure keepPlanner (testApplier true false (testTopicConfig 12 2 600 .inRack []))
      (testCluster [liveTopic [("retention.ms", "30000000")]]) (by decide)).1⟩

/-- The three runs of `TestApplyExistingThrottles` on the applier's topic, `Destructive`
unset. While another applier holds the cluster lock the topic stays throttled; once the lock
is released the topic is no longer throttled and two brokers still are, because of the
throttle on the second topic; once the list of the second topic is reset a further run
removes the broker throttles. -/
theorem Apply_existing_throttles :
    (∃ r t', (Apply keepPlanner (testApplier false false (testTopicConfig 3 2 500 .any []))
        (existingThrottlesCluster true true)).result = .ok r ∧
      getTopic (Apply keepPlanner (testApplier false false (testTopicConfig 3 2 500 .any []))
        (existingThrottlesCluster true true)).cluster.topics "apply-topic" = some t' ∧
      t'.IsThrottled = true) ∧
    (∃ r t', (Apply keepPlanner (testApplier false false (testTopicConfig 3 2 500 .any []))
        (existingThrottlesCluster false true)).result = .ok r ∧
      getTopic (Apply keepPlanner (testApplier false false (testTopicConfig 3 2 500 .any []))
        (existingThrottlesCluster false true)).cluster.topics "apply-topic" = some t' ∧
      t'.IsThrottled = false ∧
      (ThrottledBrokerIDs (Apply keepPlanner
        (testApplier false false (testTopicConfig 3 2 500 .any []))
        (existingThrottlesCluster false true)).cluster.brokers).length = 2) ∧
    (∃ r, (Apply keepPlanner (testApplier false false (testTopicConfig 3 2 500 .any []))
        ((Apply keepPlanner (testApplier false false (testTopicConfig 3 2 500 .any []))
          (existingThrottlesCluster false true)).cluster.withTopic
            (throttledTestTopic "apply-topic-2" false))).result = .ok r ∧
      (ThrottledBrokerIDs (Apply keepPlanner
        (testApplier false false (testTopicConfig 3 2 500 .any []))
        ((Apply keepPlanner (testApplier false false (testTopicConfig 3 2 500 .any []))
          (existingThrottlesCluster false true)).cluster.withTopic
            (throttledTestTopic "apply-topic-2" false))).cluster.brokers).length = 0) :=
  ⟨⟨_, _, rfl, rfl, by decide⟩, ⟨_, _, rfl, rfl, by decide, by decide⟩, ⟨_, rfl, by decide⟩⟩

/-- C4 (as stated, refuted), on two inputs. In `TestApplyExistingThrottles` the key
`follower.replicas.throttled` is live on the topic and absent from the spec, `Destructive` is
unset, and a real run of `Apply` with no lock held removes the key. And in a dry run with
`Destructive` set, the key `cleanup.policy`, live and absent from the spec, is not deleted.
So "deleted if and only if `Destructive`" fails in both directions. -/
theorem Apply_destructive_gate_counterexample :
    (mget (throttledTestTopic "apply-topic" true).Config FollowerReplicasThrottledKey =
        some "1:3,3:4" ∧
      mget (desiredSettings (testTopicConfig 3 2 500 .any []).Spec)
        FollowerReplicasThrottledKey = none ∧
      (testApplier false false (testTopicConfig 3 2 500 .any [])).config.Destructive = false ∧
      ∃ t', getTopic (Apply keepPlanner (testApplier false false (testTopicConfig 3 2 500 .any []))
          (existingThrottlesCluster false true)).cluster.topics "apply-topic" = some t' ∧
        mget t'.Config FollowerReplicasThrottledKey = none) ∧
    (mget (liveTopic [("cleanup.policy", "delete"), ("retention.ms", "30000000")]).Config
        "cleanup.policy" = some "delete" ∧
      mget (desiredSettings (testTopicConfig 9 2 500 .any []).Spec) "cleanup.policy" = none ∧
      (testApplier true true (testTopicConfig 9 2 500 .any [])).config.Destructive = true ∧
      ∃ t', getTopic (Apply keepPlanner (testApplier true true (testTopicConfig 9 2 500 .any []))
          (testCluster [liveTopic [("cleanup.policy", "delete"), ("retention.ms", "30000000")]])
            ).cluster.topics "apply-topic" = some t' ∧
        mget t'.Config "cleanup.policy" = some "delete") :=
  ⟨⟨by decide, by decide, by decide, _, rfl, by decide⟩,
    ⟨by decide, by decide, by decide, _, rfl, by decide⟩⟩

/-- C4 (amended): destructive gate. For a key other than the two throttled-replicas keys of
the throttle cleanup, live and absent from the desired settings of the spec, when `Apply`
reaches the settings reconciler (consistent spec, same replication factor), the key is gone
from the live config afterwards if and only if `Destructive` is set and the run is not a dry
run, it keeps its value otherwise, and every record `Apply` returns lists the key in
`MissingKeys`. -/
theorem Apply_destructive_gate (plan : Planner) (a : TopicApplier) (cl : Cluster)
    (topicInfo : TopicInfo) (k v : String)
    (hcons : CheckConsistency a.topicConfig.Meta a.clusterConfig = none)
    (htopic : getTopic cl.topics a.topicConfig.Meta.Name = some topicInfo)
    (hrf : liveReplication topicInfo = a.topicConfig.Spec.ReplicationFactor)
    (hleader : k ≠ LeaderReplicasThrottledKey)
    (hfollower : k ≠ FollowerReplicasThrottledKey)
    (hlive : mget topicInfo.Config k = some v)
    (habsent : mget (desiredSettings a.topicConfig.Spec) k = none) :
    (∃ t', getTopic (Apply plan a cl).cluster.topics a.topicConfig.Meta.Name = some t' ∧
      (mget t'.Config k = none ↔ (a.config.Destructive = true ∧ a.config.DryRun = false)) ∧
      (mget t'.Config k = none ∨ mget t'.Config k = some v)) ∧
    (∀ r, (Apply plan a cl).result = .ok r → ∃ u, r = some (.updated u) ∧ k ∈ u.MissingKeys) := by
  have hname := getTopic_name _ _ _ htopic
  have hApply : Apply plan a cl = applyExistingTopic plan a cl topicInfo := by
    unfold Apply
    rw [hcons]
    simp only []
    rw [htopic]
  have hmiss : k ∈ missingKeys (desiredSettings a.topicConfig.Spec) topicInfo.Config := by
    rw [mem_missingKeys_iff, hlive]
    exact ⟨rfl, habsent⟩
  have hnw : k ∉ newKeys (desiredSettings a.topicConfig.Spec) topicInfo.Config ++
      updatedKeys (desiredSettings a.topicConfig.Spec) topicInfo.Config := by
    intro hw
    rcases List.mem_append.mp hw with h | h
    · rw [mem_newKeys_iff, habsent] at h
      simp at h
    · rw [mem_updatedKeys_iff, habsent] at h
      simp at h
  refine ⟨?_, ?_⟩
  · obtain ⟨t', ht', hcfg⟩ := applyExistingTopic_cluster plan a cl topicInfo hname hrf
    refine ⟨t', ?_, ?_⟩
    · rw [hApply]
      exact ht'
    · rw [hcfg k hleader hfollower]
      cases hdry : a.config.DryRun
      · rw [mget_updateSettings a topicInfo k hdry, if_neg hnw]
        cases hdes : a.config.Destructive
        · simp [hlive]
        · simp [hmiss]
      · rw [updateSettings_dryRun a topicInfo hdry, hlive]
        simp
  · intro r hr
    rw [hApply] at hr
    obtain ⟨np, ra, hrec⟩ := applyExistingTopic_result plan a cl topicInfo r hr
    have hmem : k ∈ (settingsChanges a topicInfo.Config).MissingKeys := hmiss
    have hnonempty : (settingsChanges a topicInfo.Config).MissingKeys.isEmpty = false := by
      cases hl : (settingsChanges a topicInfo.Config).MissingKeys with
      | nil => rw [hl] at hmem; simp at hmem
      | cons x xs => rfl
    subst hrec
    unfold updateRecord
    simp only [hnonempty, Bool.and_false, Bool.false_and, Bool.false_eq_true, if_false]
    exact ⟨_, rfl, hmem⟩

/-- The test's removal of `cleanup.policy` from the spec, with `Destructive` set: the live
key is deleted. -/
theorem Apply_destructive_gate_witness :
    (mget (liveTopic [("cleanup.policy", "delete"), ("retention.ms", "30000000")]).Config
        "cleanup.policy" = some "delete" ∧
      mget (desiredSettings (testTopicConfig 9 2 500 .any []).Spec) "cleanup.policy" = none) ∧
    (∃ t', getTopic (Apply keepPlanner (testApplier false true (testTopicConfig 9 2 500 .any []))
        (testCluster [liveTopic [("cleanup.policy", "delete"), ("retention.ms", "30000000")]])
          ).cluster.topics "apply-topic" = some t' ∧
      (mget t'.Config "cleanup.policy" = none ↔
        ((testApplier false true (testTopicConfig 9 2 500 .any [])).config.Destructive = true ∧
          (testApplier false true (testTopicConfig 9 2 500 .any [])).config.DryRun = false)) ∧
      (mget t'.Config "cleanup.policy" = none ∨ mget t'.Config "cleanup.policy" = some "delete")) :=
  ⟨⟨by decide, by decide⟩,
    (Apply_destructive_gate keepPlanner (testApplier false true (testTopicConfig 9 2 500 .any []))
      (testCluster [liveTopic [("cleanup.policy", "delete"), ("retention.ms", "30000000")]])
      (liveTopic [("cleanup.policy", "delete"), ("retention.ms", "30000000")])
      "cleanup.policy" "delete" (by decide) (by decide) (by decide) (by decide) (by decide)
      (by decide) (by decide)).1⟩

/-! ### Idempotence -/

theorem mdel_eq_filter (m : ConfigMap) (k : String) :
    mdel m k = m.filter (fun e => decide (e.1 ≠ k)) := by
  induction m with
  | nil => rfl
  | cons e rest ih =>
    obtain ⟨k', v'⟩ := e
    simp only [mdel, List.filter_cons]
    by_cases h : k' = k
    · simp [h, ih]
    · simp [h, ih]

theorem clearTopicThrottles_idem (t : TopicInfo) :
    clearTopicThrottles (clearTopicThrottles t) = clearTopicThrottles t := by
  unfold clearTopicThrottles
  simp only [mdel_eq_filter, List.filter_filter]
  congr 1
  apply List.filter_congr
  intro e _
  cases decide (e.1 ≠ FollowerReplicasThrottledKey) <;>
    cases decide (e.1 ≠ LeaderReplicasThrottledKey) <;> rfl

theorem clearBrokerThrottles_idem (b : BrokerInfo) :
    clearBrokerThrottles (clearBrokerThrottles b) = clearBrokerThrottles b := by
  unfold clearBrokerThrottles
  simp only [mdel_eq_filter, List.filter_filter]
  congr 1
  apply List.filter_congr
  intro e _
  cases decide (e.1 ≠ FollowerThrottledKey) <;>
    cases decide (e.1 ≠ LeaderThrottledKey) <;> rfl

/-- Running the throttle cleanup a second time changes nothing. -/
theorem throttleCleanup_idem (a : TopicApplier) (cl : Cluster) :
    throttleCleanup a (throttleCleanup a cl) = throttleCleanup a cl := by
  by_cases hc : (a.config.DryRun || (cl.features.Locks && cl.lockHeld)) = true
  · have h1 : throttleCleanup a cl = cl := by
      unfold throttleCleanup
      rw [if_pos hc]
    rw [h1, h1]
  · have hput : ∀ (ts : List TopicInfo) (x : TopicInfo), putTopic (putTopic ts x) x = putTopic ts x :=
      fun ts x => putTopic_of_getTopic _ _ (getTopic_putTopic ts x)
    cases ht : getTopic cl.topics a.topicConfig.Meta.Name with
    | none =>
      unfold throttleCleanup
      simp only [hc, ht, if_false]
      cases hb : (cl.features.DynamicBrokerConfigs && !(cl.topics.any TopicInfo.IsThrottled))
      · simp [hb, hc, ht]
      · simp [hb, hc, ht, List.map_map, Function.comp, clearBrokerThrottles_idem]
    | some t =>
      have hname : (clearTopicThrottles t).Name = a.topicConfig.Meta.Name :=
        getTopic_name _ _ t ht
      have hget : getTopic (putTopic cl.topics (clearTopicThrottles t)) a.topicConfig.Meta.Name =
          some (clearTopicThrottles t) := by
        rw [← hname]
        exact getTopic_putTopic _ _
      unfold throttleCleanup
      simp only [hc, ht, if_false]
      cases hb : (cl.features.DynamicBrokerConfigs &&
          !((putTopic cl.topics (clearTopicThrottles t)).any TopicInfo.IsThrottled))
      · simp [hb, hc, hget, clearTopicThrottles_idem, hput]
      · simp [hb, hc, hget, clearTopicThrottles_idem, hput, List.map_map, Function.comp,
          clearBrokerThrottles_idem]

/-- A topic whose config agrees with the desired settings key by key. -/
theorem settingsChanges_of_settled (a : TopicApplier) (live : ConfigMap)
    (h : ∀ k, mget live k = mget (desiredSettings a.topicConfig.Spec) k) :
    newKeys (desiredSettings a.topicConfig.Spec) live = [] ∧
    updatedKeys (desiredSettings a.topicConfig.Spec) live = [] ∧
    missingKeys (desiredSettings a.topicConfig.Spec) live = [] := by
  refine ⟨?_, ?_, ?_⟩
  · apply List.eq_nil_iff_forall_not_mem.mpr
    intro k hk
    rw [mem_newKeys_iff, ← h k] at hk
    rw [hk.2] at hk
    simp at hk
  · apply List.eq_nil_iff_forall_not_mem.mpr
    intro k hk
    rw [mem_updatedKeys_iff] at hk
    exact hk.2.2 (h k)
  · apply List.eq_nil_iff_forall_not_mem.mpr
    intro k hk
    rw [mem_missingKeys_iff, h k] at hk
    rw [hk.2] at hk
    simp at hk

/-- The value written for a key of the desired settings is the desired value, unless the
retention is stepped. -/
theorem valueToWrite_eq_desired (a : TopicApplier) (live : ConfigMap) (k : String)
    (hk : (mget (desiredSettings a.topicConfig.Spec) k).isSome = true)
    (hstep : ∀ v c, mget live RetentionKey = some v → parseInt v = some c →
      c - (a.topicConfig.Spec.RetentionMinutes : Int) * 60000 ≤
        (a.config.RetentionDropStepDuration : Int)) :
    some (valueToWrite a live k) = mget (desiredSettings a.topicConfig.Spec) k := by
  have hget : some ((mget (desiredSettings a.topicConfig.Spec) k).getD "") =
      mget (desiredSettings a.topicConfig.Spec) k := by
    cases hm : mget (desiredSettings a.topicConfig.Spec) k with
    | none => rw [hm] at hk; simp at hk
    | some x => rfl
  unfold valueToWrite
  by_cases hr : k = RetentionKey
  · subst hr
    simp only [if_true]
    cases hl : mget live RetentionKey with
    | none => simpa using hget
    | some v =>
      cases hp : parseInt v with
      | none => simpa [Option.bind, hp] using hget
      | some c =>
        have hle := hstep v c hl hp
        simp only [Option.bind, hp]
        rw [mget_desiredSettings_retention]
        unfold steppedRetention
        rw [if_neg (by omega)]
  · simp only [hr, if_false]
    exact hget

/-- In a real run that neither steps the retention nor leaves a missing key in place, the
settings reconciler brings the live config to the desired settings. -/
theorem updateSettings_settles (a : TopicApplier) (t : TopicInfo)
    (hdry : a.config.DryRun = false)
    (hstep : ∀ v c, mget t.Config RetentionKey = some v → parseInt v = some c →
      c - (a.topicConfig.Spec.RetentionMinutes : Int) * 60000 ≤
        (a.config.RetentionDropStepDuration : Int))
    (hmissing : a.config.Destructive = true ∨
      missingKeys (desiredSettings a.topicConfig.Spec) t.Config = []) (k : String) :
    mget (updateSettings a t).Config k = mget (desiredSettings a.topicConfig.Spec) k := by
  rw [mget_updateSettings a t k hdry]
  by_cases hw : k ∈ newKeys (desiredSettings a.topicConfig.Spec) t.Config ++
      updatedKeys (desiredSettings a.topicConfig.Spec) t.Config
  · rw [if_pos hw]
    apply valueToWrite_eq_desired a t.Config k _ hstep
    rcases List.mem_append.mp hw with h | h
    · exact ((mem_newKeys_iff _ _ _).mp h).1
    · exact ((mem_updatedKeys_iff _ _ _).mp h).1
  · rw [if_neg hw]
    by_cases hd : a.config.Destructive = true ∧
        k ∈ missingKeys (desiredSettings a.topicConfig.Spec) t.Config
    · rw [if_pos hd]
      exact (((mem_missingKeys_iff _ _ _).mp hd.2).2).symm
    · rw [if_neg hd]
      have hnm : k ∉ missingKeys (desiredSettings a.topicConfig.Spec) t.Config := by
        rcases hmissing with h | h
        · exact fun hm => hd ⟨h, hm⟩
        · rw [h]
          simp
      rw [List.mem_append, not_or, mem_newKeys_iff, mem_updatedKeys_iff] at hw
      rw [mem_missingKeys_iff] at hnm
      cases hdes : mget (desiredSettings a.topicConfig.Spec) k with
      | none =>
        cases hl : mget t.Config k with
        | none => rfl
        | some x => exact absurd ⟨by rw [hl]; rfl, hdes⟩ hnm
      | some y =>
        cases hl : mget t.Config k with
        | none => exact absurd ⟨by rw [hdes]; rfl, hl⟩ hw.1
        | some x =>
          by_contra hne
          exact hw.2 ⟨by rw [hdes]; rfl, by rw [hl]; rfl, by rw [hl, hdes]; exact hne⟩

/-- On a topic whose config agrees with the desired settings the reconciler writes nothing. -/
theorem updateSettings_of_settled (a : TopicApplier) (t : TopicInfo)
    (h : ∀ k, mget t.Config k = mget (desiredSettings a.topicConfig.Spec) k) :
    updateSettings a t = t := by
  obtain ⟨h1, h2, h3⟩ := settingsChanges_of_settled a t.Config h
  unfold updateSettings
  cases a.config.DryRun
  · simp only [Bool.false_eq_true, if_false, h1, h2, h3, List.append_nil, List.map_nil]
    cases a.config.Destructive <;> rfl
  · rfl

/-- A run on a topic that already matches the spec returns no record and does nothing beyond
the throttle cleanup. -/
theorem Apply_of_converged (plan : Planner) (a : TopicApplier) (cl : Cluster) (t : TopicInfo)
    (hcons : CheckConsistency a.topicConfig.Meta a.clusterConfig = none)
    (htopic : getTopic cl.topics a.topicConfig.Meta.Name = some t)
    (hsettled : ∀ k, mget t.Config k = mget (desiredSettings a.topicConfig.Spec) k)
    (hrf : liveReplication t = a.topicConfig.Spec.ReplicationFactor)
    (hlen : a.topicConfig.Spec.Partitions ≤ t.Partitions.length)
    (hplan : plan (planRequest a cl.brokers t.Partitions t.Partitions.length a.config.Rebalance) =
      .ok t.Partitions) :
    (Apply plan a cl).result = .ok none ∧ (Apply plan a cl).cluster = throttleCleanup a cl := by
  obtain ⟨h1, h2, h3⟩ := settingsChanges_of_settled a t.Config hsettled
  have hback := withTopic_of_getTopic cl _ _ htopic
  have hp : updatePartitions plan a cl.brokers t = .ok (t, none) := by
    unfold updatePartitions
    simp only []
    rw [if_neg (by omega)]
  have hpl : updatePlacement plan a cl.brokers t = .ok (t, none) := by
    unfold updatePlacement
    rw [hplan]
    simp
  unfold Apply
  rw [hcons]
  simp only []
  rw [htopic]
  simp only []
  unfold applyExistingTopic
  rw [if_neg (by simpa using hrf)]
  simp only []
  rw [updateSettings_of_settled a t hsettled, hp]
  simp only []
  rw [hpl]
  simp only []
  rw [hback]
  refine ⟨?_, rfl⟩
  simp [updateRecord, settingsChanges, h1, h2, h3]

theorem updatePartitions_real (plan : Planner) (a : TopicApplier) (brokers : List BrokerInfo)
    (t t' : TopicInfo) (np : Option IntValueChanges) (hdry : a.config.DryRun = false)
    (h : updatePartitions plan a brokers t = .ok (t', np)) :
    (a.topicConfig.Spec.Partitions ≤ t.Partitions.length ∧ t' = t) ∨
    (t.Partitions.length < a.topicConfig.Spec.Partitions ∧
      ∃ ext, plan (planRequest a brokers t.Partitions a.topicConfig.Spec.Partitions false) =
          .ok ext ∧
        t'.Partitions = t.Partitions ++ ext.drop t.Partitions.length) := by
  unfold updatePartitions at h
  simp only at h
  split at h
  · rename_i hgt
    right
    refine ⟨hgt, ?_⟩
    split at h
    · cases h
    · rename_i ext hext
      simp [hdry] at h
      obtain ⟨h1, _⟩ := h
      subst h1
      exact ⟨ext, hext, rfl⟩
  · rename_i hle
    left
    cases h
    exact ⟨by omega, rfl⟩

theorem updatePlacement_real (plan : Planner) (a : TopicApplier) (brokers : List BrokerInfo)
    (t t' : TopicInfo) (ra : Option (List ReplicaAssignmentChanges))
    (hdry : a.config.DryRun = false)
    (h : updatePlacement plan a brokers t = .ok (t', ra)) :
    plan (planRequest a brokers t.Partitions t.Partitions.length a.config.Rebalance) =
      .ok t'.Partitions := by
  unfold updatePlacement at h
  split at h
  · cases h
  · rename_i out hout
    split at h
    · rename_i heq
      cases h
      rw [hout, heq]
    · simp [hdry] at h
      obtain ⟨h1, _⟩ := h
      subst h1
      exact hout

/-- What the planner for static placement returns, it returns for static assignments that
fit the request. -/
theorem staticPlanner_ok (a : TopicApplier) (brokers : List BrokerInfo) (cur : List (List Int))
    (n : Nat) (rb : Bool) (out : List (List Int))
    (h : staticPlanner (planRequest a brokers cur n rb) = .ok out) :
    out = a.topicConfig.Spec.PlacementConfig.StaticAssignments ∧
    a.topicConfig.Spec.PlacementConfig.StaticAssignments ≠ [] ∧
    a.topicConfig.Spec.PlacementConfig.StaticAssignments.length = n ∧
    ∀ row ∈ a.topicConfig.Spec.PlacementConfig.StaticAssignments,
      row.length = a.topicConfig.Spec.ReplicationFactor ∧ row.Nodup := by
  unfold staticPlanner planRequest at h
  simp only [] at h
  split at h
  · rename_i hv
    cases h
    exact ⟨rfl, hv.1, hv.2.1, hv.2.2⟩
  · cases h

theorem staticPlanner_of_fit (a : TopicApplier) (brokers : List BrokerInfo)
    (cur : List (List Int)) (n : Nat) (rb : Bool)
    (h1 : a.topicConfig.Spec.PlacementConfig.StaticAssignments ≠ [])
    (h2 : a.topicConfig.Spec.PlacementConfig.StaticAssignments.length = n)
    (h3 : ∀ row ∈ a.topicConfig.Spec.PlacementConfig.StaticAssignments,
      row.length = a.topicConfig.Spec.ReplicationFactor ∧ row.Nodup) :
    staticPlanner (planRequest a brokers cur n rb) =
      .ok a.topicConfig.Spec.PlacementConfig.StaticAssignments := by
  unfold staticPlanner planRequest
  simp only []
  rw [if_pos ⟨h1, h2, h3⟩]

theorem specPlanner_static (other : Planner) (a : TopicApplier)
    (hstatic : a.topicConfig.Spec.PlacementConfig.Strategy = .static)
    (brokers : List BrokerInfo) (cur : List (List Int)) (n : Nat) (rb : Bool) :
    specPlanner other (planRequest a brokers cur n rb) =
      staticPlanner (planRequest a brokers cur n rb) := by
  unfold specPlanner
  have : (planRequest a brokers cur n rb).placement.Strategy = .static := hstatic
  rw [this]

theorem liveReplication_of_rows (t : TopicInfo) (r : Nat) (h1 : t.Partitions ≠ [])
    (h2 : ∀ row ∈ t.Partitions, row.length = r) : liveReplication t = r := by
  unfold liveReplication
  generalize t.Partitions = rows at h1 h2
  induction rows with
  | nil => exact absurd rfl h1
  | cons row rest ih =>
    have hrow : row.length = r := h2 row (List.mem_cons_self _ _)
    simp only [List.map_cons, List.foldr_cons, hrow]
    cases rest with
    | nil => simp
    | cons row' rest' =>
      rw [ih (by simp) (fun x hx => h2 x (List.mem_cons_of_mem _ hx))]
      simp

/-- After a successful real run under static placement that neither steps the retention nor
leaves a missing key in place, the cluster is the throttle cleanup of a cluster in which the
topic agrees with the desired settings and carries the static assignments. -/
theorem Apply_static_settles (plan : Planner) (a : TopicApplier) (cl : Cluster)
    (r₁ : Option Changes)
    (hplanner : ∀ brokers cur n rb, plan (planRequest a brokers cur n rb) =
      staticPlanner (planRequest a brokers cur n rb))
    (hdry : a.config.DryRun = false)
    (hfirst : (Apply plan a cl).result = .ok r₁)
    (hstep : ∀ t₀ v c, getTopic cl.topics a.topicConfig.Meta.Name = some t₀ →
      mget t₀.Config RetentionKey = some v → parseInt v = some c →
      c - (a.topicConfig.Spec.RetentionMinutes : Int) * 60000 ≤
        (a.config.RetentionDropStepDuration : Int))
    (hmissing : a.config.Destructive = true ∨
      ∀ t₀, getTopic cl.topics a.topicConfig.Meta.Name = some t₀ →
        missingKeys (desiredSettings a.topicConfig.Spec) t₀.Config = []) :
    CheckConsistency a.topicConfig.Meta a.clusterConfig = none ∧
    ∃ t₂, (Apply plan a cl).cluster = throttleCleanup a (cl.withTopic t₂) ∧
      t₂.Name = a.topicConfig.Meta.Name ∧
      (∀ k, mget t₂.Config k = mget (desiredSettings a.topicConfig.Spec) k) ∧
      t₂.Partitions = a.topicConfig.Spec.PlacementConfig.StaticAssignments ∧
      a.topicConfig.Spec.PlacementConfig.StaticAssignments ≠ [] ∧
      (∀ row ∈ a.topicConfig.Spec.PlacementConfig.StaticAssignments,
        row.length = a.topicConfig.Spec.ReplicationFactor ∧ row.Nodup) ∧
      a.topicConfig.Spec.Partitions ≤
        a.topicConfig.Spec.PlacementConfig.StaticAssignments.length := by
  unfold Apply at hfirst ⊢
  cases hc : CheckConsistency a.topicConfig.Meta a.clusterConfig with
  | some msgs =>
    rw [hc] at hfirst
    cases hfirst
  | none =>
    rw [hc] at hfirst
    refine ⟨rfl, ?_⟩
    simp only [] at hfirst ⊢
    cases ht : getTopic cl.topics a.topicConfig.Meta.Name with
    | none =>
      rw [ht] at hfirst
      simp only [] at hfirst ⊢
      unfold applyNewTopic at hfirst ⊢
      cases hp : plan (planRequest a cl.brokers [] a.topicConfig.Spec.Partitions false) with
      | error e =>
        rw [hp] at hfirst
        cases hfirst
      | ok assignments =>
        rw [hplanner] at hp
        obtain ⟨e1, e2, e3, e4⟩ := staticPlanner_ok a _ _ _ _ _ hp
        simp only [hdry, Bool.false_eq_true, if_false]
        exact ⟨_, rfl, rfl, fun k => rfl, e1, e2, e4, by omega⟩
    | some t₀ =>
      rw [ht] at hfirst
      simp only [] at hfirst ⊢
      have hname := getTopic_name _ _ _ ht
      unfold applyExistingTopic at hfirst ⊢
      by_cases hrf : liveReplication t₀ = a.topicConfig.Spec.ReplicationFactor
      · simp only [hrf, ne_eq, not_true_eq_false, if_false] at hfirst ⊢
        cases h1 : updatePartitions plan a cl.brokers (updateSettings a t₀) with
        | error e =>
          rw [h1] at hfirst
          cases hfirst
        | ok r1 =>
          obtain ⟨t1, np⟩ := r1
          rw [h1] at hfirst
          simp only [] at hfirst ⊢
          cases h2 : updatePlacement plan a cl.brokers t1 with
          | error e =>
            rw [h2] at hfirst
            cases hfirst
          | ok r2 =>
            obtain ⟨t2, ra⟩ := r2
            simp only []
            have f1 := updatePartitions_frame _ _ _ _ _ _ h1
            have f2 := updatePlacement_frame _ _ _ _ _ _ h2
            have hpl := updatePlacement_real _ _ _ _ _ _ hdry h2
            rw [hplanner] at hpl
            obtain ⟨e1, e2, e3, e4⟩ := staticPlanner_ok a _ _ _ _ _ hpl
            refine ⟨t2, rfl, ?_, ?_, e1, e2, e4, ?_⟩
            · exact (f2.1.trans (f1.1.trans (updateSettings_frame a t₀).1)).trans hname
            · intro k
              rw [f2.2, f1.2]
              apply updateSettings_settles a t₀ hdry (fun v c => hstep t₀ v c ht)
              rcases hmissing with h | h
              · exact Or.inl h
              · exact Or.inr (h t₀ ht)
            · rw [e3]
              rcases updatePartitions_real _ _ _ _ _ _ hdry h1 with ⟨hle, heq⟩ | ⟨hlt, ext, hext, hparts⟩
              · rw [heq, (updateSettings_frame a t₀).2]
                rw [(updateSettings_frame a t₀).2] at hle
                exact hle
              · rw [hplanner] at hext
                obtain ⟨x1, _, x3, _⟩ := staticPlanner_ok a _ _ _ _ _ hext
                rw [hparts, List.length_append, List.length_drop, x1, x3]
                omega
      · rw [if_pos hrf] at hfirst
        cases hfirst

/-- The first run of `TestApplyPlacementUpdates`: the topic is created with the six static
assignments of its spec. -/
theorem Apply_static_create :
    getTopic (Apply (specPlanner keepPlanner) (testApplier false false (staticTopicConfig 500))
        (testCluster [])).cluster.topics "apply-topic" =
      some (staticLiveTopic [("retention.ms", "30000000")]) := by
  decide

/-- C5 (as stated, refuted), on five inputs in which the first run succeeds and the second
run with the identical spec returns a record. With live retention 500 minutes, desired
retention 400 minutes and a step of 50 minutes the first run writes 450 minutes and the
second run writes 400 minutes. With `Destructive` unset and the key `cleanup.policy` live and
absent from the spec (`TestApplyBasicUpdates`), each run lists the key in `MissingKeys`. In
a dry run on a cluster without the topic (`TestApplyDryRun`), each run returns the creation
record. When the spec itself sets a throttled-replicas key, each run writes the key and
the throttle cleanup removes it again. And under the strategy `any`, whose plan the
specification leaves open, a planner that swaps the replicas of each partition makes every
run move the leaders. -/
theorem Apply_twice_counterexample :
    ((∃ r, (Apply (specPlanner keepPlanner) (testApplier false false (testTopicConfig 9 2 400 .any []))
          (testCluster [liveTopic [("retention.ms", "30000000")]])).result = .ok r) ∧
      (∃ r, (Apply (specPlanner keepPlanner) (testApplier false false (testTopicConfig 9 2 400 .any []))
          (Apply (specPlanner keepPlanner) (testApplier false false (testTopicConfig 9 2 400 .any []))
            (testCluster [liveTopic [("retention.ms", "30000000")]])).cluster).result =
          .ok (some r)) ∧
      (Apply (specPlanner keepPlanner) (testApplier false false (testTopicConfig 9 2 400 .any []))
          (Apply (specPlanner keepPlanner) (testApplier false false (testTopicConfig 9 2 400 .any []))
            (testCluster [liveTopic [("retention.ms", "30000000")]])).cluster).cluster ≠
        (Apply (specPlanner keepPlanner) (testApplier false false (testTopicConfig 9 2 400 .any []))
          (testCluster [liveTopic [("retention.ms", "30000000")]])).cluster) ∧
    ((∃ r, (Apply (specPlanner keepPlanner) (testApplier false false (testTopicConfig 9 2 400 .any []))
          (testCluster [liveTopic [("cleanup.policy", "delete"), ("retention.ms", "24000000")]])
            ).result = .ok r) ∧
      (∃ u, (Apply (specPlanner keepPlanner) (testApplier false false (testTopicConfig 9 2 400 .any []))
          (Apply (specPlanner keepPlanner) (testApplier false false (testTopicConfig 9 2 400 .any []))
            (testCluster [liveTopic [("cleanup.policy", "delete"), ("retention.ms", "24000000")]])
              ).cluster).result = .ok (some (.updated u)) ∧
        u.MissingKeys = ["cleanup.policy"])) ∧
    ((∃ r, (Apply (specPlanner keepPlanner) (testApplier true false (testTopicConfig 9 2 500 .any []))
          (testCluster [])).result = .ok r) ∧
      (∃ c, (Apply (specPlanner keepPlanner) (testApplier true false (testTopicConfig 9 2 500 .any []))
          (Apply (specPlanner keepPlanner) (testApplier true false (testTopicConfig 9 2 500 .any []))
            (testCluster [])).cluster).result = .ok (some (.created c)))) ∧
    ((∃ r, (Apply (specPlanner keepPlanner)
          (testApplier false false
            (testTopicConfig 9 2 500 .any [(FollowerReplicasThrottledKey, "1:3")]))
          (testCluster [liveTopic [("retention.ms", "30000000")]])).result = .ok r) ∧
      (∃ u, (Apply (specPlanner keepPlanner)
          (testApplier false false
            (testTopicConfig 9 2 500 .any [(FollowerReplicasThrottledKey, "1:3")]))
          (Apply (specPlanner keepPlanner)
            (testApplier false false
              (testTopicConfig 9 2 500 .any [(FollowerReplicasThrottledKey, "1:3")]))
            (testCluster [liveTopic [("retention.ms", "30000000")]])).cluster).result =
          .ok (some (.updated u)) ∧
        u.NewConfigEntries = some [{ Name := FollowerReplicasThrottledKey, Value := "1:3" }])) ∧
    ((∃ r, (Apply (specPlanner swapPlanner) (testApplier false false (testTopicConfig 9 2 500 .any []))
          (testCluster [liveTopic [("retention.ms", "30000000")]])).result = .ok r) ∧
      (∃ u ras, (Apply (specPlanner swapPlanner)
          (testApplier false false (testTopicConfig 9 2 500 .any []))
          (Apply (specPlanner swapPlanner)
            (testApplier false false (testTopicConfig 9 2 500 .any []))
            (testCluster [liveTopic [("retention.ms", "30000000")]])).cluster).result =
          .ok (some (.updated u)) ∧
        u.ReplicaAssignments = some ras)) :=
  ⟨⟨⟨_, rfl⟩, ⟨_, rfl⟩, by decide⟩, ⟨⟨_, rfl⟩, ⟨_, rfl, rfl⟩⟩, ⟨⟨_, rfl⟩, ⟨_, rfl⟩⟩,
    ⟨⟨_, rfl⟩, ⟨_, rfl, rfl⟩⟩, ⟨⟨_, rfl⟩, ⟨_, _, rfl, rfl⟩⟩⟩

/-- C5 (amended): idempotence under static placement. For a spec with the strategy `static`
that does not itself set a throttled-replicas key, when a real run of `Apply` succeeds
without stepping the retention and without leaving a missing key in place, a second run
with the identical spec returns a nil record and leaves the cluster as the first run left
it. The plans of the other strategies are a parameter, which plays no part. -/
theorem Apply_idempotent (other : Planner) (a : TopicApplier) (cl : Cluster)
    (r₁ : Option Changes)
    (hstatic : a.topicConfig.Spec.PlacementConfig.Strategy = .static)
    (hthrottle : mget (desiredSettings a.topicConfig.Spec) LeaderReplicasThrottledKey = none ∧
      mget (desiredSettings a.topicConfig.Spec) FollowerReplicasThrottledKey = none)
    (hdry : a.config.DryRun = false)
    (hfirst : (Apply (specPlanner other) a cl).result = .ok r₁)
    (hstep : ∀ t₀ v c, getTopic cl.topics a.topicConfig.Meta.Name = some t₀ →
      mget t₀.Config RetentionKey = some v → parseInt v = some c →
      c - (a.topicConfig.Spec.RetentionMinutes : Int) * 60000 ≤
        (a.config.RetentionDropStepDuration : Int))
    (hmissing : a.config.Destructive = true ∨
      ∀ t₀, getTopic cl.topics a.topicConfig.Meta.Name = some t₀ →
        missingKeys (desiredSettings a.topicConfig.Spec) t₀.Config = []) :
    (Apply (specPlanner other) a (Apply (specPlanner other) a cl).cluster).result = .ok none ∧
    (Apply (specPlanner other) a (Apply (specPlanner other) a cl).cluster).cluster =
      (Apply (specPlanner other) a cl).cluster := by
  have hplanner := specPlanner_static other a hstatic
  obtain ⟨hcons, t₂, hcl, hname, hsettled, hparts, hne, hrows, hlen⟩ :=
    Apply_static_settles (specPlanner other) a cl r₁ hplanner hdry hfirst hstep hmissing
  have hstored : getTopic (cl.withTopic t₂).topics a.topicConfig.Meta.Name = some t₂ := by
    rw [← hname]
    exact getTopic_putTopic _ _
  obtain ⟨t₁, ht₁, hor⟩ := getTopic_throttleCleanup a (cl.withTopic t₂) t₂ hstored
  have hparts₁ : t₁.Partitions = a.topicConfig.Spec.PlacementConfig.StaticAssignments := by
    rcases hor with h | h
    · rw [h, hparts]
    · rw [h]
      exact hparts
  have hsettled₁ : ∀ k, mget t₁.Config k = mget (desiredSettings a.topicConfig.Spec) k := by
    intro k
    rcases hor with h | h
    · rw [h]
      exact hsettled k
    · rw [h]
      by_cases hk1 : k = LeaderReplicasThrottledKey
      · subst hk1
        rw [hthrottle.1]
        unfold clearTopicThrottles
        simp only []
        rw [mget_mdel_ne _ _ _ (by decide)]
        exact mget_mdel_self _ _
      · by_cases hk2 : k = FollowerReplicasThrottledKey
        · subst hk2
          rw [hthrottle.2]
          exact mget_mdel_self _ _
        · rw [mget_clearTopicThrottles _ _ hk1 hk2]
          exact hsettled k
  rw [hcl]
  have hconv := Apply_of_converged (specPlanner other) a (throttleCleanup a (cl.withTopic t₂)) t₁
    hcons ht₁ hsettled₁
    (liveReplication_of_rows t₁ _ (by rw [hparts₁]; exact hne)
      (fun row hrow => (hrows row (by rw [← hparts₁]; exact hrow)).1))
    (by rw [hparts₁]; exact hlen)
    (by
      rw [hplanner, hparts₁]
      exact staticPlanner_of_fit a _ _ _ _ hne rfl hrows)
  rw [throttleCleanup_idem] at hconv
  exact hconv

/-- The static topic of `TestApplyPlacementUpdates` with a retention drop within the step:
450 minutes live, 400 minutes desired and a step of 50 minutes. The first run writes 400
minutes and the second run returns a nil record. -/
theorem Apply_idempotent_witness :
    ((staticTopicConfig 400).Spec.PlacementConfig.Strategy = .static ∧
      (testApplier false false (staticTopicConfig 400)).config.DryRun = false ∧
      (Apply (specPlanner keepPlanner) (testApplier false false (staticTopicConfig 400))
        (testCluster [staticLiveTopic [("retention.ms", "27000000")]])).cluster =
        testCluster [staticLiveTopic [("retention.ms", "24000000")]]) ∧
    (Apply (specPlanner keepPlanner) (testApplier false false (staticTopicConfig 400))
        (Apply (specPlanner keepPlanner) (testApplier false false (staticTopicConfig 400))
          (testCluster [staticLiveTopic [("retention.ms", "27000000")]])).cluster).result =
      .ok none :=
  ⟨⟨by decide, by decide, by decide⟩,
    (Apply_idempotent keepPlanner (testApplier false false (staticTopicConfig 400))
      (testCluster [staticLiveTopic [("retention.ms", "27000000")]]) _ (by decide)
      ⟨by decide, by decide⟩ (by decide) rfl
      (fun t₀ v c h₁ h₂ h₃ => by
        have e₁ : some t₀ = some (staticLiveTopic [("retention.ms", "27000000")]) :=
          h₁.symm.trans (by decide)
        cases e₁
        have e₂ : some v = some "27000000" := h₂.symm.trans (by decide)
        cases e₂
        have e₃ : some c = some 27000000 := h₃.symm.trans (by decide)
        cases e₃
        decide)
      (Or.inr (fun t₀ h => by
        have e₁ : some t₀ = some (staticLiveTopic [("retention.ms", "27000000")]) :=
          h.symm.trans (by decide)
        cases e₁
        decide))).1⟩

/-! ### The throttle manager -/

theorem all_onlyReordered_of_perm (current target : List PartitionAssignment)
    (h : ∀ t ∈ target, (currentReplicas current t.ID).Perm t.Replicas) :
    target.all (onlyReordered current) = true := by
  rw [List.all_eq_true]
  intro t ht
  exact List.isPerm_iff.mpr (h t ht)

/-- C7: throttle absence on safe changes. `applyThrottles` reports no throttled topic and no
throttled broker, and writes nothing, in each of three cases: the current assignments are
nil; `newPartitions` is set; every target replica list is a reordering of the current
replica list of its partition. -/
theorem applyThrottles_none_on_safe_changes (a : TopicApplier) (cl : Cluster)
    (target : List PartitionAssignment) :
    (∀ newPartitions,
      (applyThrottles a cl none target newPartitions).throttledTopic = false ∧
      (applyThrottles a cl none target newPartitions).throttledBrokers = [] ∧
      (applyThrottles a cl none target newPartitions).cluster = cl) ∧
    (∀ current,
      (applyThrottles a cl (some current) target true).throttledTopic = false ∧
      (applyThrottles a cl (some current) target true).throttledBrokers = [] ∧
      (applyThrottles a cl (some current) target true).cluster = cl) ∧
    (∀ current newPartitions,
      (∀ t ∈ target, (currentReplicas current t.ID).Perm t.Replicas) →
      (applyThrottles a cl (some current) target newPartitions).throttledTopic = false ∧
      (applyThrottles a cl (some current) target newPartitions).throttledBrokers = [] ∧
      (applyThrottles a cl (some current) target newPartitions).cluster = cl) := by
  refine ⟨fun _ => ⟨rfl, rfl, rfl⟩, fun current => ?_, fun current newPartitions h => ?_⟩
  · simp [applyThrottles, noThrottleNeeded]
  · have hall := all_onlyReordered_of_perm current target h
    simp [applyThrottles, noThrottleNeeded, hall]

/-- The test's leader election: `[1,2,3]` to `[3,2,1]` and `[4,5,6]` to `[5,4,6]`. -/
theorem applyThrottles_none_on_safe_changes_witness :
    (∀ t ∈ [({ ID := 1, Replicas := [3, 2, 1] } : PartitionAssignment),
          { ID := 2, Replicas := [5, 4, 6] }],
        (currentReplicas [{ ID := 1, Replicas := [1, 2, 3] }, { ID := 2, Replicas := [4, 5, 6] }]
          t.ID).Perm t.Replicas) ∧
    (applyThrottles throttleTestApplier (throttleTestCluster true)
        (some [{ ID := 1, Replicas := [1, 2, 3] }, { ID := 2, Replicas := [4, 5, 6] }])
        [{ ID := 1, Replicas := [3, 2, 1] }, { ID := 2, Replicas := [5, 4, 6] }]
        false).throttledTopic = false ∧
    (applyThrottles throttleTestApplier (throttleTestCluster true)
        (some [{ ID := 1, Replicas := [1, 2, 3] }, { ID := 2, Replicas := [4, 5, 6] }])
        [{ ID := 1, Replicas := [3, 2, 1] }, { ID := 2, Replicas := [5, 4, 6] }]
        false).throttledBrokers = [] := by
  have hperm : ∀ t ∈ [({ ID := 1, Replicas := [3, 2, 1] } : PartitionAssignment),
      { ID := 2, Replicas := [5, 4, 6] }],
      (currentReplicas [{ ID := 1, Replicas := [1, 2, 3] }, { ID := 2, Replicas := [4, 5, 6] }]
        t.ID).Perm t.Replicas := by
    intro t ht
    apply List.isPerm_iff.mp
    rcases List.mem_cons.mp ht with h | h
    · subst h; decide
    · rcases List.mem_cons.mp h with h | h
      · subst h; decide
      · simp at h
  have h := (applyThrottles_none_on_safe_changes throttleTestApplier (throttleTestCluster true)
    [{ ID := 1, Replicas := [3, 2, 1] }, { ID := 2, Replicas := [5, 4, 6] }]).2.2
      [{ ID := 1, Replicas := [1, 2, 3] }, { ID := 2, Replicas := [4, 5, 6] }] false hperm
  exact ⟨hperm, h.1, h.2.1⟩

theorem getBroker_map (f : BrokerInfo → BrokerInfo) (hf : ∀ b, (f b).ID = b.ID)
    (bs : List BrokerInfo) (id : Int) :
    getBroker (bs.map f) id = (getBroker bs id).map f := by
  induction bs with
  | nil => rfl
  | cons b rest ih =>
    simp only [List.map_cons, getBroker, hf]
    split
    · rfl
    · exact ih

theorem mget_setThrottleRate_keep (config : ConfigMap) (key key' rate v : String)
    (h : mget config key = some v) (hv : v ≠ "") :
    mget (setThrottleRate config key' rate) key = some v := by
  unfold setThrottleRate
  split
  · exact h
  · rename_i hempty
    by_cases hk : key = key'
    · subst hk
      rw [h] at hempty
      simp at hempty
      exact absurd hempty hv
    · rw [mget_mset_ne _ _ _ _ hk]
      exact h

theorem mget_setThrottleRate_write (config : ConfigMap) (key rate : String)
    (h : (mget config key).getD "" = "") :
    mget (setThrottleRate config key rate) key = some rate := by
  unfold setThrottleRate
  rw [if_neg (by simpa using h)]
  exact mget_mset_self _ _ _

theorem mget_setThrottleRate_other (config : ConfigMap) (key key' rate : String)
    (hk : key ≠ key') :
    mget (setThrottleRate config key' rate) key = mget config key := by
  unfold setThrottleRate
  split
  · rfl
  · exact mget_mset_ne _ _ _ _ hk

theorem throttleBroker_keep (rate : String) (b : BrokerInfo) (key v : String)
    (h : mget b.Config key = some v) (hv : v ≠ "") :
    mget (throttleBroker rate b).Config key = some v := by
  unfold throttleBroker
  exact mget_setThrottleRate_keep _ _ _ _ _ (mget_setThrottleRate_keep _ _ _ _ _ h hv) hv

theorem throttleBroker_write (rate : String) (b : BrokerInfo) (key : String)
    (hkey : key = LeaderThrottledKey ∨ key = FollowerThrottledKey)
    (h : (mget b.Config key).getD "" = "") :
    mget (throttleBroker rate b).Config key = some rate := by
  unfold throttleBroker
  rcases hkey with hk | hk
  · subst hk
    rw [mget_setThrottleRate_other _ _ _ _ (by decide)]
    exact mget_setThrottleRate_write _ _ _ h
  · subst hk
    apply mget_setThrottleRate_write
    rw [mget_setThrottleRate_other _ _ _ _ (by decide)]
    exact h

/-- The brokers after `applyThrottles`: untouched, or each involved broker throttled. -/
theorem applyThrottles_brokers (a : TopicApplier) (cl : Cluster)
    (curr : Option (List PartitionAssignment)) (desired : List PartitionAssignment)
    (newPartitions : Bool) :
    (applyThrottles a cl curr desired newPartitions).cluster.brokers = cl.brokers ∨
    (cl.features.DynamicBrokerConfigs = true ∧
      (applyThrottles a cl curr desired newPartitions).cluster.brokers =
        cl.brokers.map (fun b =>
          if b.ID ∈ migrationBrokers curr desired newPartitions then
            throttleBroker (formatInt a.throttleBytes) b
          else b)) := by
  unfold applyThrottles
  cases curr with
  | none => exact Or.inl rfl
  | some c =>
    simp only []
    split
    · exact Or.inl rfl
    · cases hf : cl.features.DynamicBrokerConfigs
      · left
        split <;> simp
      · right
        refine ⟨rfl, ?_⟩
        split <;> simp

/-- When the client supports dynamic broker configs the brokers after `applyThrottles` are
the brokers before with each involved broker throttled. -/
theorem applyThrottles_brokers_dynamic (a : TopicApplier) (cl : Cluster)
    (curr : Option (List PartitionAssignment)) (desired : List PartitionAssignment)
    (newPartitions : Bool) (hf : cl.features.DynamicBrokerConfigs = true) :
    (applyThrottles a cl curr desired newPartitions).cluster.brokers =
      cl.brokers.map (fun b =>
        if b.ID ∈ migrationBrokers curr desired newPartitions then
          throttleBroker (formatInt a.throttleBytes) b
        else b) := by
  have hid : ∀ bs : List BrokerInfo, bs = bs.map (fun b =>
      if b.ID ∈ ([] : List Int) then throttleBroker (formatInt a.throttleBytes) b else b) := by
    intro bs
    simp
  unfold applyThrottles
  cases curr with
  | none => exact hid _
  | some c =>
    simp only []
    split
    · rename_i hno
      simp only [migrationBrokers, hno, if_true]
      exact hid _
    · split <;> simp [hf]

theorem getBroker_id (bs : List BrokerInfo) (id : Int) (b : BrokerInfo)
    (h : getBroker bs id = some b) : b.ID = id := by
  induction bs with
  | nil => simp [getBroker] at h
  | cons b₀ rest ih =>
    simp only [getBroker] at h
    split at h
    · rename_i h0
      cases h
      exact h0
    · exact ih h

/-- C8 (as stated, refuted): when the admin client lacks dynamic broker configs, broker 1,
involved in the migration of partition 1 from `[1,2,3]` to `[2,4,5]` and carrying no
leader rate, does not get the rate: its key is still unset after `applyThrottles`. -/
theorem applyThrottles_static_brokers_counterexample :
    (1 : Int) ∈ migrationBrokers (some [{ ID := 1, Replicas := [1, 2, 3] }])
      [{ ID := 1, Replicas := [2, 4, 5] }] false ∧
    ¬ (∀ b', getBroker (applyThrottles throttleTestApplier (throttleTestCluster false)
          (some [{ ID := 1, Replicas := [1, 2, 3] }]) [{ ID := 1, Replicas := [2, 4, 5] }]
          false).cluster.brokers 1 = some b' →
        mget b'.Config LeaderThrottledKey = some "20000000") := by
  refine ⟨by decide, fun h => ?_⟩
  have h1 := h { ID := 1, Rack := "zone1", Config := [] } (by decide)
  exact absurd h1 (by decide)

/-- C8 (amended): throttle preservation on application. For each broker of the cluster and
each of the two throttle-rate keys, `applyThrottles` keeps an existing non-empty value; when
the admin client supports dynamic broker configs, every broker involved in the migration
whose value for the key is unset or empty gets the applier's `throttleBytes`; when the
client lacks that capability the broker writes are skipped and the broker is left as it
was; and a broker that is not involved in the migration is left as it was. -/
theorem applyThrottles_preserves_rates (a : TopicApplier) (cl : Cluster)
    (curr : Option (List PartitionAssignment)) (desired : List PartitionAssignment)
    (newPartitions : Bool) (id : Int) (b : BrokerInfo) (key : String)
    (hkey : key = LeaderThrottledKey ∨ key = FollowerThrottledKey)
    (hb : getBroker cl.brokers id = some b) :
    ∃ b', getBroker (applyThrottles a cl curr desired newPartitions).cluster.brokers id = some b' ∧
      (∀ v, mget b.Config key = some v → v ≠ "" → mget b'.Config key = some v) ∧
      (cl.features.DynamicBrokerConfigs = true →
        id ∈ migrationBrokers curr desired newPartitions →
        (mget b.Config key).getD "" = "" →
        mget b'.Config key = some (formatInt a.throttleBytes)) ∧
      (cl.features.DynamicBrokerConfigs = false → b' = b) ∧
      (id ∉ migrationBrokers curr desired newPartitions → b' = b) := by
  have hbid : b.ID = id := getBroker_id _ _ _ hb
  have hfid : ∀ x : BrokerInfo, ((fun x : BrokerInfo =>
      if x.ID ∈ migrationBrokers curr desired newPartitions then
        throttleBroker (formatInt a.throttleBytes) x
      else x) x).ID = x.ID := by
    intro x
    simp only []
    split <;> rfl
  rcases applyThrottles_brokers a cl curr desired newPartitions with h | ⟨hf, h⟩
  · refine ⟨b, by rw [h]; exact hb, fun v hv _ => hv, fun hf hin hempty => ?_, fun _ => rfl,
      fun _ => rfl⟩
    have h' := applyThrottles_brokers_dynamic a cl curr desired newPartitions hf
    rw [h] at h'
    have hget := getBroker_map _ hfid cl.brokers id
    rw [← h', hb] at hget
    simp only [Option.map, hbid, hin, if_true] at hget
    have hbb : b = throttleBroker (formatInt a.throttleBytes) b := Option.some.inj hget
    rw [hbb]
    exact throttleBroker_write _ _ _ hkey hempty
  · have hget := getBroker_map _ hfid cl.brokers id
    rw [← h, hb] at hget
    simp only [Option.map, hbid] at hget
    refine ⟨_, hget, fun v hv hne => ?_, fun _ hin hempty => ?_, fun hno => ?_, fun hout => ?_⟩
    · split
      · exact throttleBroker_keep _ _ _ _ hv hne
      · exact hv
    · rw [if_pos hin]
      exact throttleBroker_write _ _ _ hkey hempty
    · rw [hf] at hno
      cases hno
    · rw [if_neg hout]

/-- The test's throttled migration of partition 1 from `[1,2,3]` to `[2,4,5]` with
`ThrottleMB` 20: broker 5 keeps its 500000, broker 4 gets 20000000, and four brokers are
reported as throttled. -/
theorem applyThrottles_preserves_rates_witness :
    (getBroker (throttleTestCluster true).brokers 5 =
        some { ID := 5, Rack := "zone3",
               Config := [(LeaderThrottledKey, "500000"), (FollowerThrottledKey, "500000")] } ∧
      (4 : Int) ∈ migrationBrokers (some [{ ID := 1, Replicas := [1, 2, 3] }])
        [{ ID := 1, Replicas := [2, 4, 5] }] false) ∧
    (∃ b', getBroker (applyThrottles throttleTestApplier (throttleTestCluster true)
        (some [{ ID := 1, Replicas := [1, 2, 3] }]) [{ ID := 1, Replicas := [2, 4, 5] }]
        false).cluster.brokers 5 = some b' ∧
      mget b'.Config LeaderThrottledKey = some "500000") ∧
    (∃ b', getBroker (applyThrottles throttleTestApplier (throttleTestCluster true)
        (some [{ ID := 1, Replicas := [1, 2, 3] }]) [{ ID := 1, Replicas := [2, 4, 5] }]
        false).cluster.brokers 4 = some b' ∧
      mget b'.Config FollowerThrottledKey = some "20000000") ∧
    (applyThrottles throttleTestApplier (throttleTestCluster true)
        (some [{ ID := 1, Replicas := [1, 2, 3] }]) [{ ID := 1, Replicas := [2, 4, 5] }]
        false).throttledBrokers.length = 4 := by
  obtain ⟨b5, h5, hkeep, _, _, _⟩ := applyThrottles_preserves_rates throttleTestApplier
    (throttleTestCluster true) (some [{ ID := 1, Replicas := [1, 2, 3] }])
    [{ ID := 1, Replicas := [2, 4, 5] }] false 5
    { ID := 5, Rack := "zone3",
      Config := [(LeaderThrottledKey, "500000"), (FollowerThrottledKey, "500000")] }
    LeaderThrottledKey (Or.inl rfl) (by decide)
  obtain ⟨b4, h4, _, hwrite, _, _⟩ := applyThrottles_preserves_rates throttleTestApplier
    (throttleTestCluster true) (some [{ ID := 1, Replicas := [1, 2, 3] }])
    [{ ID := 1, Replicas := [2, 4, 5] }] false 4
    { ID := 4, Rack := "zone2", Config := [] }
    FollowerThrottledKey (Or.inr rfl) (by decide)
  exact ⟨⟨by decide, by decide⟩, ⟨b5, h5, hkeep "500000" (by decide) (by decide)⟩,
    ⟨b4, h4, hwrite (by decide) (by decide) (by decide)⟩, by decide⟩

theorem wrapInt64_range (i : Int) : minInt64 ≤ wrapInt64 i ∧ wrapInt64 i ≤ maxInt64 := by
  unfold wrapInt64 minInt64 maxInt64
  omega

theorem wrapInt64_eq_self_iff (i : Int) : wrapInt64 i = i ↔ minInt64 ≤ i ∧ i ≤ maxInt64 := by
  unfold wrapInt64 minInt64 maxInt64
  omega

/-- C9 (as stated, refuted): the override 9223372036855 MB/s is a value of a 64-bit integer,
but 9223372036855 times 1,000,000 is larger than the largest `int64`, so no `int64` equals
it: the multiplication wraps around and `throttleBytes` is negative. -/
theorem NewTopicApplier_throttleBytes_overflow_counterexample :
    (minInt64 ≤ 9223372036855 ∧ (9223372036855 : Int) ≤ maxInt64) ∧
    effectiveThrottleMB (overrideTestConfig 9223372036855) = 9223372036855 ∧
    maxInt64 < 9223372036855 * 1000000 ∧
    (NewTopicApplier (overrideTestConfig 9223372036855)).throttleBytes = -9223372036854551616 ∧
    (NewTopicApplier (overrideTestConfig 9223372036855)).throttleBytes ≠
      effectiveThrottleMB (overrideTestConfig 9223372036855) * 1000000 := by
  decide

/-- C9 (amended): throttle rate. The applier's `throttleBytes` is a value of the type `int64`:
the effective throttle in MB/s (the override when it is set, the spec's `ThrottleMB`
otherwise) times 1,000,000 in `int64` arithmetic. It equals the effective throttle times
1,000,000 exactly if and only if the effective throttle lies between -9223372036854 and
9223372036854, the values whose product fits an `int64`. -/
theorem NewTopicApplier_throttleBytes (applierConfig : TopicApplierConfig) :
    (NewTopicApplier applierConfig).throttleBytes =
      wrapInt64 (effectiveThrottleMB applierConfig * 1000000) ∧
    (minInt64 ≤ (NewTopicApplier applierConfig).throttleBytes ∧
      (NewTopicApplier applierConfig).throttleBytes ≤ maxInt64) ∧
    (applierConfig.BrokerThrottleMBsOverride = 0 →
      effectiveThrottleMB applierConfig =
        applierConfig.TopicConfig.Spec.MigrationConfig.ThrottleMB) ∧
    (applierConfig.BrokerThrottleMBsOverride ≠ 0 →
      effectiveThrottleMB applierConfig = applierConfig.BrokerThrottleMBsOverride) ∧
    ((NewTopicApplier applierConfig).throttleBytes = effectiveThrottleMB applierConfig * 1000000 ↔
      -9223372036854 ≤ effectiveThrottleMB applierConfig ∧
        effectiveThrottleMB applierConfig ≤ 9223372036854) := by
  have key : (NewTopicApplier applierConfig).throttleBytes =
      wrapInt64 (effectiveThrottleMB applierConfig * 1000000) := by
    unfold NewTopicApplier effectiveThrottleMB
    by_cases h : applierConfig.BrokerThrottleMBsOverride = 0
    · simp [h]
    · simp [h]
  refine ⟨key, ?_, fun h => ?_, fun h => ?_, ?_⟩
  · rw [key]
    exact wrapInt64_range _
  · simp [effectiveThrottleMB, h]
  · simp [effectiveThrottleMB, h]
  · rw [key, wrapInt64_eq_self_iff]
    unfold minInt64 maxInt64
    constructor
    · intro h
      constructor <;> omega
    · intro h
      constructor <;> omega

/-- The values of the tests: `ThrottleMB` 2 gives 2000000, and the override 50 over
`ThrottleMB` 2 gives 50000000. -/
theorem NewTopicApplier_throttleBytes_witness :
    ((overrideTestConfig 0).BrokerThrottleMBsOverride = 0 ∧
      effectiveThrottleMB (overrideTestConfig 0) = 2 ∧
      (NewTopicApplier (overrideTestConfig 0)).throttleBytes = 2 * 1000000) ∧
    ((overrideTestConfig 50).BrokerThrottleMBsOverride ≠ 0 ∧
      effectiveThrottleMB (overrideTestConfig 50) = 50 ∧
      (NewTopicApplier (overrideTestConfig 50)).throttleBytes = 50 * 1000000) :=
  ⟨⟨by decide, (NewTopicApplier_throttleBytes (overrideTestConfig 0)).2.2.1 (by decide),
      (NewTopicApplier_throttleBytes (overrideTestConfig 0)).2.2.2.2.mpr ⟨by decide, by decide⟩⟩,
    ⟨by decide, (NewTopicApplier_throttleBytes (overrideTestConfig 50)).2.2.2.1 (by decide),
      (NewTopicApplier_throttleBytes (overrideTestConfig 50)).2.2.2.2.mpr ⟨by decide, by decide⟩⟩⟩

/-! ### format.go -/

/-- C18: `timeSuffix s` is `" (k min)"`, with `k = n / 60000` in decimal, exactly when `s`
parses as a base-10 `int64` `n` with `n ≥ 60000` and `n` divisible by 60000, and it is the
empty string for every other string. -/
theorem timeSuffix_spec (s : String) :
    (∀ n, parseInt s = some n → 60000 ≤ n → n % 60000 = 0 →
      timeSuffix s = " (" ++ formatInt (n / 60000) ++ " min)" ∧ timeSuffix s ≠ "") ∧
    ((¬ ∃ n, parseInt s = some n ∧ 60000 ≤ n ∧ n % 60000 = 0) → timeSuffix s = "") := by
  constructor
  · intro n hparse hge hdiv
    have h1 : n.tmod 60000 = 0 := by
      rw [Int.tmod_eq_emod (by omega) (by omega)]
      exact hdiv
    have h2 : n.tdiv 60000 = n / 60000 := Int.tdiv_eq_ediv (by omega) (by omega)
    have hval : timeSuffix s = " (" ++ formatInt (n / 60000) ++ " min)" := by
      unfold timeSuffix
      rw [hparse]
      simp only []
      rw [if_neg (by omega), if_neg (by simp [h1]), h2]
    refine ⟨hval, ?_⟩
    rw [hval]
    intro h
    have hlen := congrArg String.length h
    simp only [String.length_append] at hlen
    have h3 : " min)".length = 5 := by decide
    have h4 : "".length = 0 := by decide
    have h5 : " (".length = 2 := by decide
    omega
  · intro hno
    unfold timeSuffix
    cases hparse : parseInt s with
    | none => rfl
    | some n =>
      simp only []
      by_cases hlt : n < 60000
      · rw [if_pos hlt]
      · rw [if_neg hlt]
        by_cases hmod : n.tmod 60000 ≠ 0
        · rw [if_pos hmod]
        · exfalso
          apply hno
          refine ⟨n, hparse, by omega, ?_⟩
          rw [← Int.tmod_eq_emod (by omega) (by omega)]
          simpa using hmod

/-- The examples of the claim: `"30000000"` gives `" (500 min)"` and `"90001"` gives the
empty string. -/
theorem timeSuffix_spec_witness :
    (parseInt "30000000" = some 30000000 ∧ timeSuffix "30000000" = " (500 min)") ∧
    (parseInt "90001" = some 90001 ∧ timeSuffix "90001" = "") := by
  refine ⟨⟨by decide, ?_⟩, ⟨by decide, ?_⟩⟩
  · exact ((timeSuffix_spec "30000000").1 30000000 (by decide) (by decide) (by decide)).1
  · apply (timeSuffix_spec "90001").2
    rintro ⟨n, hn, _, hmod⟩
    have e : some n = some 90001 := hn.symm.trans (by decide)
    cases e
    exact absurd hmod (by decide)

theorem isTimeKey_iff (k : String) : isTimeKey k = true ↔ ∃ p : String, k = p ++ ".ms" := by
  unfold isTimeKey
  rw [List.isSuffixOf_iff_suffix]
  constructor
  · rintro ⟨t, ht⟩
    refine ⟨String.mk t, ?_⟩
    apply String.ext
    rw [String.data_append, ← ht]
  · rintro ⟨p, hp⟩
    refine ⟨p.data, ?_⟩
    rw [hp, String.data_append]

/-- C17: minutes suffix only on time fields. Each row of `FormatMissingKeys` holds the key
and the cluster value `configMap[k]`, followed by `timeSuffix(configMap[k])` exactly when
the key ends in `.ms`; each row of a successful `FormatSettingsDiff` holds in addition the
config value under the same rule; and the texts returned are the table of those rows. -/
theorem format_rows_time_suffix (render : List String → List (List String) → String)
    (topicSettings : TopicSettings) (configMap : ConfigMap) (keys : List String) :
    (missingKeysRows configMap keys = keys.map (fun k =>
        [k, if isTimeKey k then (mget configMap k).getD "" ++ timeSuffix ((mget configMap k).getD "")
            else (mget configMap k).getD ""]) ∧
      FormatMissingKeys render configMap keys = String.mk (trimRightNewlines
        (render ["Key", "Cluster Value"] (missingKeysRows configMap keys)).data)) ∧
    (∀ rows, settingsDiffRows topicSettings configMap keys = .ok rows →
      List.Forall₂ (fun k row => ∃ v, settingValueStr topicSettings k = .ok v ∧
        row = [k,
          if isTimeKey k then
            (mget configMap k).getD "" ++ timeSuffix ((mget configMap k).getD "")
          else (mget configMap k).getD "",
          if isTimeKey k then v ++ timeSuffix v else v]) keys rows ∧
      FormatSettingsDiff render topicSettings configMap keys = .ok (String.mk (trimRightNewlines
        (render ["Key", "Cluster Value (Curr)", "Config Value (New)"] rows).data))) ∧
    (∀ k, isTimeKey k = true ↔ ∃ p : String, k = p ++ ".ms") := by
  refine ⟨⟨?_, rfl⟩, ?_, isTimeKey_iff⟩
  · induction keys with
    | nil => rfl
    | cons k rest ih =>
      simp only [missingKeysRows, List.map_cons, ih]
      cases isTimeKey k <;> simp
  · intro rows hrows
    refine ⟨?_, by simp [FormatSettingsDiff, hrows]⟩
    induction keys generalizing rows with
    | nil =>
      simp only [settingsDiffRows] at hrows
      cases hrows
      exact List.Forall₂.nil
    | cons k rest ih =>
      simp only [settingsDiffRows] at hrows
      cases hv : settingValueStr topicSettings k with
      | error e =>
        rw [hv] at hrows
        cases hrows
      | ok v =>
        rw [hv] at hrows
        simp only [] at hrows
        cases hr : settingsDiffRows topicSettings configMap rest with
        | error e =>
          rw [hr] at hrows
          cases hrows
        | ok rs =>
          rw [hr] at hrows
          simp only [] at hrows
          cases hrows
          refine List.Forall₂.cons ⟨v, hv, ?_⟩ (ih rs hr)
          cases isTimeKey k <;> simp

/-- Rows for a time key and for another key: `retention.ms` gets the minutes suffix in both
value columns, `cleanup.policy` gets none. -/
theorem format_rows_time_suffix_witness :
    settingsDiffRows exampleTopicSettings
        [("retention.ms", "30000000"), ("cleanup.policy", "delete")]
        ["retention.ms", "cleanup.policy"] =
      .ok [["retention.ms", "30000000 (500 min)", "24000000 (400 min)"],
        ["cleanup.policy", "delete", "compact"]] ∧
    List.Forall₂ (fun k row => ∃ v, settingValueStr exampleTopicSettings k = .ok v ∧
        row = [k,
          if isTimeKey k then
            (mget [("retention.ms", "30000000"), ("cleanup.policy", "delete")] k).getD "" ++
              timeSuffix
                ((mget [("retention.ms", "30000000"), ("cleanup.policy", "delete")] k).getD "")
          else (mget [("retention.ms", "30000000"), ("cleanup.policy", "delete")] k).getD "",
          if isTimeKey k then v ++ timeSuffix v else v])
      ["retention.ms", "cleanup.policy"]
      [["retention.ms", "30000000 (500 min)", "24000000 (400 min)"],
        ["cleanup.policy", "delete", "compact"]] :=
  ⟨rfl, ((format_rows_time_suffix (fun _ _ => "") exampleTopicSettings
    [("retention.ms", "30000000"), ("cleanup.policy", "delete")]
    ["retention.ms", "cleanup.policy"]).2.1 _ rfl).1⟩

theorem aget_aset_self {κ α : Type} [DecidableEq κ] (m : List (κ × α)) (k : κ) (v : α) :
    aget (aset m k v) k = some v := by
  induction m with
  | nil => simp [aset, aget]
  | cons e rest ih =>
    obtain ⟨k', v'⟩ := e
    by_cases h : k' = k
    · simp [aset, aget, h]
    · simp [aset, aget, h, ih]

theorem aget_aset_ne {κ α : Type} [DecidableEq κ] (m : List (κ × α)) (k k' : κ) (v : α)
    (h : k' ≠ k) : aget (aset m k v) k' = aget m k' := by
  induction m with
  | nil => simp [aset, aget, Ne.symm h]
  | cons e rest ih =>
    obtain ⟨k₀, v₀⟩ := e
    by_cases h0 : k₀ = k
    · subst h0
      simp [aset, aget, Ne.symm h]
    · by_cases h1 : k₀ = k'
      · subst h1
        simp [aset, aget, h0]
      · simp [aset, aget, h0, h1, ih]

/-- What the loop of `FormatSettingsDiffMap` leaves under a key other than `"Action"`. -/
theorem settingsDiffMapLoop_spec (topicSettings : TopicSettings) (configMap : ConfigMap)
    (keys : List String) (inner inner' : List (String × GoValue))
    (h : settingsDiffMapLoop topicSettings configMap keys inner = .ok inner')
    (k : String) (hk : k ≠ "Action") :
    (k ∈ keys → ∃ v, settingValueStr topicSettings k = .ok v ∧
      aget inner' k = some (GoValue.map
        [("current", GoValue.str ((mget configMap k).getD "")), ("updated", GoValue.str v)])) ∧
    (k ∉ keys → aget inner' k = aget inner k) := by
  induction keys generalizing inner with
  | nil =>
    simp only [settingsDiffMapLoop] at h
    cases h
    exact ⟨fun hm => absurd hm (by simp), fun _ => rfl⟩
  | cons k₀ rest ih =>
    simp only [settingsDiffMapLoop] at h
    cases hv : settingValueStr topicSettings k₀ with
    | error e =>
      rw [hv] at h
      cases h
    | ok v₀ =>
      rw [hv] at h
      simp only [] at h
      obtain ⟨ih1, ih2⟩ := ih _ h
      constructor
      · intro hm
        by_cases hr : k ∈ rest
        · exact ih1 hr
        · have hk0 : k = k₀ := by
            rcases List.mem_cons.mp hm with h' | h'
            · exact h'
            · exact absurd h' hr
          subst hk0
          exact ⟨v₀, hv, by rw [ih2 hr, aget_aset_self]⟩
      · intro hnm
        simp only [List.mem_cons, not_or] at hnm
        rw [ih2 hnm.2, aget_aset_ne _ _ _ _ hnm.1, aget_aset_ne _ _ _ _ hk]

/-- C14: whenever `FormatSettingsDiffMap` succeeds, the returned map has exactly one key,
`topicName`, and for every key `k` of `diffKeys` other than `"Action"` the inner map holds
under `k` the two entries `"current"`, the value `configMap[k]` (empty when absent), and
`"updated"`, the string value of the setting (empty when the settings have no `k`). -/
theorem FormatSettingsDiffMap_spec (topicName : String) (topicSettings : TopicSettings)
    (configMap : ConfigMap) (diffKeys : List String) (result : List (String × GoValue))
    (h : FormatSettingsDiffMap topicName topicSettings configMap diffKeys = .ok result) :
    ∃ inner, result = [(topicName, GoValue.map inner)] ∧
      ∀ k ∈ diffKeys, k ≠ "Action" →
        ∃ updated,
          (topicSettings.HasKey k = true → topicSettings.GetValueStr k = .ok updated) ∧
          (topicSettings.HasKey k = false → updated = "") ∧
          aget inner k = some (GoValue.map
            [("current", GoValue.str ((mget configMap k).getD "")),
              ("updated", GoValue.str updated)]) := by
  unfold FormatSettingsDiffMap at h
  cases hl : settingsDiffMapLoop topicSettings configMap diffKeys [] with
  | error e =>
    rw [hl] at h
    cases h
  | ok inner =>
    rw [hl] at h
    simp only [] at h
    cases h
    refine ⟨inner, rfl, fun k hk hne => ?_⟩
    obtain ⟨v, hv, hget⟩ := (settingsDiffMapLoop_spec _ _ _ _ _ hl k hne).1 hk
    refine ⟨v, fun hhas => ?_, fun hhas => ?_, hget⟩
    · simpa [settingValueStr, hhas] using hv
    · simp only [settingValueStr, hhas, Bool.false_eq_true, if_false] at hv
      cases hv
      rfl

/-- The diff map of two keys, one set in the settings and one not. -/
theorem FormatSettingsDiffMap_spec_witness :
    FormatSettingsDiffMap "apply-topic" exampleTopicSettings [("retention.ms", "30000000")]
        ["retention.ms", "max.message.bytes"] =
      .ok [("apply-topic", GoValue.map
        [("Action", GoValue.str "update"),
          ("retention.ms", GoValue.map
            [("current", GoValue.str "30000000"), ("updated", GoValue.str "24000000")]),
          ("max.message.bytes", GoValue.map
            [("current", GoValue.str ""), ("updated", GoValue.str "")])])] ∧
    ∃ inner,
      [("apply-topic", GoValue.map
        [("Action", GoValue.str "update"),
          ("retention.ms", GoValue.map
            [("current", GoValue.str "30000000"), ("updated", GoValue.str "24000000")]),
          ("max.message.bytes", GoValue.map
            [("current", GoValue.str ""), ("updated", GoValue.str "")])])] =
        [("apply-topic", GoValue.map inner)] ∧
      ∀ k ∈ ["retention.ms", "max.message.bytes"], k ≠ "Action" →
        ∃ updated,
          (exampleTopicSettings.HasKey k = true →
            exampleTopicSettings.GetValueStr k = .ok updated) ∧
          (exampleTopicSettings.HasKey k = false → updated = "") ∧
          aget inner k = some (GoValue.map
            [("current", GoValue.str ((mget [("retention.ms", "30000000")] k).getD "")),
              ("updated", GoValue.str updated)]) :=
  ⟨rfl, FormatSettingsDiffMap_spec "apply-topic" exampleTopicSettings
    [("retention.ms", "30000000")] ["retention.ms", "max.message.bytes"] _ rfl⟩

/-! ### load.go: isEmpty -/

theorem isEmptyLoop_iff (lines : List String) :
    isEmptyLoop lines = true ↔
      ∀ line ∈ lines, TrimSpace line = "" ∨ ∃ rest : String, TrimSpace line = "#" ++ rest := by
  induction lines with
  | nil => simp [isEmptyLoop]
  | cons line rest ih =>
    have hline : (¬ ((TrimSpace line).data.length > 0 ∧
          ¬ (List.isPrefixOf ['#'] (TrimSpace line).data = true))) ↔
        (TrimSpace line = "" ∨ ∃ r : String, TrimSpace line = "#" ++ r) := by
      cases hd : (TrimSpace line).data with
      | nil =>
        have he : TrimSpace line = "" := String.ext hd
        simp [he]
      | cons c cs =>
        have hne : TrimSpace line ≠ "" := by
          intro he
          rw [he] at hd
          cases hd
        by_cases hc : c = '#'
        · subst hc
          have hex : ∃ r : String, TrimSpace line = "#" ++ r :=
            ⟨String.mk cs, String.ext (by rw [hd, String.data_append]; rfl)⟩
          simp [List.isPrefixOf, hex]
        · have hnex : ¬ ∃ r : String, TrimSpace line = "#" ++ r := by
            rintro ⟨r, hr⟩
            rw [hr, String.data_append] at hd
            have : ("#" : String).data = ['#'] := rfl
            rw [this] at hd
            simp only [List.singleton_append, List.cons.injEq] at hd
            exact hc hd.1.symm
          simp [List.isPrefixOf, hne, hnex, hc]
          intro h
          exact absurd h.symm hc
    simp only [isEmptyLoop, List.mem_cons, forall_eq_or_imp]
    by_cases hcond : (TrimSpace line).data.length > 0 ∧
        ¬ (List.isPrefixOf ['#'] (TrimSpace line).data = true)
    · rw [if_pos hcond]
      have := (not_congr hline).mp (not_not.mpr hcond)
      simp [this]
    · rw [if_neg hcond, ih]
      have := hline.mp hcond
      simp [this]

theorem dropWhile_append_singleton (p : Char → Bool) (xs : List Char) (c : Char)
    (hc : p c = false) : ∃ ys, (xs ++ [c]).dropWhile p = ys ++ [c] := by
  induction xs with
  | nil => exact ⟨[], by simp [List.dropWhile, hc]⟩
  | cons x rest ih =>
    by_cases hx : p x = true
    · obtain ⟨ys, hys⟩ := ih
      exact ⟨ys, by simp [List.dropWhile, hx, hys]⟩
    · exact ⟨x :: rest, by simp [List.dropWhile, hx]⟩

/-- The first character of a trimmed line is the first character of the line that is not
white space. -/
theorem trimSpaceChars_head (cs : List Char) (c : Char)
    (h : (cs.dropWhile isSpace).head? = some c) : ∃ t, trimSpaceChars cs = c :: t := by
  cases hd : cs.dropWhile isSpace with
  | nil =>
    rw [hd] at h
    cases h
  | cons x t =>
    rw [hd] at h
    simp only [List.head?_cons, Option.some.injEq] at h
    subst h
    have hx : isSpace x = false := by
      have := List.head_dropWhile_not isSpace cs (by rw [hd]; simp)
      simpa [hd] using this
    unfold trimSpaceChars
    rw [hd, List.reverse_cons]
    obtain ⟨ys, hys⟩ := dropWhile_append_singleton isSpace t.reverse x hx
    rw [hys]
    exact ⟨ys.reverse, by simp⟩

/-- C19: `isEmpty contents` is true exactly when every line of `contents` (split on
newlines), trimmed of leading and trailing white space, is empty or begins with `#`; it is
true for the empty string, and false as soon as the first character of a line that is not
white space is not `#`. -/
theorem isEmpty_iff (contents : String) :
    (isEmpty contents = true ↔
      ∀ line ∈ splitLines contents,
        TrimSpace line = "" ∨ ∃ rest : String, TrimSpace line = "#" ++ rest) ∧
    isEmpty "" = true ∧
    (∀ line ∈ splitLines contents, ∀ c, (line.data.dropWhile isSpace).head? = some c →
      c ≠ '#' → isEmpty contents = false) := by
  refine ⟨isEmptyLoop_iff _, by decide, fun line hline c hc hne => ?_⟩
  cases hres : isEmpty contents with
  | false => rfl
  | true =>
    exfalso
    obtain ⟨t, ht⟩ := trimSpaceChars_head line.data c hc
    have hdata : (TrimSpace line).data = c :: t := ht
    rcases (isEmptyLoop_iff _).mp hres line hline with h | ⟨r, hr⟩
    · rw [h] at hdata
      cases hdata
    · rw [hr, String.data_append] at hdata
      have : ("#" : String).data = ['#'] := rfl
      rw [this] at hdata
      simp only [List.singleton_append, List.cons.injEq] at hdata
      exact hne hdata.1.symm

/-- A document of comments and blank lines only is empty; a document with one setting
after a comment is not. -/
theorem isEmpty_iff_witness :
    isEmpty "# c\n\n   # d  " = true ∧
    (" x: 1" ∈ splitLines "# c\n x: 1" ∧
      (" x: 1".data.dropWhile isSpace).head? = some 'x' ∧ isEmpty "# c\n x: 1" = false) :=
  ⟨by decide, by decide, by decide,
    (isEmpty_iff "# c\n x: 1").2.2 " x: 1" (by decide) 'x' (by decide) (by decide)⟩

/-! ### types.go -/

theorem marshalChangesTracker_keys (c : ChangesTracker) :
    (marshalChangesTracker c).keys =
      ["topic", "numPartitions", "replicationFactor", "replicaAssignments", "configEntries",
        "missingKeys", "action"] := rfl

/-- C11: the failing input. The JSON object of the zero-value `ChangesTracker` of `types.go`
has exactly the keys of the seven tagged fields of the struct. The keys `topic` and `action`
are among them and every key is a stable field name, but the key `dryRun` is not among
them: the struct has no `DryRun` field, while the records that `apply_test.go` expects from
`Apply` (`NewChangesTracker`, `UpdateChangesTracker`) carry one. -/
theorem marshalChangesTracker_lacks_dryRun :
    (marshalChangesTracker zeroChangesTracker).keys =
      ["topic", "numPartitions", "replicationFactor", "replicaAssignments", "configEntries",
        "missingKeys", "action"] ∧
    "topic" ∈ (marshalChangesTracker zeroChangesTracker).keys ∧
    "action" ∈ (marshalChangesTracker zeroChangesTracker).keys ∧
    (∀ k ∈ (marshalChangesTracker zeroChangesTracker).keys, k ∈ stableFieldNames) ∧
    "dryRun" ∉ (marshalChangesTracker zeroChangesTracker).keys := by
  rw [marshalChangesTracker_keys]
  decide

/-- C12 (as stated, refuted): in the JSON object of the zero-value `ChangesTracker`, where
every optional field is unset, the keys of the unset fields are all present. -/
theorem marshalChangesTracker_unset_counterexample :
    zeroChangesTracker.ReplicaAssignments = none ∧
    ¬ ("replicaAssignments" ∉ (marshalChangesTracker zeroChangesTracker).keys ∧
      "configEntries" ∉ (marshalChangesTracker zeroChangesTracker).keys ∧
      "missingKeys" ∉ (marshalChangesTracker zeroChangesTracker).keys ∧
      "numPartitions" ∉ (marshalChangesTracker zeroChangesTracker).keys ∧
      "replicationFactor" ∉ (marshalChangesTracker zeroChangesTracker).keys) := by
  rw [marshalChangesTracker_keys]
  exact ⟨rfl, by decide⟩

/-- C12 (amended): no field of a `ChangesTracker` is ever omitted, since no tag of
`types.go` says `omitempty`: every optional field appears as a key, a nil
`ReplicaAssignments`, `ConfigEntries` or `MissingKeys` with the value `null`, and
`NumPartitions` and `ReplicationFactor` with the object of their two numbers. -/
theorem marshalChangesTracker_unset_fields (c : ChangesTracker) :
    (∀ k ∈ ["numPartitions", "replicationFactor", "replicaAssignments", "configEntries",
        "missingKeys"], k ∈ (marshalChangesTracker c).keys) ∧
    (c.ReplicaAssignments = none →
      (marshalChangesTracker c).field "replicaAssignments" = some JSON.null) ∧
    (c.ConfigEntries = none → (marshalChangesTracker c).field "configEntries" = some JSON.null) ∧
    (c.MissingKeys = none → (marshalChangesTracker c).field "missingKeys" = some JSON.null) ∧
    (marshalChangesTracker c).field "numPartitions" =
      some (JSON.object [("current", JSON.number c.NumPartitions.Current),
        ("updated", JSON.number c.NumPartitions.Updated)]) ∧
    (marshalChangesTracker c).field "replicationFactor" =
      some (JSON.object [("current", JSON.number c.ReplicationFactor.Current),
        ("updated", JSON.number c.ReplicationFactor.Updated)]) := by
  refine ⟨?_, fun h => ?_, fun h => ?_, fun h => ?_, rfl, rfl⟩
  · rw [marshalChangesTracker_keys]
    decide
  · show some (marshalSlice marshalReplicaAssignmentChanges c.ReplicaAssignments) = some JSON.null
    rw [h]
    rfl
  · show some (marshalSlice marshalConfigEntryChanges c.ConfigEntries) = some JSON.null
    rw [h]
    rfl
  · show some (marshalStringSlice c.MissingKeys) = some JSON.null
    rw [h]
    rfl

/-- The zero-value record: its three nil lists are written as `null`. -/
theorem marshalChangesTracker_unset_fields_witness :
    zeroChangesTracker.ReplicaAssignments = none ∧
    (marshalChangesTracker zeroChangesTracker).field "replicaAssignments" = some JSON.null :=
  ⟨rfl, (marshalChangesTracker_unset_fields zeroChangesTracker).2.1 rfl⟩

/-- C13: nested change shapes. An `IntValueChanges` is written as the object of `current`
and `updated`, a `ConfigEntryChanges` as the object of `name`, `current` and `updated`, a
`ReplicaAssignmentChanges` as the object of `partition`, `currentReplicas` and
`updatedReplicas`, each key carrying the value of its field (a nil slice as `null`). -/
theorem marshal_nested_shapes (i : IntValueChanges) (e : ConfigEntryChanges)
    (r : ReplicaAssignmentChanges) :
    marshalIntValueChanges i =
      JSON.object [("current", JSON.number i.Current), ("updated", JSON.number i.Updated)] ∧
    marshalConfigEntryChanges e =
      JSON.object [("name", JSON.string e.Name), ("current", JSON.string e.Current),
        ("updated", JSON.string e.Updated)] ∧
    marshalReplicaAssignmentChanges r =
      JSON.object [("partition", JSON.number r.Partition),
        ("currentReplicas", marshalIntSlice r.CurrentReplicas),
        ("updatedReplicas", marshalIntSlice r.UpdatedReplicas)] ∧
    (marshalIntValueChanges i).keys = ["current", "updated"] ∧
    (marshalConfigEntryChanges e).keys = ["name", "current", "updated"] ∧
    (marshalReplicaAssignmentChanges r).keys =
      ["partition", "currentReplicas", "updatedReplicas"] ∧
    (∀ xs, marshalIntSlice (some xs) = JSON.array (xs.map JSON.number)) ∧
    marshalIntSlice none = JSON.null :=
  ⟨rfl, rfl, rfl, rfl, rfl, rfl, fun _ => rfl, rfl⟩

/-! ### format.go: ProcessTopicConfigIntoMap -/

theorem ofText_jsonText (s : GoString) (h : ∀ r ∈ s, ∃ c, r = GoRune.char c) :
    GoString.ofText (jsonText s) = s := by
  unfold GoString.ofText jsonText
  simp only [List.map_map]
  induction s with
  | nil => rfl
  | cons r rest ih =>
    obtain ⟨c, hc⟩ := h r (List.mem_cons_self _ _)
    subst hc
    simp only [List.map_cons, Function.comp]
    rw [ih (fun r' hr' => h r' (List.mem_cons_of_mem _ hr'))]

/-- Numbers read back as `float64`: small integers are exact, and 2^53 + 1 comes back as
2^53. -/
theorem float64OfInt_examples :
    float64OfInt 9 = 9 ∧ float64OfInt (-2) = -2 ∧ float64OfInt 0 = 0 ∧
    float64OfInt 9007199254740992 = 9007199254740992 ∧
    float64OfInt 9007199254740993 = 9007199254740992 ∧
    float64OfInt 9007199254740995 = 9007199254740996 ∧
    float64OfInt (-9007199254740993) = -9007199254740992 ∧
    float64OfInt 9223372036854775807 = 9223372036854775808 := by
  decide

/-- For a topic name that is valid UTF-8, `ProcessTopicConfigIntoMap` returns without panic
and without error the map with the single key `topicName`, whose value holds the fields of
the topic config and the entry `"Action" = "create"`. -/
theorem ProcessTopicConfigIntoMap_valid_name (topicName : GoString)
    (topicConfig : KafkaTopicConfig) (h : ∀ r ∈ topicName, ∃ c, r = GoRune.char c) :
    ∃ inner, ProcessTopicConfigIntoMap topicName topicConfig =
        .returns (.ok [(topicName, ChangesValue.decoded (GoValue.map inner))]) ∧
      (∀ kv ∈ topicConfigFields topicConfig, aget inner kv.1 = some kv.2) ∧
      aget inner "Action" = some (GoValue.str "create") := by
  refine ⟨aset (topicConfigFields topicConfig) "Action" (GoValue.str "create"), ?_, ?_,
    aget_aset_self _ _ _⟩
  · unfold ProcessTopicConfigIntoMap marshalChanges
    simp only [unmarshalInto, ofText_jsonText topicName h, aset, if_true, aget]
  · intro kv hkv
    simp only [topicConfigFields, List.mem_cons, List.mem_singleton, List.not_mem_nil,
      or_false] at hkv
    rcases hkv with h | h | h | h | h <;> subst h <;> rfl

/-- C15 (the failing input): for the topic name made of the single byte `0xff`, which is not
valid UTF-8, `json.Marshal` writes the key as U+FFFD, `json.Unmarshal` stores the decoded
map under that other key, and the type assertion on `changes[topicName]`, still the
`kafka.TopicConfig`, panics. -/
theorem ProcessTopicConfigIntoMap_panics_on_invalid_name :
    ProcessTopicConfigIntoMap [GoRune.badByte 255] exampleKafkaTopicConfig =
      .panic "interface conversion: interface {} is not map[string]interface {}" := by
  rfl

/-- The topic name of the tests, a valid UTF-8 text. -/
theorem ProcessTopicConfigIntoMap_valid_name_witness :
    (∀ r ∈ GoString.ofText "apply-topic", ∃ c, r = GoRune.char c) ∧
    ∃ inner, ProcessTopicConfigIntoMap (GoString.ofText "apply-topic") exampleKafkaTopicConfig =
        .returns (.ok [(GoString.ofText "apply-topic",
          ChangesValue.decoded (GoValue.map inner))]) ∧
      (∀ kv ∈ topicConfigFields exampleKafkaTopicConfig, aget inner kv.1 = some kv.2) ∧
      aget inner "Action" = some (GoValue.str "create") := by
  have hvalid : ∀ r ∈ GoString.ofText "apply-topic", ∃ c, r = GoRune.char c := by
    intro r hr
    unfold GoString.ofText at hr
    obtain ⟨c, _, hc⟩ := List.mem_map.mp hr
    exact ⟨c, hc.symm⟩
  exact ⟨hvalid,
    ProcessTopicConfigIntoMap_valid_name (GoString.ofText "apply-topic")
      exampleKafkaTopicConfig hvalid⟩

/-! ### load.go: LoadTopicsFile -/

/-- The loop of `LoadTopicsFile` loads the non-empty trimmed pieces in order, and fails as
soon as one of them fails to load. -/
theorem loadTopicsLoop_spec (unmarshal : String → TopicConfig × Option String)
    (strs : List String) (acc : List TopicConfig) :
    ((∀ d ∈ (strs.map TrimSpace).filter (fun doc => !isEmpty doc),
        (LoadTopicBytes unmarshal d).2 = none) →
      loadTopicsLoop unmarshal strs acc =
        .ok (acc ++ ((strs.map TrimSpace).filter (fun doc => !isEmpty doc)).map
          (fun d => (LoadTopicBytes unmarshal d).1))) ∧
    ((∃ d ∈ (strs.map TrimSpace).filter (fun doc => !isEmpty doc),
        (LoadTopicBytes unmarshal d).2 ≠ none) →
      ∃ err, loadTopicsLoop unmarshal strs acc = .error err) := by
  induction strs generalizing acc with
  | nil =>
    refine ⟨fun _ => by simp [loadTopicsLoop], ?_⟩
    rintro ⟨d, hd, _⟩
    simp at hd
  | cons s rest ih =>
    by_cases hempty : isEmpty (TrimSpace s) = true
    · have hfilter : ((s :: rest).map TrimSpace).filter (fun doc => !isEmpty doc) =
          (rest.map TrimSpace).filter (fun doc => !isEmpty doc) := by
        simp [List.filter_cons, hempty]
      rw [hfilter]
      simp only [loadTopicsLoop, hempty, if_true]
      exact ih acc
    · have hfilter : ((s :: rest).map TrimSpace).filter (fun doc => !isEmpty doc) =
          TrimSpace s :: (rest.map TrimSpace).filter (fun doc => !isEmpty doc) := by
        simp [List.filter_cons, hempty]
      rw [hfilter]
      simp only [loadTopicsLoop, hempty, if_false]
      cases hload : LoadTopicBytes unmarshal (TrimSpace s) with
      | mk config err =>
        cases err with
        | some e =>
          constructor
          · intro hall
            have := hall (TrimSpace s) (List.mem_cons_self _ _)
            rw [hload] at this
            cases this
          · intro _
            exact ⟨e, rfl⟩
        | none =>
          simp only []
          constructor
          · intro hall
            rw [(ih (acc ++ [config])).1
              (fun d hd => hall d (List.mem_cons_of_mem _ hd))]
            simp [hload]
          · rintro ⟨d, hd, hne⟩
            rcases List.mem_cons.mp hd with h | h
            · subst h
              rw [hload] at hne
              exact absurd rfl hne
            · exact (ih (acc ++ [config])).2 ⟨d, h, hne⟩

/-- C16 (as stated, refuted): the file content `$TOPIC` is one non-empty document, but with
the variable `TOPIC` unset `LoadTopicsFile` expands it to the empty text and returns the
empty list without error, whatever the decoder. -/
theorem LoadTopicsFile_expandEnv_counterexample :
    nonEmptyDocuments "$TOPIC" = ["$TOPIC"] ∧
    (∀ unmarshal, LoadTopicsFile (fun _ => .ok "$TOPIC") (fun _ => "") unmarshal "topics.yaml" =
      .ok []) :=
  ⟨by decide, fun _ => rfl⟩

/-- C16 (amended): `LoadTopicsFile` fails with the error of the read when reading the file
fails. Otherwise, on the non-empty documents of the file content after its environment
variables are expanded, it returns, in order, the config that `LoadTopicBytes` gives for
each document when all of them load, it fails when one of them fails to load, and it
returns the empty list without error when there is no such document. -/
theorem LoadTopicsFile_spec (readFile : String → Except String String)
    (getenv : String → String) (unmarshal : String → TopicConfig × Option String)
    (path : String) :
    (∀ err, readFile path = .error err →
      LoadTopicsFile readFile getenv unmarshal path = .error err) ∧
    (∀ contents, readFile path = .ok contents →
      ((∀ d ∈ nonEmptyDocuments (ExpandEnv getenv contents),
          (LoadTopicBytes unmarshal d).2 = none) →
        LoadTopicsFile readFile getenv unmarshal path =
          .ok ((nonEmptyDocuments (ExpandEnv getenv contents)).map
            (fun d => (LoadTopicBytes unmarshal d).1))) ∧
      ((∃ d ∈ nonEmptyDocuments (ExpandEnv getenv contents),
          (LoadTopicBytes unmarshal d).2 ≠ none) →
        ∃ err, LoadTopicsFile readFile getenv unmarshal path = .error err) ∧
      (nonEmptyDocuments (ExpandEnv getenv contents) = [] →
        LoadTopicsFile readFile getenv unmarshal path = .ok [])) := by
  constructor
  · intro err h
    simp [LoadTopicsFile, h]
  · intro contents h
    have hrun : LoadTopicsFile readFile getenv unmarshal path =
        loadTopicsLoop unmarshal (sepSplit (TrimSpace (ExpandEnv getenv contents))) [] := by
      simp [LoadTopicsFile, h]
    have hloop := loadTopicsLoop_spec unmarshal
      (sepSplit (TrimSpace (ExpandEnv getenv contents))) []
    rw [hrun]
    refine ⟨fun hall => ?_, fun hex => hloop.2 hex, fun hnil => ?_⟩
    · rw [hloop.1 hall]
      rfl
    · have hall : ∀ d ∈ nonEmptyDocuments (ExpandEnv getenv contents),
          (LoadTopicBytes unmarshal d).2 = none := by
        intro d hd
        rw [hnil] at hd
        simp at hd
      rw [hloop.1 hall]
      unfold nonEmptyDocuments at hnil
      rw [hnil]
      rfl

/-- A file of a comment, two documents and a blank document, read with `TOPIC=orders`: the
two documents are loaded in order. -/
theorem LoadTopicsFile_spec_witness :
    (∀ d ∈ nonEmptyDocuments (ExpandEnv (fun name => if name = "TOPIC" then "orders" else "")
        "# topics\n---\n$TOPIC\n---\n\n---\npayments\n"),
      (LoadTopicBytes exampleUnmarshal d).2 = none) ∧
    nonEmptyDocuments (ExpandEnv (fun name => if name = "TOPIC" then "orders" else "")
        "# topics\n---\n$TOPIC\n---\n\n---\npayments\n") = ["orders", "---\npayments"] ∧
    LoadTopicsFile (fun _ => .ok "# topics\n---\n$TOPIC\n---\n\n---\npayments\n")
        (fun name => if name = "TOPIC" then "orders" else "") exampleUnmarshal "topics.yaml" =
      .ok ((nonEmptyDocuments (ExpandEnv (fun name => if name = "TOPIC" then "orders" else "")
        "# topics\n---\n$TOPIC\n---\n\n---\npayments\n")).map
          (fun d => (LoadTopicBytes exampleUnmarshal d).1)) := by
  have hdocs : nonEmptyDocuments (ExpandEnv (fun name => if name = "TOPIC" then "orders" else "")
      "# topics\n---\n$TOPIC\n---\n\n---\npayments\n") = ["orders", "---\npayments"] := by
    decide
  have hall : ∀ d ∈ nonEmptyDocuments
      (ExpandEnv (fun name => if name = "TOPIC" then "orders" else "")
        "# topics\n---\n$TOPIC\n---\n\n---\npayments\n"),
      (LoadTopicBytes exampleUnmarshal d).2 = none := by
    rw [hdocs]
    decide
  exact ⟨hall, hdocs,
    ((LoadTopicsFile_spec (fun _ => .ok "# topics\n---\n$TOPIC\n---\n\n---\npayments\n")
      (fun name => if name = "TOPIC" then "orders" else "") exampleUnmarshal "topics.yaml").2
        _ rfl).1 hall⟩

end Topicctl
